import Mathlib

/-!
Minecraft XDP filter: the varint decoder, the packet inspectors and the flow state machine

A shallow embedding of `src/minecraft_filter.c`.

* A byte range `[start, end)` is the list of its bytes; a pointer into the range is an
  offset from `start`, so `p + k <= end` reads `p + k ≤ buf.length` and the range
  `[reader_index, end)` handed to a callee is `buf.drop reader_index`.
* A byte is its bit pattern `0 .. 255`.  The source reads bytes as `__s8` and promotes them to
  `int`; sign extension leaves the low eight bits alone, so `x & 0x80` and `x & 0x7F` act on
  the bit pattern, and a byte with bit 7 clear is its own value.
* Every memory read is a checked read: a read outside the range makes the whole function
  return `none`.  A `return 0` of the source is `some` of a zero result, never `none`.
* `__s32` values are integers; a value stored into an `__s32` slot goes through `int32`.
-/

namespace MinecraftFilter

/-! ## Bytes and 32-bit integers -/

/-- One byte of packet memory, as its bit pattern. -/
abbrev Byte := Fin 256

/-- The value an `__s32` holds after the bit pattern `n` is stored into it: the low 32 bits of
`n` read as a two's-complement number. -/
def int32 (n : Nat) : Int :=
  if n % 2 ^ 32 < 2 ^ 31 then ((n % 2 ^ 32 : Nat) : Int) else ((n % 2 ^ 32 : Nat) : Int) - 2 ^ 32

/-! ## Length constants (lines 16-22) -/

def MIN_HANDSHAKE_LEN : Int := 1 + 1 + 1 + 2 + 2 + 1
def MAX_HANDSHAKE_LEN : Int := 2 + 1 + 5 + (255 * 3) + 2
def MIN_LOGIN_LEN : Int := 1 + 1 + 2
def STATUS_REQUEST_LEN : Int := 2
def PING_REQUEST_LEN : Int := 10
def MAX_LOGIN_LEN : Int := 2 + 1 + (16 * 3) + 1 + 8 + 512 + 2 + 4096 + 2

def HIT_COUNT : Nat := 10

/-! ## `read_varint_sized` (lines 65-103) -/

/-- The decoder over an abstract checked read `rd` (`rd i` is `start[i]`, `none` when the read
faults) and the distance `len = end - start`.  The result is the returned byte count and the
content of the output slot after the call; `slot` is its content before the call. -/
def read_varint_at (rd : Nat → Option Byte) (len : Nat) (slot : Int) (max_size : Nat) :
    Option (Nat × Int) :=
  if max_size < 1 ∨ len < 1 then some (0, slot) else
  match rd 0 with
  | none => none
  | some first =>
  if first.val &&& 0x80 = 0 then some (1, int32 first.val) else
  if max_size < 2 ∨ len < 2 then some (0, slot) else
  match rd 1 with
  | none => none
  | some second =>
  if second.val &&& 0x80 = 0 then
    some (2, int32 ((first.val &&& 0x7F) ||| ((second.val &&& 0x7F) <<< 7))) else
  if max_size < 3 ∨ len < 3 then some (0, slot) else
  match rd 2 with
  | none => none
  | some third =>
  if third.val &&& 0x80 = 0 then
    some (3, int32 ((first.val &&& 0x7F) ||| ((second.val &&& 0x7F) <<< 7)
      ||| ((third.val &&& 0x7F) <<< 14))) else
  if max_size < 4 ∨ len < 4 then some (0, slot) else
  match rd 3 with
  | none => none
  | some fourth =>
  if fourth.val &&& 0x80 = 0 then
    some (4, int32 ((first.val &&& 0x7F) ||| ((second.val &&& 0x7F) <<< 7)
      ||| ((third.val &&& 0x7F) <<< 14) ||| ((fourth.val &&& 0x7F) <<< 21))) else
  if max_size < 5 ∨ len < 5 then some (0, slot) else
  match rd 4 with
  | none => none
  | some fifth =>
  if fifth.val &&& 0x80 = 0 then
    some (5, int32 ((first.val &&& 0x7F) ||| ((second.val &&& 0x7F) <<< 7)
      ||| ((third.val &&& 0x7F) <<< 14) ||| ((fourth.val &&& 0x7F) <<< 21)
      ||| ((fifth.val &&& 0x7F) <<< 28))) else
  some (0, slot)

/-- The decoder on the range `buf = [start, end)`. -/
def read_varint_sized (buf : List Byte) (slot : Int) (max_size : Nat) : Option (Nat × Int) :=
  read_varint_at (fun i => buf[i]?) buf.length slot max_size

/-- The number of leading bytes of a range that `read_varint_sized` may look at. -/
def varint_window (len max_size : Nat) : Nat := min max_size (min len 5)

/-- A read that faults on every index at or beyond `k`. -/
def fenced (buf : List Byte) (k : Nat) : Nat → Option Byte :=
  fun i => if i < k then buf[i]? else none


/-! ## The varint wire format, in the words of the protocol -/

/-- A well-formed varint: every byte but the last has the continuation bit `0x80` set and the
last one has it clear. -/
def is_varint : List Byte → Bool
  | [] => false
  | [b] => decide (b.val &&& 0x80 = 0)
  | b :: b' :: bs => decide (b.val &&& 0x80 ≠ 0) && is_varint (b' :: bs)

/-- The number a varint spells: seven bits per byte, least significant group first. -/
def varint_sum : List Byte → Nat
  | [] => 0
  | b :: bs => (b.val &&& 0x7F) + 128 * varint_sum bs

/-! ## The fixed-shape inspectors (lines 107-109, 325-327) -/

/-- Line 108: `start + 2 <= end && end - start == STATUS_REQUEST_LEN && start[0] == 1 &&
start[1] == 0`, evaluated left to right with short-circuit. -/
def inspect_status_request (buf : List Byte) : Option Bool :=
  if 2 ≤ buf.length ∧ (buf.length : Int) = STATUS_REQUEST_LEN then
    match buf[0]? with
    | none => none
    | some b0 =>
      if b0.val = 1 then
        match buf[1]? with
        | none => none
        | some b1 => some (decide (b1.val = 0))
      else some false
  else some false

/-- Line 326: `start + 2 <= end && end - start == PING_REQUEST_LEN && start[0] == 9 &&
start[1] == 1`. -/
def inspect_ping_request (buf : List Byte) : Option Bool :=
  if 2 ≤ buf.length ∧ (buf.length : Int) = PING_REQUEST_LEN then
    match buf[0]? with
    | none => none
    | some b0 =>
      if b0.val = 9 then
        match buf[1]? with
        | none => none
        | some b1 => some (decide (b1.val = 1))
      else some false
  else some false

/-! ## `inspect_login_packet` (lines 113-237)

The function is split where the control flow of the source joins: `login_uuid` is lines
201-236 (the UUID block and the final `reader_index == end`), `login_key` is lines 145-200
followed by `login_uuid`, and `inspect_login_packet` is lines 114-144 followed by `login_key`.
`reader_index` is an offset into `buf`. -/

/-- Lines 201-236. -/
def login_uuid (buf : List Byte) (reader_index : Nat) (protocol_version : Int) : Option Bool :=
  if protocol_version ≥ 760 then
    if protocol_version ≥ 764 then
      if reader_index + 16 ≤ buf.length then
        some (decide (reader_index + 16 = buf.length))
      else some false
    else
      if reader_index + 1 ≤ buf.length then
        match buf[reader_index]? with
        | none => none
        | some has_uuid =>
          if has_uuid.val ≠ 0 then
            if reader_index + 1 + 16 ≤ buf.length then
              some (decide (reader_index + 1 + 16 = buf.length))
            else some false
          else some (decide (reader_index + 1 = buf.length))
      else some false
  else some (decide (reader_index = buf.length))

/-- Lines 145-200, then on to `login_uuid`.  The inner `if` of lines 181-183 has no `else`:
when fewer than `signaturey_len` bytes remain, `reader_index` stays where it is and the
function goes on. -/
def login_key (buf : List Byte) (reader_index : Nat) (protocol_version : Int) : Option Bool :=
  if protocol_version ≥ 759 ∧ protocol_version < 761 then
    if reader_index + 1 ≤ buf.length then
      match buf[reader_index]? with
      | none => none
      | some has_public_key =>
        let r1 := reader_index + 1
        if has_public_key.val ≠ 0 then
          if r1 + 8 ≤ buf.length then
            let r2 := r1 + 8
            match read_varint_sized (buf.drop r2) 0 2 with
            | none => none
            | some (key_len_bytes, key_len) =>
              if key_len_bytes = 0 then some false else
              if key_len < 0 ∨ key_len > 512 then some false else
              if r2 + key_len_bytes ≤ buf.length then
                let r3 := r2 + key_len_bytes
                if key_len ≥ 0 ∧ r3 + key_len.toNat ≤ buf.length then
                  let r4 := r3 + key_len.toNat
                  match read_varint_sized (buf.drop r4) 0 2 with
                  | none => none
                  | some (signaturey_len_bytes, signaturey_len) =>
                    if signaturey_len_bytes = 0 then some false else
                    if signaturey_len < 0 ∨ signaturey_len > 4096 then some false else
                    if r4 + signaturey_len_bytes ≤ buf.length then
                      let r5 := r4 + signaturey_len_bytes
                      if r5 + signaturey_len.toNat ≤ buf.length then
                        login_uuid buf (r5 + signaturey_len.toNat) protocol_version
                      else
                        login_uuid buf r5 protocol_version
                    else some false
                else some false
              else some false
          else some false
        else login_uuid buf r1 protocol_version
    else some false
  else login_uuid buf reader_index protocol_version

/-- Lines 113-144, then on to `login_key`.  The locals `packet_len`, `packet_id` and `name_len`
are uninitialised before the decoder writes them; the source reads each only after a non-zero
byte count, so the `0` given as their prior content is never observed. -/
def inspect_login_packet (buf : List Byte) (protocol_version : Int) : Option Bool :=
  let size : Int := buf.length
  if size < MIN_LOGIN_LEN ∨ size > MAX_LOGIN_LEN then some false else
  match read_varint_sized buf 0 2 with
  | none => none
  | some (packet_len_bytes, packet_len) =>
  if packet_len_bytes = 0 ∨ packet_len > MAX_LOGIN_LEN then some false else
  let r1 := packet_len_bytes
  match read_varint_sized (buf.drop r1) 0 1 with
  | none => none
  | some (packet_id_bytes, packet_id) =>
  if packet_id_bytes = 0 ∨ packet_id ≠ 0 then some false else
  let r2 := r1 + packet_id_bytes
  match read_varint_sized (buf.drop r2) 0 2 with
  | none => none
  | some (name_len_bytes, name_len) =>
  if name_len_bytes = 0 then some false else
  if name_len > 16 * 3 ∨ name_len < 1 then some false else
  if r2 + name_len_bytes ≤ buf.length then
    let r3 := r2 + name_len_bytes
    if r3 + name_len.toNat ≤ buf.length then
      login_key buf (r3 + name_len.toNat) protocol_version
    else some false
  else some false

/-! ## `inspect_handshake` (lines 245-323) -/

/-- The constants of `common.h`, which is not among the sources: the connection states, the
retry budget and the session refresh interval.  They are parameters of the model. -/
structure Common where
  AWAIT_ACK : Nat
  AWAIT_MC_HANDSHAKE : Nat
  AWAIT_STATUS_REQUEST : Nat
  AWAIT_LOGIN : Nat
  AWAIT_PING : Nat
  PING_COMPLETE : Nat
  LOGIN_FINISHED : Nat
  RECEIVED_LEGACY_PING : Nat
  MAX_RETRANSMISSION : Nat
  SECOND_TO_NANOS : Nat

/-- The state constants are non-zero and pairwise different, as the source takes for granted
when it tests `!next_state` and compares states with `==`. -/
def Common.distinct (c : Common) : Prop :=
  List.Nodup [0, c.AWAIT_ACK, c.AWAIT_MC_HANDSHAKE, c.AWAIT_STATUS_REQUEST, c.AWAIT_LOGIN,
    c.AWAIT_PING, c.PING_COMPLETE, c.LOGIN_FINISHED, c.RECEIVED_LEGACY_PING]

instance (c : Common) : Decidable c.distinct := by unfold Common.distinct; infer_instance

/-- Lines 305-322: the reader stands at `reader_index` after the intention. -/
def handshake_tail (c : Common) (buf : List Byte) (reader_index : Nat) (intention : Int)
    (protocol_version : Int) : Option (Nat × Int) :=
  if reader_index = buf.length then
    some (if intention = 1 then c.AWAIT_STATUS_REQUEST else c.AWAIT_LOGIN, protocol_version)
  else if intention = 1 then
    match inspect_status_request (buf.drop reader_index) with
    | none => none
    | some true => some (c.AWAIT_PING, protocol_version)
    | some false => some (0, protocol_version)
  else
    match inspect_login_packet (buf.drop reader_index) protocol_version with
    | none => none
    | some true => some (c.LOGIN_FINISHED, protocol_version)
    | some false => some (0, protocol_version)

/-- Lines 258-303, then on to `handshake_tail`: the fields of the handshake. -/
def handshake_fields (c : Common) (buf : List Byte) (protocol_version : Int) :
    Option (Nat × Int) :=
  match read_varint_sized buf 0 2 with
  | none => none
  | some (packet_len_bytes, packet_len) =>
  if packet_len_bytes = 0 ∨ packet_len > MAX_HANDSHAKE_LEN then some (0, protocol_version) else
  let r1 := packet_len_bytes
  match read_varint_sized (buf.drop r1) 0 1 with
  | none => none
  | some (packet_id_bytes, packet_id) =>
  if packet_id_bytes = 0 ∨ packet_id ≠ 0 then some (0, protocol_version) else
  let r2 := r1 + packet_id_bytes
  match read_varint_sized (buf.drop r2) protocol_version 5 with
  | none => none
  | some (protocol_version_bytes, version) =>
  if protocol_version_bytes = 0 then some (0, version) else
  let r3 := r2 + protocol_version_bytes
  match read_varint_sized (buf.drop r3) 0 2 with
  | none => none
  | some (host_len_bytes, host_len) =>
  if host_len_bytes = 0 then some (0, version) else
  if host_len > 255 * 3 ∨ host_len < 1 then some (0, version) else
  if r3 + host_len_bytes > buf.length then some (0, version) else
  let r4 := r3 + host_len_bytes
  if r4 + host_len.toNat > buf.length then some (0, version) else
  let r5 := r4 + host_len.toNat
  if r5 + 2 > buf.length then some (0, version) else
  let r6 := r5 + 2
  match read_varint_sized (buf.drop r6) 0 1 with
  | none => none
  | some (intention_bytes, intention) =>
  if intention_bytes = 0 ∨
      (intention ≠ 1 ∧ intention ≠ 2 ∧ (if version ≥ 766 then intention ≠ 3 else True)) then
    some (0, version)
  else handshake_tail c buf (r6 + intention_bytes) intention version

/-- Lines 245-256, then on to `handshake_fields`.  The result is the returned `__s32` and the
content of the slot `*protocol_version` after the call; the source never uses `tcp_dest`. -/
def inspect_handshake (c : Common) (buf : List Byte) (protocol_version : Int) (_tcp_dest : Nat) :
    Option (Nat × Int) :=
  let legacy : Option Bool :=
    if 1 ≤ buf.length then
      match buf[0]? with
      | none => none
      | some b0 => some (decide (b0.val = 0xFE))
    else some false
  match legacy with
  | none => none
  | some true => some (c.RECEIVED_LEGACY_PING, protocol_version)
  | some false =>
  let size : Int := buf.length
  if size > MAX_HANDSHAKE_LEN + MAX_LOGIN_LEN ∨ size < MIN_HANDSHAKE_LEN then
    some (0, protocol_version)
  else handshake_fields c buf protocol_version

/-! ## The stores and the packet (lines 24-53, 341-387)

The four BPF maps are partial functions from keys to values.  A pointer returned by
`bpf_map_lookup_elem` points at the stored value itself, so an assignment through it changes
the store at the key that was looked up. -/

/-- Modelled from the spec: `struct ipv4_flow_key` is declared in `common.h`, which is not among
the sources; §3 gives the flow key as (source address, destination address, source port,
destination port). -/
structure ipv4_flow_key where
  src_ip : Nat
  dst_ip : Nat
  src_port : Nat
  dst_port : Nat
  deriving DecidableEq

/-- Modelled from the spec: `gen_ipv4_flow_key` of `common.h` builds the flow key from its
four components. -/
def gen_ipv4_flow_key (src_ip dst_ip src_port dst_port : Nat) : ipv4_flow_key :=
  { src_ip := src_ip, dst_ip := dst_ip, src_port := src_port, dst_port := dst_port }

/-- Modelled from the spec: `struct initial_state` is declared in `common.h`; §3 gives the
flow record as `state`, `protocol_version` (signed 32-bit) and `failure_count` (unsigned, no
width stated, so a natural number here). -/
structure initial_state where
  state : Nat
  protocol : Int
  fails : Nat
  deriving DecidableEq

/-- Modelled from the spec: `gen_initial_state` of `common.h` makes a fresh record;
`failure_count` starts at 0. -/
def gen_initial_state (state : Nat) (protocol : Int) : initial_state :=
  { state := state, protocol := protocol, fails := 0 }

/-- The verdicts of `enum xdp_action` that the filter returns. -/
inductive xdp_action where
  | XDP_ABORTED
  | XDP_DROP
  | XDP_PASS
  deriving DecidableEq

open xdp_action

/-- The four maps of lines 24-53. -/
structure Maps where
  conntrack_map : ipv4_flow_key → Option initial_state
  player_connection_map : ipv4_flow_key → Option Nat
  blocked_ips : Nat → Option Nat
  connection_throttle : Nat → Option Nat

/-- The store `m` with `v` at key `k`. -/
def map_update {κ ν : Type} [DecidableEq κ] (m : κ → Option ν) (k : κ) (v : ν) : κ → Option ν :=
  fun x => if x = k then some v else m x

/-- `bpf_map_delete_elem`: the store `m` without key `k`. -/
def map_delete {κ ν : Type} [DecidableEq κ] (m : κ → Option ν) (k : κ) : κ → Option ν :=
  fun x => if x = k then none else m x

/-- `bpf_map_update_elem(.., BPF_ANY)`: when the helper succeeds (`ok`, return value 0) the
store holds `v` at `k`; when it fails (return value `< 0`) the store is unchanged. -/
def bpf_map_update_elem {κ ν : Type} [DecidableEq κ] (ok : Bool) (m : κ → Option ν) (k : κ)
    (v : ν) : κ → Option ν :=
  if ok then map_update m k v else m

/-- What one invocation gets from outside the program: the clock, whether each helper write
succeeds, and the bytes that `retransmission` hands to the map helpers as keys.
`retransmission` receives `src_ip` and `flow_key` as pointers and passes `&src_ip` and
`&flow_key`, the addresses of its own pointer parameters, so the key bytes the helpers read are
those of the two pointers: `src_ip_ref` is the four bytes found at `&src_ip` and `flow_key_ref`
the key-sized bytes found at `&flow_key`. -/
structure Env where
  now : Nat
  throttle_write_ok : Bool
  conntrack_write_ok : Bool
  ack_write_ok : Bool
  session_write_ok : Bool
  block_write_ok : Bool
  src_ip_ref : Nat
  flow_key_ref : ipv4_flow_key

/-- One received frame: its bytes `[data, data_end)` and the header fields the source reads
through its `ethhdr`, `iphdr` and `tcphdr` casts (ports and protocol numbers as numbers, the
byte order of the wire left aside). -/
structure Frame where
  data : List Byte
  h_proto : Nat
  ihl : Nat
  protocol : Nat
  saddr : Nat
  daddr : Nat
  source : Nat
  dest : Nat
  doff : Nat
  syn : Bool
  ack : Bool
  fin : Bool
  rst : Bool
  urg : Bool

def MINECRAFT_PORT : Nat := 25565
def ETH_P_IP : Nat := 0x0800
def IPPROTO_TCP : Nat := 6
/-- The sizes of `struct ethhdr`, `struct iphdr` and `struct tcphdr`. -/
def ETH_HLEN : Nat := 14
def IPHDR_LEN : Nat := 20
def TCPHDR_LEN : Nat := 20

/-- The offset of `tcp_payload` in the frame (line 460). -/
def Frame.payload_offset (f : Frame) : Nat := ETH_HLEN + f.ihl * 4 + f.doff * 4

/-- The range `[tcp_payload, tcp_payload_end)`. -/
def Frame.payload (f : Frame) : List Byte := f.data.drop f.payload_offset

/-- The flow key of a frame (lines 416, 430). -/
def Frame.flow_key (f : Frame) : ipv4_flow_key :=
  gen_ipv4_flow_key f.saddr f.daddr f.source f.dest

/-- Lines 55-62. -/
def detect_tcp_bypass (f : Frame) : Bool :=
  (!f.syn && !f.ack && !f.fin && !f.rst) || (f.syn && f.ack) || f.urg

/-! ## `retransmission` (lines 329-338) -/

/-- The retry policy.  `flow` is the key under which `initial_state` was looked up, `st` the
record it points at.  `++initial_state->fails` writes through that pointer; the two helper calls
take their keys from `&src_ip` and `&flow_key` (see `Env`). -/
def retransmission (c : Common) (env : Env) (m : Maps) (flow : ipv4_flow_key)
    (st : initial_state) : xdp_action × Maps :=
  let st1 : initial_state := { st with fails := st.fails + 1 }
  let m1 : Maps := { m with conntrack_map := map_update m.conntrack_map flow st1 }
  if st1.fails > c.MAX_RETRANSMISSION then
    let m2 : Maps := { m1 with
      blocked_ips := bpf_map_update_elem env.block_write_ok m1.blocked_ips env.src_ip_ref env.now }
    (XDP_DROP, { m2 with conntrack_map := map_delete m2.conntrack_map env.flow_key_ref })
  else
    (XDP_DROP, { m1 with
      conntrack_map :=
        bpf_map_update_elem env.conntrack_write_ok m1.conntrack_map env.flow_key_ref st1 })

/-! ## `minecraft_filter` (lines 340-541) -/

/-- Lines 416-427: the SYN passed the blocklist and the throttle; `m` already holds the new
throttle count. -/
def filter_new_flow (c : Common) (env : Env) (m : Maps) (f : Frame) : xdp_action × Maps :=
  let flow_key := f.flow_key
  match m.conntrack_map flow_key with
  | some _ => (XDP_DROP, m)
  | none =>
    let new_state := gen_initial_state c.AWAIT_ACK 0
    if env.conntrack_write_ok then
      (XDP_PASS, { m with conntrack_map := map_update m.conntrack_map flow_key new_state })
    else (XDP_DROP, m)

/-- Lines 390-428: the SYN branch. -/
def filter_syn (c : Common) (env : Env) (m : Maps) (f : Frame) : xdp_action × Maps :=
  let src_ip := f.saddr
  match m.blocked_ips src_ip with
  | some _ => (XDP_DROP, m)
  | none =>
    match m.connection_throttle src_ip with
    | some count =>
      if count > HIT_COUNT then (XDP_DROP, m)
      else if env.throttle_write_ok then
        filter_new_flow c env
          { m with connection_throttle := map_update m.connection_throttle src_ip (count + 1) } f
      else (XDP_DROP, m)
    | none =>
      if env.throttle_write_ok then
        filter_new_flow c env
          { m with connection_throttle := map_update m.connection_throttle src_ip 1 } f
      else (XDP_DROP, m)

/-- Lines 484-502: the handshake inspector returned a state other than 0 and
`RECEIVED_LEGACY_PING`. -/
def filter_advance (c : Common) (env : Env) (m : Maps) (flow_key : ipv4_flow_key)
    (st : initial_state) (next_state : Nat) (protocol_version : Int) : xdp_action × Maps :=
  let st1 : initial_state := { st with state := next_state, protocol := protocol_version }
  let m1 : Maps := { m with conntrack_map := map_update m.conntrack_map flow_key st1 }
  if next_state = c.LOGIN_FINISHED then
    if env.session_write_ok then
      (XDP_PASS, { m1 with
        player_connection_map := map_update m1.player_connection_map flow_key env.now
        conntrack_map := map_delete m1.conntrack_map flow_key })
    else (XDP_DROP, { m1 with conntrack_map := map_delete m1.conntrack_map flow_key })
  else
    if env.conntrack_write_ok then
      (XDP_PASS, { m1 with conntrack_map := map_update m1.conntrack_map flow_key st1 })
    else (XDP_DROP, m1)

/-- Lines 503-520: a state whose packet passed its inspector moves on to `next_state`. -/
def filter_next (env : Env) (m : Maps) (flow_key : ipv4_flow_key) (st : initial_state)
    (next_state : Nat) : xdp_action × Maps :=
  let st1 : initial_state := { st with state := next_state }
  let m1 : Maps := { m with conntrack_map := map_update m.conntrack_map flow_key st1 }
  if env.conntrack_write_ok then
    (XDP_PASS, { m1 with conntrack_map := map_update m1.conntrack_map flow_key st1 })
  else (XDP_DROP, m1)

/-- Lines 460-540: the payload dispatch.  `st` is the record `initial_state` points at and
`state` the local of the same name. -/
def filter_payload (c : Common) (env : Env) (m : Maps) (f : Frame) (flow_key : ipv4_flow_key)
    (st : initial_state) (state : Nat) : Option (xdp_action × Maps) :=
  if f.payload_offset < f.data.length then
    if !f.ack then
      some (XDP_DROP, { m with conntrack_map := map_delete m.conntrack_map flow_key })
    else if state = c.AWAIT_MC_HANDSHAKE then
      match inspect_handshake c f.payload 0 f.dest with
      | none => none
      | some (next_state, protocol_version) =>
        if next_state = 0 then some (retransmission c env m flow_key st)
        else if next_state = c.RECEIVED_LEGACY_PING then
          some (XDP_DROP, { m with conntrack_map := map_delete m.conntrack_map flow_key })
        else some (filter_advance c env m flow_key st next_state protocol_version)
    else if state = c.AWAIT_STATUS_REQUEST then
      match inspect_status_request f.payload with
      | none => none
      | some false => some (retransmission c env m flow_key st)
      | some true => some (filter_next env m flow_key st c.AWAIT_PING)
    else if state = c.AWAIT_PING then
      match inspect_ping_request f.payload with
      | none => none
      | some false => some (retransmission c env m flow_key st)
      | some true => some (filter_next env m flow_key st c.PING_COMPLETE)
    else if state = c.AWAIT_LOGIN then
      match inspect_login_packet f.payload st.protocol with
      | none => none
      | some false => some (retransmission c env m flow_key st)
      | some true =>
        if env.session_write_ok then
          some (XDP_PASS, { m with
            player_connection_map := map_update m.player_connection_map flow_key env.now
            conntrack_map := map_delete m.conntrack_map flow_key })
        else some (XDP_DROP, { m with conntrack_map := map_delete m.conntrack_map flow_key })
    else if state = c.PING_COMPLETE then
      some (XDP_DROP, { m with conntrack_map := map_delete m.conntrack_map flow_key })
    else some (XDP_PASS, m)
  else some (XDP_PASS, m)

/-- Lines 430-540: a packet without SYN. -/
def filter_flow (c : Common) (env : Env) (m : Maps) (f : Frame) : Option (xdp_action × Maps) :=
  let flow_key := f.flow_key
  match m.player_connection_map flow_key with
  | some lastTime =>
    if (lastTime + c.SECOND_TO_NANOS) % 2 ^ 64 < env.now then
      some (XDP_PASS, { m with
        player_connection_map :=
          bpf_map_update_elem env.session_write_ok m.player_connection_map flow_key env.now })
    else some (XDP_PASS, m)
  | none =>
    match m.conntrack_map flow_key with
    | none => some (XDP_DROP, m)
    | some st =>
      if st.state = c.AWAIT_ACK then
        if !f.ack then some (XDP_DROP, m)
        else
          let st1 : initial_state := { st with state := c.AWAIT_MC_HANDSHAKE }
          let m1 : Maps := { m with conntrack_map := map_update m.conntrack_map flow_key st1 }
          if env.ack_write_ok then
            filter_payload c env
              { m1 with conntrack_map := map_update m1.conntrack_map flow_key st1 } f flow_key st1
              c.AWAIT_MC_HANDSHAKE
          else some (XDP_DROP, m1)
      else filter_payload c env m f flow_key st st.state

/-- Lines 341-386: the frame reaches line 387, that is, every header check lets it through
and `detect_tcp_bypass` does not fire. -/
def Frame.inspected (f : Frame) : Prop :=
  ETH_HLEN ≤ f.data.length ∧ f.h_proto = ETH_P_IP ∧
  ETH_HLEN + IPHDR_LEN ≤ f.data.length ∧ 5 ≤ f.ihl ∧ f.protocol = IPPROTO_TCP ∧
  ETH_HLEN + f.ihl * 4 + TCPHDR_LEN ≤ f.data.length ∧ f.dest = MINECRAFT_PORT ∧ 5 ≤ f.doff ∧
  ETH_HLEN + f.ihl * 4 + f.doff * 4 ≤ f.data.length ∧ detect_tcp_bypass f = false

instance (f : Frame) : Decidable f.inspected := by unfold Frame.inspected; infer_instance

/-- The XDP program: the verdict for one frame and the stores after it. -/
def minecraft_filter (c : Common) (env : Env) (m : Maps) (f : Frame) :
    Option (xdp_action × Maps) :=
  if ETH_HLEN > f.data.length then some (XDP_ABORTED, m)
  else if f.h_proto ≠ ETH_P_IP then some (XDP_PASS, m)
  else if ETH_HLEN + IPHDR_LEN > f.data.length ∨ f.ihl < 5 then some (XDP_ABORTED, m)
  else if f.protocol ≠ IPPROTO_TCP then some (XDP_PASS, m)
  else if ETH_HLEN + f.ihl * 4 + TCPHDR_LEN > f.data.length then some (XDP_ABORTED, m)
  else if f.dest ≠ MINECRAFT_PORT then some (XDP_PASS, m)
  else if f.doff < 5 then some (XDP_ABORTED, m)
  else if ETH_HLEN + f.ihl * 4 + f.doff * 4 > f.data.length then some (XDP_ABORTED, m)
  else if detect_tcp_bypass f then some (XDP_DROP, m)
  else if f.syn then some (filter_syn c env m f)
  else filter_flow c env m f

/-! ## The handshake's leading fields, in the words of the protocol -/

/-- The fields of a handshake packet as they lie on the wire: the outer-length varint, (the
packet-id byte 0,) the protocol-version varint, the host-length varint, the host bytes, the
port bytes and the intention byte. -/
structure HandshakeHead where
  len_bytes : List Byte
  version_bytes : List Byte
  host_len_bytes : List Byte
  host : List Byte
  port : List Byte
  intention : Byte

/-- The bytes of the fields, in wire order. -/
def HandshakeHead.bytes (h : HandshakeHead) : List Byte :=
  h.len_bytes ++ (0 :: (h.version_bytes ++ (h.host_len_bytes ++ (h.host ++ (h.port ++
    [h.intention])))))

/-- The protocol version the fields declare, as a signed 32-bit number. -/
def HandshakeHead.version (h : HandshakeHead) : Int := int32 (varint_sum h.version_bytes)

/-- The fields are well formed: an outer-length varint of at most 2 bytes with value at most
775, a protocol-version varint of at most 5 bytes, a host-length varint of at most 2 bytes with
value in `[1, 765]`, that many host bytes, 2 port bytes and an intention of one varint byte. -/
def HandshakeHead.well_formed (h : HandshakeHead) : Prop :=
  is_varint h.len_bytes = true ∧ h.len_bytes.length ≤ 2 ∧ varint_sum h.len_bytes ≤ 775 ∧
  is_varint h.version_bytes = true ∧ h.version_bytes.length ≤ 5 ∧
  is_varint h.host_len_bytes = true ∧ h.host_len_bytes.length ≤ 2 ∧
  1 ≤ varint_sum h.host_len_bytes ∧ varint_sum h.host_len_bytes ≤ 765 ∧
  h.host.length = varint_sum h.host_len_bytes ∧ h.port.length = 2 ∧ h.intention.val < 128

instance (h : HandshakeHead) : Decidable h.well_formed := by
  unfold HandshakeHead.well_formed; infer_instance

/-- The intention rule: 1 (status), 2 (login), or 3 (transfer) from protocol version 766 on. -/
def intention_permitted (intention : Byte) (version : Int) : Prop :=
  intention.val = 1 ∨ intention.val = 2 ∨ (intention.val = 3 ∧ version ≥ 766)

instance (i : Byte) (v : Int) : Decidable (intention_permitted i v) := by
  unfold intention_permitted; infer_instance

/-- The result the handshake inspector owes a range made of well-formed fields with a
permitted intention followed by `rest`. -/
def handshake_result (c : Common) (h : HandshakeHead) (rest : List Byte) : Nat :=
  if rest = [] then
    if h.intention.val = 1 then c.AWAIT_STATUS_REQUEST else c.AWAIT_LOGIN
  else if h.intention.val = 1 then
    if rest = [0x01, 0x00] then c.AWAIT_PING else 0
  else
    if inspect_login_packet rest h.version = some true then c.LOGIN_FINISHED else 0

/-! ## Failed inspections and sample data -/

/-- The packet `payload` fails the inspection that the record's state calls for: the handshake
inspector returns 0 in the handshake state, or the status, ping or login inspector returns
false in its state. -/
def inspection_fails (c : Common) (st : initial_state) (payload : List Byte) (dest : Nat) :
    Prop :=
  (st.state = c.AWAIT_MC_HANDSHAKE ∧
    (inspect_handshake c payload 0 dest).map Prod.fst = some 0) ∨
  (st.state = c.AWAIT_STATUS_REQUEST ∧ inspect_status_request payload = some false) ∨
  (st.state = c.AWAIT_PING ∧ inspect_ping_request payload = some false) ∨
  (st.state = c.AWAIT_LOGIN ∧ inspect_login_packet payload st.protocol = some false)

instance (c : Common) (st : initial_state) (payload : List Byte) (dest : Nat) :
    Decidable (inspection_fails c st payload dest) := by
  unfold inspection_fails; infer_instance

/-- Sample values for the constants of `common.h`: states 1 to 8, a retry budget of 3 and one
second in nanoseconds. -/
def sample_common : Common :=
  { AWAIT_ACK := 1, AWAIT_MC_HANDSHAKE := 2, AWAIT_STATUS_REQUEST := 3, AWAIT_LOGIN := 4,
    AWAIT_PING := 5, PING_COMPLETE := 6, LOGIN_FINISHED := 7, RECEIVED_LEGACY_PING := 8,
    MAX_RETRANSMISSION := 3, SECOND_TO_NANOS := 1000000000 }

/-- The fields of a handshake for protocol version `version_bytes`, host `a`, port 25565 and
the given intention; the outer length `0x08` is the length of the body when the version takes
two bytes. -/
def sample_head (version_bytes : List Byte) (intention : Byte) : HandshakeHead :=
  { len_bytes := [0x08], version_bytes := version_bytes, host_len_bytes := [0x01],
    host := [0x61], port := [0x63, 0xDD], intention := intention }

/-- Protocol version 759 as a varint. -/
def version_759 : List Byte := [0xF7, 0x05]

/-- A login packet for version 759: outer length 16, packet id 0, the name `a`, a signing-key
block with 8 expiry bytes, a 1-byte key and a 1-byte signature. -/
def login_759 : List Byte :=
  [0x10, 0x00, 0x01, 0x61, 0x01] ++ List.replicate 8 0x00 ++ [0x01, 0x4B, 0x01, 0x53]

/-- A login packet for version 759 whose signature-length varint announces 5 bytes and which
ends right there. -/
def login_759_cut : List Byte :=
  [0x14, 0x00, 0x01, 0x61, 0x01] ++ List.replicate 8 0x00 ++ [0x01, 0x4B, 0x05]

/-- A login packet for version 760 whose signature-length varint announces 5 bytes, followed by
a single zero byte. -/
def login_760_cut : List Byte :=
  [0x15, 0x00, 0x01, 0x61, 0x01] ++ List.replicate 8 0x00 ++ [0x01, 0x4B, 0x05, 0x00]

/-- A frame of a client at 10.0.0.1:40000 to the server at 10.0.0.2:25565 with ACK set: 54
header bytes (Ethernet, IPv4 without options, TCP without options) and then `payload`. -/
def sample_frame (payload : List Byte) : Frame :=
  { data := List.replicate 54 0x00 ++ payload, h_proto := ETH_P_IP, ihl := 5,
    protocol := IPPROTO_TCP, saddr := 0x0A000001, daddr := 0x0A000002, source := 40000,
    dest := MINECRAFT_PORT, doff := 5, syn := false, ack := true, fin := false, rst := false,
    urg := false }

/-- A SYN of the same client from port 40001, without payload. -/
def sample_syn : Frame :=
  { sample_frame [] with source := 40001, syn := true, ack := false }

/-- An invocation in which every helper write succeeds.  The pointer `src_ip` handed to
`retransmission` is the stack address `0xffffc9000012fd5c`, so the four bytes at `&src_ip` are
`0x0012fd5c`; the bytes at `&flow_key` hold the stack address `0xffffc9000012fd48` and what
lies behind it. -/
def sample_env : Env :=
  { now := 5000000000, throttle_write_ok := true, conntrack_write_ok := true,
    ack_write_ok := true, session_write_ok := true, block_write_ok := true,
    src_ip_ref := 0x0012FD5C,
    flow_key_ref := { src_ip := 0x0012FD48, dst_ip := 0xFFFFC900, src_port := 0, dst_port := 0 } }

/-- Stores that hold one flow record, for the flow of `sample_frame`, in state `state` with
protocol version 759 and `fails` failures, and nothing else. -/
def sample_maps (state fails : Nat) : Maps :=
  { conntrack_map := fun k =>
      if k = gen_ipv4_flow_key 0x0A000001 0x0A000002 40000 MINECRAFT_PORT then
        some { state := state, protocol := 759, fails := fails }
      else none,
    player_connection_map := fun _ => none,
    blocked_ips := fun _ => none,
    connection_throttle := fun _ => none }

/-! ## The standard encodings of the handshake and login packets -/

/-- The byte with value `n mod 256`. -/
def byte (n : Nat) : Byte := ⟨n % 256, Nat.mod_lt n (by decide)⟩

/-- The shortest varint of `n`, cut off after `fuel` bytes. -/
def encode_varint_fuel : Nat → Nat → List Byte
  | 0, _ => []
  | fuel + 1, n =>
    if n < 128 then [byte n] else byte (n % 128 + 128) :: encode_varint_fuel fuel (n / 128)

/-- The shortest varint of `n`; five bytes hold every `n < 2^35`. -/
def encode_varint (n : Nat) : List Byte := encode_varint_fuel 5 n

/-- The 32-bit pattern of a signed 32-bit number. -/
def bits32 (v : Int) : Nat := (v % 2 ^ 32).toNat

/-- The length of the body of the standard handshake: the packet id, the version varint, the
host-length varint, the host, two port bytes and the intention. -/
def handshake_body_len (version : Int) (host : List Byte) : Nat :=
  1 + (encode_varint (bits32 version)).length + (encode_varint host.length).length
    + host.length + 2 + 1

/-- The fields of the standard handshake: shortest varints, packet id 0, the port in network
byte order, and an outer length equal to the length of the body. -/
def encode_handshake_head (version : Int) (host : List Byte) (port : Nat) (intention : Byte) :
    HandshakeHead :=
  { len_bytes := encode_varint (handshake_body_len version host),
    version_bytes := encode_varint (bits32 version),
    host_len_bytes := encode_varint host.length, host := host,
    port := [byte (port / 256), byte port], intention := intention }

/-- The standard encoding of a handshake packet. -/
def encode_handshake (version : Int) (host : List Byte) (port : Nat) (intention : Byte) :
    List Byte :=
  (encode_handshake_head version host port intention).bytes

/-- What a login packet carries: the name, the optional signing-key block (expiry, key and
signature) and the UUID, which is optional for protocol versions 760 to 763. -/
structure LoginFields where
  name : List Byte
  has_key : Bool
  expiry : List Byte
  key : List Byte
  signature : List Byte
  has_uuid : Bool
  uuid : List Byte

/-- The field sizes the login wire shape allows. -/
def LoginFields.valid (l : LoginFields) : Prop :=
  1 ≤ l.name.length ∧ l.name.length ≤ 48 ∧ l.expiry.length = 8 ∧ l.key.length ≤ 512 ∧
  l.signature.length ≤ 4096 ∧ l.uuid.length = 16

instance (l : LoginFields) : Decidable l.valid := by unfold LoginFields.valid; infer_instance

/-- The signing-key block, present on the wire for versions 759 and 760. -/
def key_block (version : Int) (l : LoginFields) : List Byte :=
  if version ≥ 759 ∧ version < 761 then
    if l.has_key then
      0x01 :: (l.expiry ++ (encode_varint l.key.length ++ (l.key ++
        (encode_varint l.signature.length ++ l.signature))))
    else [0x00]
  else []

/-- The UUID block: sixteen bytes from version 764 on, a flag and then the optional sixteen
bytes for versions 760 to 763, nothing before. -/
def uuid_block (version : Int) (l : LoginFields) : List Byte :=
  if version ≥ 764 then l.uuid
  else if version ≥ 760 then (if l.has_uuid then 0x01 :: l.uuid else [0x00])
  else []

/-- The body of the login packet: packet id 0, the name and the two blocks. -/
def login_body (version : Int) (l : LoginFields) : List Byte :=
  0x00 :: (encode_varint l.name.length ++ (l.name ++ (key_block version l ++
    uuid_block version l)))

/-- The standard encoding of a login packet for `version`. -/
def encode_login (version : Int) (l : LoginFields) : List Byte :=
  encode_varint (login_body version l).length ++ login_body version l

/-- A login content with a signing-key block of a 1-byte key and a 1-byte signature, and a
UUID. -/
def sample_login : LoginFields :=
  { name := [0x61], has_key := true, expiry := List.replicate 8 0x00, key := [0x4B],
    signature := [0x53], has_uuid := true, uuid := List.replicate 16 0x55 }

/-- A login content with every field at its largest: a 48-byte name, a 512-byte key and a
4096-byte signature. -/
def sample_login_full : LoginFields :=
  { name := List.replicate 48 0x41, has_key := true, expiry := List.replicate 8 0x00,
    key := List.replicate 512 0x4B, signature := List.replicate 4096 0x53, has_uuid := true,
    uuid := List.replicate 16 0x55 }

/-! ## Runs of the filter and further sample data -/

/-- The filter applied to a sequence of frames, one invocation after the other, each with its
own environment: the verdicts in order and the stores after the last frame. -/
def minecraft_filter_run (c : Common) :
    Maps → List (Env × Frame) → Option (List xdp_action × Maps)
  | m, [] => some ([], m)
  | m, (env, f) :: rest =>
    match minecraft_filter c env m f with
    | none => none
    | some (verdict, m1) =>
      match minecraft_filter_run c m1 rest with
      | none => none
      | some (verdicts, m2) => some (verdict :: verdicts, m2)

/-- The throttle entry that stands for a count of SYNs: no entry for 0. -/
def throttle_entry (count : Nat) : Option Nat := if count = 0 then none else some count

/-- The record `st` after line 453 has moved it to the handshake-pending state. -/
def ack_record (c : Common) (st : initial_state) : initial_state :=
  { st with state := c.AWAIT_MC_HANDSHAKE }

/-- An invocation in which every helper write fails. -/
def sample_env_no_write : Env :=
  { sample_env with
    throttle_write_ok := false
    conntrack_write_ok := false
    ack_write_ok := false
    session_write_ok := false
    block_write_ok := false }

/-- Twelve SYNs of the client 10.0.0.1, from the source ports 40001 to 40012, each in an
invocation whose writes succeed. -/
def sample_syn_burst : List (Env × Frame) :=
  (List.range 12).map (fun i => (sample_env, { sample_syn with source := 40001 + i }))

/-- Stores without any entry. -/
def empty_maps : Maps :=
  { conntrack_map := fun _ => none, player_connection_map := fun _ => none,
    blocked_ips := fun _ => none, connection_throttle := fun _ => none }

/-- Stores that hold a player session with timestamp `t` for the flow of `sample_frame`, a flow
record for it in state `state`, and nothing else. -/
def sample_session_maps (state t : Nat) : Maps :=
  { sample_maps state 0 with
    player_connection_map := fun k =>
      if k = gen_ipv4_flow_key 0x0A000001 0x0A000002 40000 MINECRAFT_PORT then some t else none }

/-- A ping request: packet length 9, packet id 1 and eight bytes of payload. -/
def sample_ping : List Byte := [0x09, 0x01, 0x11, 0x22, 0x33, 0x44, 0x55, 0x66, 0x77, 0x88]

/-! ## Bit-level facts -/

theorem and_7F (b : Nat) : b &&& 127 = b % 128 := Nat.and_pow_two_sub_one_eq_mod b 7

theorem lor_shl (a b k : Nat) (h : a < 2 ^ k) : a ||| (b <<< k) = a + b * 2 ^ k := by
  rw [Nat.shiftLeft_eq, Nat.lor_comm, Nat.mul_comm, ← Nat.mul_add_lt_is_or h, Nat.add_comm]

theorem varint2 (a b : Nat) : a % 128 ||| ((b % 128) <<< 7) = a % 128 + b % 128 * 128 := by
  rw [lor_shl _ _ 7 (by omega)]; norm_num

theorem varint3 (a b c : Nat) : a % 128 ||| ((b % 128) <<< 7) ||| ((c % 128) <<< 14)
    = a % 128 + b % 128 * 128 + c % 128 * 16384 := by
  rw [varint2, lor_shl _ _ 14 (by omega)]; norm_num

theorem varint4 (a b c d : Nat) :
    a % 128 ||| ((b % 128) <<< 7) ||| ((c % 128) <<< 14) ||| ((d % 128) <<< 21)
    = a % 128 + b % 128 * 128 + c % 128 * 16384 + d % 128 * 2097152 := by
  rw [varint3, lor_shl _ _ 21 (by omega)]; norm_num

theorem varint5 (a b c d e : Nat) :
    a % 128 ||| ((b % 128) <<< 7) ||| ((c % 128) <<< 14) ||| ((d % 128) <<< 21)
      ||| ((e % 128) <<< 28)
    = a % 128 + b % 128 * 128 + c % 128 * 16384 + d % 128 * 2097152 + e % 128 * 268435456 := by
  rw [varint4, lor_shl _ _ 28 (by omega)]; norm_num

set_option maxRecDepth 100000 in
theorem bit7_clear : ∀ b : Byte, (b.val &&& 128 = 0) ↔ b.val < 128 := by decide

/-- C1: for every `N` from 1 to 5, every byte sequence `bs` of length `N` whose bytes before the
last have the continuation bit `0x80` set and whose last byte has it clear, every
`max_size >= N` and every range that begins with `bs`, `read_varint_sized` returns `N` and
stores the sum over `i < N` of `(bs[i] & 0x7F) * 2^(7*i)`, taken as a 32-bit two's-complement
number. -/
theorem read_varint_sized_valid (bs rest : List Byte) (slot : Int) (max_size : Nat)
    (hN : 1 ≤ bs.length ∧ bs.length ≤ 5)
    (hcont : ∀ i, i + 1 < bs.length → (bs.getD i 0).val &&& 0x80 ≠ 0)
    (hlast : (bs.getD (bs.length - 1) 0).val &&& 0x80 = 0)
    (hmax : bs.length ≤ max_size) :
    read_varint_sized (bs ++ rest) slot max_size
      = some (bs.length, int32 (Finset.sum (Finset.range bs.length)
          (fun i => ((bs.getD i 0).val &&& 0x7F) * 2 ^ (7 * i)))) := by
  obtain ⟨h1, h5⟩ := hN
  match bs, h1, h5, hcont, hlast, hmax with
  | [b0], _, _, hcont, hlast, hmax =>
    simp [bit7_clear] at hlast hmax
    have hm : ¬ max_size < 1 := by omega
    simp [read_varint_sized, read_varint_at, hm, hlast, Finset.sum_range_succ, bit7_clear, and_7F]
    congr 1; omega
  | [b0, b1], _, _, hcont, hlast, hmax =>
    have c0 := hcont 0 (by simp)
    simp [bit7_clear] at hlast hmax c0
    have hm : ¬ max_size < 2 := by omega
    have hm : ¬ max_size < 1 := by omega
    have c0' : ¬ b0.val < 128 := by omega
    simp [read_varint_sized, read_varint_at, *, Finset.sum_range_succ, bit7_clear, and_7F, varint2]
  | [b0, b1, b2], _, _, hcont, hlast, hmax =>
    have c0 := hcont 0 (by simp)
    have c1 := hcont 1 (by simp)
    simp [bit7_clear] at hlast hmax c0 c1
    have hm : ¬ max_size < 3 := by omega
    have hm : ¬ max_size < 2 := by omega
    have hm : ¬ max_size < 1 := by omega
    have c0' : ¬ b0.val < 128 := by omega
    have c1' : ¬ b1.val < 128 := by omega
    simp [read_varint_sized, read_varint_at, *, Finset.sum_range_succ, bit7_clear, and_7F, varint3]
    split_ifs <;> first | rfl | omega
  | [b0, b1, b2, b3], _, _, hcont, hlast, hmax =>
    have c0 := hcont 0 (by simp)
    have c1 := hcont 1 (by simp)
    have c2 := hcont 2 (by simp)
    simp [bit7_clear] at hlast hmax c0 c1 c2
    have hm : ¬ max_size < 4 := by omega
    have hm : ¬ max_size < 3 := by omega
    have hm : ¬ max_size < 2 := by omega
    have hm : ¬ max_size < 1 := by omega
    have c0' : ¬ b0.val < 128 := by omega
    have c1' : ¬ b1.val < 128 := by omega
    have c2' : ¬ b2.val < 128 := by omega
    simp [read_varint_sized, read_varint_at, *, Finset.sum_range_succ, bit7_clear, and_7F, varint4]
    split_ifs <;> first | rfl | omega
  | [b0, b1, b2, b3, b4], _, _, hcont, hlast, hmax =>
    have c0 := hcont 0 (by simp)
    have c1 := hcont 1 (by simp)
    have c2 := hcont 2 (by simp)
    have c3 := hcont 3 (by simp)
    simp [bit7_clear] at hlast hmax c0 c1 c2 c3
    have hm : ¬ max_size < 5 := by omega
    have hm : ¬ max_size < 4 := by omega
    have hm : ¬ max_size < 3 := by omega
    have hm : ¬ max_size < 2 := by omega
    have hm : ¬ max_size < 1 := by omega
    have c0' : ¬ b0.val < 128 := by omega
    have c1' : ¬ b1.val < 128 := by omega
    have c2' : ¬ b2.val < 128 := by omega
    have c3' : ¬ b3.val < 128 := by omega
    simp [read_varint_sized, read_varint_at, *, Finset.sum_range_succ, bit7_clear, and_7F, varint5]
    split_ifs <;> first | rfl | omega
  | [], h1, _, _, _, _ => simp at h1
  | _ :: _ :: _ :: _ :: _ :: _ :: _, _, h5, _, _, _ => simp at h5

theorem read_varint_at_congr (rd rd' : Nat → Option Byte) (len : Nat) (slot : Int) (m : Nat)
    (h : ∀ i, i < varint_window len m → rd i = rd' i) :
    read_varint_at rd len slot m = read_varint_at rd' len slot m := by
  unfold read_varint_at
  by_cases c1 : m < 1 ∨ len < 1
  · rw [if_pos c1, if_pos c1]
  rw [if_neg c1, if_neg c1, h 0 (by simp only [varint_window]; omega)]
  cases rd' 0 with
  | none => rfl
  | some first =>
  simp only []
  by_cases d1 : first.val &&& 0x80 = 0
  · rw [if_pos d1, if_pos d1]
  rw [if_neg d1, if_neg d1]
  by_cases c2 : m < 2 ∨ len < 2
  · rw [if_pos c2, if_pos c2]
  rw [if_neg c2, if_neg c2, h 1 (by simp only [varint_window]; omega)]
  cases rd' 1 with
  | none => rfl
  | some second =>
  simp only []
  by_cases d2 : second.val &&& 0x80 = 0
  · rw [if_pos d2, if_pos d2]
  rw [if_neg d2, if_neg d2]
  by_cases c3 : m < 3 ∨ len < 3
  · rw [if_pos c3, if_pos c3]
  rw [if_neg c3, if_neg c3, h 2 (by simp only [varint_window]; omega)]
  cases rd' 2 with
  | none => rfl
  | some third =>
  simp only []
  by_cases d3 : third.val &&& 0x80 = 0
  · rw [if_pos d3, if_pos d3]
  rw [if_neg d3, if_neg d3]
  by_cases c4 : m < 4 ∨ len < 4
  · rw [if_pos c4, if_pos c4]
  rw [if_neg c4, if_neg c4, h 3 (by simp only [varint_window]; omega)]
  cases rd' 3 with
  | none => rfl
  | some fourth =>
  simp only []
  by_cases d4 : fourth.val &&& 0x80 = 0
  · rw [if_pos d4, if_pos d4]
  rw [if_neg d4, if_neg d4]
  by_cases c5 : m < 5 ∨ len < 5
  · rw [if_pos c5, if_pos c5]
  rw [if_neg c5, if_neg c5, h 4 (by simp only [varint_window]; omega)]

theorem int32_congr {a b : Nat} (h : a = b) : int32 a = int32 b := by rw [h]

theorem read_varint_sized_head (bs rest : List Byte) (slot : Int) (m : Nat)
    (hv : is_varint bs = true) (h5 : bs.length ≤ 5) (hm : bs.length ≤ m) :
    read_varint_sized (bs ++ rest) slot m = some (bs.length, int32 (varint_sum bs)) := by
  rcases bs with _ | ⟨a, _ | ⟨b, _ | ⟨c, _ | ⟨d, _ | ⟨e, _ | ⟨f, tl⟩⟩⟩⟩⟩⟩
  · simp [is_varint] at hv
  · simp [is_varint, bit7_clear] at hv hm
    simp [read_varint_sized, read_varint_at, varint_sum, bit7_clear, and_7F, hv]
    rw [if_neg (by omega)]
    simp only [Option.some.injEq, Prod.mk.injEq, true_and]
    exact int32_congr (by omega)
  · simp [is_varint, bit7_clear] at hv hm
    simp [read_varint_sized, read_varint_at, varint_sum, bit7_clear, and_7F, hv, varint2]
    repeat rw [if_neg (by omega)]
    simp only [Option.some.injEq, Prod.mk.injEq, true_and]
    exact int32_congr (by omega)
  · simp [is_varint, bit7_clear] at hv hm
    simp [read_varint_sized, read_varint_at, varint_sum, bit7_clear, and_7F, hv, varint3]
    repeat rw [if_neg (by omega)]
    simp only [Option.some.injEq, Prod.mk.injEq, true_and]
    exact int32_congr (by omega)
  · simp [is_varint, bit7_clear] at hv hm
    simp [read_varint_sized, read_varint_at, varint_sum, bit7_clear, and_7F, hv, varint4]
    repeat rw [if_neg (by omega)]
    simp only [Option.some.injEq, Prod.mk.injEq, true_and]
    exact int32_congr (by omega)
  · simp [is_varint, bit7_clear] at hv hm
    simp [read_varint_sized, read_varint_at, varint_sum, bit7_clear, and_7F, hv, varint5]
    repeat rw [if_neg (by omega)]
    simp only [Option.some.injEq, Prod.mk.injEq, true_and]
    exact int32_congr (by omega)
  · simp at h5


theorem read_varint_sized_spec (buf : List Byte) (slot : Int) (m : Nat) :
    ∃ n v, read_varint_sized buf slot m = some (n, v) ∧ n ≤ m ∧ n ≤ buf.length ∧ n ≤ 5 ∧
      (n = 0 → v = slot ∧
        ∀ i, i < varint_window buf.length m → ∀ b, buf[i]? = some b → b.val &&& 0x80 ≠ 0) ∧
      (n ≠ 0 → is_varint (buf.take n) = true ∧ v = int32 (varint_sum (buf.take n))) := by
  unfold read_varint_sized read_varint_at
  by_cases c1 : m < 1 ∨ buf.length < 1
  · rw [if_pos c1]
    refine ⟨0, slot, rfl, by omega, by omega, by omega, fun _ => ⟨rfl, ?_⟩, fun h => absurd rfl h⟩
    intro i hi x hx
    simp only [varint_window, List.length_cons] at hi
    omega
  rw [if_neg c1]
  rcases buf with _ | ⟨a, t1⟩
  · simp at c1
  simp only [List.getElem?_cons_zero, List.getElem?_cons_succ, List.length_cons] at c1 ⊢
  by_cases d1 : a.val &&& 0x80 = 0
  · rw [if_pos d1]
    refine ⟨1, _, rfl, by omega, by omega, by omega, by simp, fun _ => ⟨?_, int32_congr ?_⟩⟩
    · simp only [bit7_clear] at *
      simp [is_varint, bit7_clear, *]
    · simp only [bit7_clear] at *
      simp only [varint_sum, and_7F, List.take_succ_cons, List.take_zero]
      omega
  rw [if_neg d1]
  by_cases c2 : m < 2 ∨ t1.length + 1 < 2
  · rw [if_pos c2]
    refine ⟨0, slot, rfl, by omega, by omega, by omega, fun _ => ⟨rfl, ?_⟩, fun h => absurd rfl h⟩
    intro i hi x hx
    simp only [varint_window, List.length_cons] at hi
    have hi' : i < 1 := by omega
    interval_cases i
    simp_all
  rw [if_neg c2]
  rcases t1 with _ | ⟨b, t2⟩
  · simp at c2
  simp only [List.getElem?_cons_zero, List.getElem?_cons_succ, List.length_cons] at c2 ⊢
  by_cases d2 : b.val &&& 0x80 = 0
  · rw [if_pos d2]
    refine ⟨2, _, rfl, by omega, by omega, by omega, by simp, fun _ => ⟨?_, int32_congr ?_⟩⟩
    · simp only [bit7_clear] at *
      simp [is_varint, bit7_clear, *]
    · simp only [bit7_clear] at *
      simp only [varint_sum, and_7F, List.take_succ_cons, List.take_zero]
      rw [varint2]
      omega
  rw [if_neg d2]
  by_cases c3 : m < 3 ∨ t2.length + 1 + 1 < 3
  · rw [if_pos c3]
    refine ⟨0, slot, rfl, by omega, by omega, by omega, fun _ => ⟨rfl, ?_⟩, fun h => absurd rfl h⟩
    intro i hi x hx
    simp only [varint_window, List.length_cons] at hi
    have hi' : i < 2 := by omega
    interval_cases i <;> simp_all
  rw [if_neg c3]
  rcases t2 with _ | ⟨c, t3⟩
  · simp at c3
  simp only [List.getElem?_cons_zero, List.getElem?_cons_succ, List.length_cons] at c3 ⊢
  by_cases d3 : c.val &&& 0x80 = 0
  · rw [if_pos d3]
    refine ⟨3, _, rfl, by omega, by omega, by omega, by simp, fun _ => ⟨?_, int32_congr ?_⟩⟩
    · simp only [bit7_clear] at *
      simp [is_varint, bit7_clear, *]
    · simp only [bit7_clear] at *
      simp only [varint_sum, and_7F, List.take_succ_cons, List.take_zero]
      rw [varint3]
      omega
  rw [if_neg d3]
  by_cases c4 : m < 4 ∨ t3.length + 1 + 1 + 1 < 4
  · rw [if_pos c4]
    refine ⟨0, slot, rfl, by omega, by omega, by omega, fun _ => ⟨rfl, ?_⟩, fun h => absurd rfl h⟩
    intro i hi x hx
    simp only [varint_window, List.length_cons] at hi
    have hi' : i < 3 := by omega
    interval_cases i <;> simp_all
  rw [if_neg c4]
  rcases t3 with _ | ⟨d, t4⟩
  · simp at c4
  simp only [List.getElem?_cons_zero, List.getElem?_cons_succ, List.length_cons] at c4 ⊢
  by_cases d4 : d.val &&& 0x80 = 0
  · rw [if_pos d4]
    refine ⟨4, _, rfl, by omega, by omega, by omega, by simp, fun _ => ⟨?_, int32_congr ?_⟩⟩
    · simp only [bit7_clear] at *
      simp [is_varint, bit7_clear, *]
    · simp only [bit7_clear] at *
      simp only [varint_sum, and_7F, List.take_succ_cons, List.take_zero]
      rw [varint4]
      omega
  rw [if_neg d4]
  by_cases c5 : m < 5 ∨ t4.length + 1 + 1 + 1 + 1 < 5
  · rw [if_pos c5]
    refine ⟨0, slot, rfl, by omega, by omega, by omega, fun _ => ⟨rfl, ?_⟩, fun h => absurd rfl h⟩
    intro i hi x hx
    simp only [varint_window, List.length_cons] at hi
    have hi' : i < 4 := by omega
    interval_cases i <;> simp_all
  rw [if_neg c5]
  rcases t4 with _ | ⟨e, t5⟩
  · simp at c5
  simp only [List.getElem?_cons_zero, List.getElem?_cons_succ, List.length_cons] at c5 ⊢
  by_cases d5 : e.val &&& 0x80 = 0
  · rw [if_pos d5]
    refine ⟨5, _, rfl, by omega, by omega, by omega, by simp, fun _ => ⟨?_, int32_congr ?_⟩⟩
    · simp only [bit7_clear] at *
      simp [is_varint, bit7_clear, *]
    · simp only [bit7_clear] at *
      simp only [varint_sum, and_7F, List.take_succ_cons, List.take_zero]
      rw [varint5]
      omega
  rw [if_neg d5]
  refine ⟨0, slot, rfl, by omega, by omega, by omega, fun _ => ⟨rfl, ?_⟩, fun h => absurd rfl h⟩
  intro i hi x hx
  simp only [varint_window, List.length_cons] at hi
  have hi' : i < 5 := by omega
  interval_cases i <;> simp_all

theorem is_varint_index (bs : List Byte) (h : is_varint bs = true) :
    (∀ i, i + 1 < bs.length → ∀ b, bs[i]? = some b → b.val &&& 0x80 ≠ 0) ∧
      ∃ b, bs[bs.length - 1]? = some b ∧ b.val &&& 0x80 = 0 := by
  induction bs with
  | nil => simp [is_varint] at h
  | cons a t ih =>
    cases t with
    | nil =>
      simp only [is_varint, decide_eq_true_eq] at h
      exact ⟨by simp, a, by simp, h⟩
    | cons a' t' =>
      simp only [is_varint, Bool.and_eq_true, decide_eq_true_eq] at h
      obtain ⟨ih1, b, hb, hb'⟩ := ih h.2
      refine ⟨?_, b, ?_, hb'⟩
      · intro i hi x hx
        cases i with
        | zero =>
          simp only [List.getElem?_cons_zero, Option.some.injEq] at hx
          exact hx ▸ h.1
        | succ j =>
          simp only [List.getElem?_cons_succ] at hx
          exact ih1 j (by simpa using hi) x hx
      · simpa using hb

theorem fenced_eq (buf : List Byte) (k i : Nat) (h : i < k) : fenced buf k i = buf[i]? := by
  simp [fenced, h]

theorem read_varint_sized_take (buf buf' : List Byte) (slot : Int) (m : Nat)
    (hlen : buf'.length = buf.length)
    (htake : buf'.take (varint_window buf.length m) = buf.take (varint_window buf.length m)) :
    read_varint_sized buf' slot m = read_varint_sized buf slot m := by
  unfold read_varint_sized
  rw [hlen]
  apply read_varint_at_congr
  intro i hi
  show buf'[i]? = buf[i]?
  rw [← List.getElem?_take_of_lt hi, htake, List.getElem?_take_of_lt hi]

/-- C2: `read_varint_sized` returns 0 exactly when none of the first
`min(max_size, end - start, 5)` bytes of the range has the continuation bit `0x80` clear, and
then leaves the output slot alone; in particular it returns 0 on an empty range, on
`max_size = 0`, when no byte within `max_size` bytes or within the range terminates the varint,
and when the first five bytes all carry the continuation bit.  Otherwise it returns the 1-based
position of the first byte with the continuation bit clear. -/
theorem read_varint_sized_zero_iff (buf : List Byte) (slot : Int) (max_size : Nat) :
    ∃ n v, read_varint_sized buf slot max_size = some (n, v) ∧
      (n = 0 ↔ ∀ i, i < min max_size (min buf.length 5) →
        ∀ b, buf[i]? = some b → b.val &&& 0x80 ≠ 0) ∧
      (n ≠ 0 → (∃ b, buf[n - 1]? = some b ∧ b.val &&& 0x80 = 0) ∧
        ∀ i, i + 1 < n → ∀ b, buf[i]? = some b → b.val &&& 0x80 ≠ 0) ∧
      (n = 0 → v = slot) ∧
      (buf = [] → n = 0) ∧ (max_size = 0 → n = 0) ∧
      ((∀ i, i < max_size → ∀ b, buf[i]? = some b → b.val &&& 0x80 ≠ 0) → n = 0) ∧
      ((∀ (i : Nat) (b : Byte), buf[i]? = some b → b.val &&& 0x80 ≠ 0) → n = 0) ∧
      ((∀ i, i < 5 → ∀ b, buf[i]? = some b → b.val &&& 0x80 ≠ 0) → n = 0) := by
  obtain ⟨n, v, hr, hm, hl, h5, h0, h1⟩ := read_varint_sized_spec buf slot max_size
  have key : n = 0 ↔ ∀ i, i < min max_size (min buf.length 5) →
      ∀ b, buf[i]? = some b → b.val &&& 0x80 ≠ 0 := by
    constructor
    · intro hn
      exact (h0 hn).2
    · intro hall
      by_contra hn
      obtain ⟨hv, -⟩ := h1 hn
      obtain ⟨-, b, hb, hb'⟩ := is_varint_index _ hv
      have hlt : n - 1 < n := by omega
      rw [List.length_take, Nat.min_eq_left hl, List.getElem?_take_of_lt hlt] at hb
      exact hall (n - 1) (by omega) b hb hb'
  refine ⟨n, v, hr, key, ?_, fun hn => (h0 hn).1, ?_, ?_, ?_, ?_, ?_⟩
  · intro hn
    obtain ⟨hv, -⟩ := h1 hn
    obtain ⟨hc, b, hb, hb'⟩ := is_varint_index _ hv
    rw [List.length_take, Nat.min_eq_left hl] at hb hc
    refine ⟨⟨b, ?_, hb'⟩, ?_⟩
    · rw [← List.getElem?_take_of_lt (show n - 1 < n by omega)]; exact hb
    · intro i hi x hx
      exact hc i hi x (by rw [List.getElem?_take_of_lt (show i < n by omega)]; exact hx)
  · intro hb; subst hb; simpa using hl
  · intro hz; omega
  · intro hall
    exact key.2 (fun i hi b hb => hall i (by omega) b hb)
  · intro hall
    exact key.2 (fun i _ b hb => hall i b hb)
  · intro hall
    exact key.2 (fun i hi b hb => hall i (by omega) b hb)

/-- C3: `read_varint_sized` never reads past either bound.  The returned count is at most
`max_size`, at most `end - start` and at most 5; the call gives the same result when every
read at an index at or beyond `min(max_size, end - start, 5)` faults, so it reads no such
index and its checked reads never fail; and a second range of the same length that agrees
with the first on those leading bytes gives the same count and the same output value. -/
theorem read_varint_sized_in_bounds (buf : List Byte) (slot : Int) (max_size : Nat) :
    ∃ n v, read_varint_sized buf slot max_size = some (n, v) ∧
      n ≤ max_size ∧ n ≤ buf.length ∧ n ≤ 5 ∧
      read_varint_at (fenced buf (min max_size (min buf.length 5))) buf.length slot max_size
        = some (n, v) ∧
      ∀ buf' : List Byte, buf'.length = buf.length →
        buf'.take (min max_size (min buf.length 5)) = buf.take (min max_size (min buf.length 5)) →
        read_varint_sized buf' slot max_size = some (n, v) := by
  obtain ⟨n, v, hr, hm, hl, h5, -, -⟩ := read_varint_sized_spec buf slot max_size
  refine ⟨n, v, hr, hm, hl, h5, ?_, ?_⟩
  · rw [← hr]
    unfold read_varint_sized
    exact read_varint_at_congr _ _ _ _ _ (fun i hi => fenced_eq buf _ i hi)
  · intro buf' hlen htake
    rw [← hr]
    exact read_varint_sized_take buf buf' slot max_size hlen htake

/-- Two ranges that differ only beyond the decoder's window decode alike. -/
theorem read_varint_sized_in_bounds_witness :
    read_varint_sized [0x85, 0x01, 0xFF] 0 2 = some (2, 133) ∧
    read_varint_sized [0x85, 0x01, 0x00] 0 2 = some (2, 133) := by
  obtain ⟨n, v, h, -, -, -, -, h'⟩ := read_varint_sized_in_bounds [0x85, 0x01, 0x00] 0 2
  have e : read_varint_sized [0x85, 0x01, 0x00] 0 2 = some (2, 133) := by decide
  rw [e] at h
  exact ⟨by rw [h' [0x85, 0x01, 0xFF] rfl (by decide)]; exact h.symm, e⟩

theorem int32_small (n : Nat) (h : n < 2 ^ 31) : int32 n = n := by
  unfold int32
  have : n % 2 ^ 32 = n := Nat.mod_eq_of_lt (by omega)
  rw [this, if_pos h]

theorem inspect_status_request_eq (buf : List Byte) :
    inspect_status_request buf = some (decide (buf = [0x01, 0x00])) := by
  rcases buf with _ | ⟨a, _ | ⟨b, _ | ⟨x, t⟩⟩⟩
  · rfl
  · simp [inspect_status_request]
  · simp only [inspect_status_request, List.length_cons, List.length_nil, STATUS_REQUEST_LEN,
      List.getElem?_cons_zero, List.getElem?_cons_succ]
    by_cases ha : a.val = 1
    · have ha' : a = 1 := Fin.ext ha
      by_cases hb : b.val = 0
      · have hb' : b = 0 := Fin.ext hb
        simp [ha', hb']
      · have hb' : b ≠ 0 := fun e => hb (by rw [e]; rfl)
        simp [ha', hb, hb']
    · have ha' : a ≠ 1 := fun e => ha (by rw [e]; rfl)
      simp [ha, ha']
  · simp [inspect_status_request, STATUS_REQUEST_LEN]
    intro h; omega

theorem inspect_ping_request_total (buf : List Byte) :
    ∃ r, inspect_ping_request buf = some r := by
  unfold inspect_ping_request
  split_ifs with h
  · rcases buf with _ | ⟨a, _ | ⟨b, t⟩⟩
    · simp at h
    · simp at h
    · simp only [List.getElem?_cons_zero, List.getElem?_cons_succ]
      split_ifs <;> exact ⟨_, rfl⟩
  · exact ⟨_, rfl⟩

theorem getElem?_of_lt (buf : List Byte) (i : Nat) (h : i + 1 ≤ buf.length) :
    ∃ b, buf[i]? = some b := ⟨buf[i], List.getElem?_eq_getElem (by omega)⟩

theorem login_uuid_total (buf : List Byte) (r : Nat) (v : Int) :
    ∃ b, login_uuid buf r v = some b := by
  unfold login_uuid
  by_cases h1 : v ≥ 760
  · rw [if_pos h1]
    by_cases h2 : v ≥ 764
    · rw [if_pos h2]; split_ifs <;> exact ⟨_, rfl⟩
    · rw [if_neg h2]
      by_cases h3 : r + 1 ≤ buf.length
      · rw [if_pos h3]
        obtain ⟨b, hb⟩ := getElem?_of_lt buf r h3
        rw [hb]; simp only []
        split_ifs <;> exact ⟨_, rfl⟩
      · rw [if_neg h3]; exact ⟨_, rfl⟩
  · rw [if_neg h1]; exact ⟨_, rfl⟩

theorem login_key_total (buf : List Byte) (r : Nat) (v : Int) :
    ∃ b, login_key buf r v = some b := by
  unfold login_key
  by_cases h1 : v ≥ 759 ∧ v < 761
  · rw [if_pos h1]
    by_cases h2 : r + 1 ≤ buf.length
    · rw [if_pos h2]
      obtain ⟨b, hb⟩ := getElem?_of_lt buf r h2
      rw [hb]; simp only []
      by_cases h3 : b.val ≠ 0
      · rw [if_pos h3]
        by_cases h4 : r + 1 + 8 ≤ buf.length
        · rw [if_pos h4]
          obtain ⟨n1, v1, e1, -⟩ := read_varint_sized_spec (buf.drop (r + 1 + 8)) 0 2
          rw [e1]; simp only []
          by_cases h5 : n1 = 0
          · rw [if_pos h5]; exact ⟨_, rfl⟩
          rw [if_neg h5]
          by_cases h6 : v1 < 0 ∨ v1 > 512
          · rw [if_pos h6]; exact ⟨_, rfl⟩
          rw [if_neg h6]
          by_cases h7 : r + 1 + 8 + n1 ≤ buf.length
          · rw [if_pos h7]
            by_cases h8 : v1 ≥ 0 ∧ r + 1 + 8 + n1 + v1.toNat ≤ buf.length
            · rw [if_pos h8]
              obtain ⟨n2, v2, e2, -⟩ :=
                read_varint_sized_spec (buf.drop (r + 1 + 8 + n1 + v1.toNat)) 0 2
              rw [e2]; simp only []
              by_cases h9 : n2 = 0
              · rw [if_pos h9]; exact ⟨_, rfl⟩
              rw [if_neg h9]
              by_cases h10 : v2 < 0 ∨ v2 > 4096
              · rw [if_pos h10]; exact ⟨_, rfl⟩
              rw [if_neg h10]
              by_cases h11 : r + 1 + 8 + n1 + v1.toNat + n2 ≤ buf.length
              · rw [if_pos h11]
                split_ifs <;> exact login_uuid_total _ _ _
              · rw [if_neg h11]; exact ⟨_, rfl⟩
            · rw [if_neg h8]; exact ⟨_, rfl⟩
          · rw [if_neg h7]; exact ⟨_, rfl⟩
        · rw [if_neg h4]; exact ⟨_, rfl⟩
      · rw [if_neg h3]; exact login_uuid_total _ _ _
    · rw [if_neg h2]; exact ⟨_, rfl⟩
  · rw [if_neg h1]; exact login_uuid_total _ _ _

theorem inspect_login_packet_total (buf : List Byte) (v : Int) :
    ∃ b, inspect_login_packet buf v = some b := by
  unfold inspect_login_packet
  simp only []
  by_cases h1 : (buf.length : Int) < MIN_LOGIN_LEN ∨ (buf.length : Int) > MAX_LOGIN_LEN
  · rw [if_pos h1]; exact ⟨_, rfl⟩
  rw [if_neg h1]
  obtain ⟨n1, v1, e1, -⟩ := read_varint_sized_spec buf 0 2
  rw [e1]; simp only []
  by_cases h2 : n1 = 0 ∨ v1 > MAX_LOGIN_LEN
  · rw [if_pos h2]; exact ⟨_, rfl⟩
  rw [if_neg h2]
  obtain ⟨n2, v2, e2, -⟩ := read_varint_sized_spec (buf.drop n1) 0 1
  rw [e2]; simp only []
  by_cases h3 : n2 = 0 ∨ v2 ≠ 0
  · rw [if_pos h3]; exact ⟨_, rfl⟩
  rw [if_neg h3]
  obtain ⟨n3, v3, e3, -⟩ := read_varint_sized_spec (buf.drop (n1 + n2)) 0 2
  rw [e3]; simp only []
  by_cases h4 : n3 = 0
  · rw [if_pos h4]; exact ⟨_, rfl⟩
  rw [if_neg h4]
  by_cases h5 : v3 > 16 * 3 ∨ v3 < 1
  · rw [if_pos h5]; exact ⟨_, rfl⟩
  rw [if_neg h5]
  split_ifs
  · exact login_key_total _ _ _
  · exact ⟨_, rfl⟩
  · exact ⟨_, rfl⟩

theorem handshake_tail_total (c : Common) (buf : List Byte) (r : Nat) (i v : Int) :
    ∃ x, handshake_tail c buf r i v = some (x, v) := by
  unfold handshake_tail
  by_cases h1 : r = buf.length
  · rw [if_pos h1]; exact ⟨_, rfl⟩
  rw [if_neg h1]
  by_cases h2 : i = 1
  · rw [if_pos h2, inspect_status_request_eq]
    cases decide (List.drop r buf = [0x01, 0x00]) <;> exact ⟨_, rfl⟩
  · rw [if_neg h2]
    obtain ⟨b, hb⟩ := inspect_login_packet_total (buf.drop r) v
    rw [hb]
    cases b <;> exact ⟨_, rfl⟩

theorem varint_sum_lt2 (bs : List Byte) (h : bs.length ≤ 2) : varint_sum bs < 16384 := by
  rcases bs with _ | ⟨a, _ | ⟨b, _ | ⟨x, t⟩⟩⟩
  · simp [varint_sum]
  · simp only [varint_sum, and_7F]; omega
  · simp only [varint_sum, and_7F]; omega
  · simp at h

theorem varint_one (bs : List Byte) (hv : is_varint bs = true) (h : bs.length ≤ 1) :
    ∃ b : Byte, bs = [b] ∧ b.val < 128 ∧ varint_sum bs = b.val := by
  rcases bs with _ | ⟨a, _ | ⟨x, t⟩⟩
  · simp [is_varint] at hv
  · simp only [is_varint, decide_eq_true_eq, bit7_clear] at hv
    exact ⟨a, rfl, hv, by simp only [varint_sum, and_7F]; omega⟩
  · simp at h

theorem is_varint_length_pos (bs : List Byte) (h : is_varint bs = true) : bs.length ≠ 0 := by
  cases bs with
  | nil => simp [is_varint] at h
  | cons a t => simp

theorem read_byte_varint (b : Byte) (tl : List Byte) (slot : Int) (h : b.val < 128) :
    read_varint_sized (b :: tl) slot 1 = some (1, (b.val : Int)) := by
  have := read_varint_sized_head [b] tl slot 1 (by simp [is_varint, bit7_clear, h]) (by simp)
    (by simp)
  simp only [List.singleton_append, List.length_singleton, varint_sum, and_7F] at this
  rw [this, int32_small _ (by omega)]
  have : b.val % 128 = b.val := by omega
  simp [this]

theorem inspect_handshake_head (c : Common) (h : HandshakeHead) (rest : List Byte) (pv : Int)
    (d : Nat) (hwf : h.well_formed) (h8 : 8 ≤ (h.bytes ++ rest).length)
    (hmax : (h.bytes ++ rest).length ≤ 5447) (hfe : (h.bytes ++ rest)[0]? ≠ some 0xFE) :
    inspect_handshake c (h.bytes ++ rest) pv d
      = some (if intention_permitted h.intention h.version then handshake_result c h rest else 0,
          h.version) := by
  obtain ⟨L, V, HL, host, port, i⟩ := h
  obtain ⟨hL, hL2, hLv, hV, hV5, hHL, hHL2, hH1, hH765, hhost, hport, hi⟩ := hwf
  simp only [HandshakeHead.bytes, HandshakeHead.version, intention_permitted, handshake_result] at *
  have hbuf : L ++ (0 :: (V ++ (HL ++ (host ++ (port ++ [i]))))) ++ rest
      = L ++ ((0 : Byte) :: (V ++ (HL ++ (host ++ (port ++ (i :: rest)))))) := by
    simp [List.append_assoc]
  rw [hbuf] at h8 hmax hfe ⊢
  generalize hX5 : i :: rest = X5 at *
  generalize hX4 : port ++ X5 = X4 at *
  generalize hX3 : host ++ X4 = X3 at *
  generalize hX2 : HL ++ X3 = X2 at *
  generalize hX1 : V ++ X2 = X1 at *
  generalize hX0 : (0 : Byte) :: X1 = X0 at *
  have e1 : read_varint_sized (L ++ X0) 0 2 = some (L.length, (varint_sum L : Int)) := by
    rw [read_varint_sized_head L X0 0 2 hL (by omega) hL2,
      int32_small _ (by have := varint_sum_lt2 L hL2; omega)]
  have d1 : (L ++ X0).drop L.length = X0 := List.drop_left L X0
  have e2 : read_varint_sized X0 0 1 = some (1, 0) := by
    rw [← hX0]; exact read_byte_varint 0 X1 0 (by decide)
  have d2 : (L ++ X0).drop (L.length + 1) = X1 := by
    rw [← List.drop_drop, d1, ← hX0]; rfl
  have e3 : read_varint_sized X1 pv 5 = some (V.length, int32 (varint_sum V)) := by
    rw [← hX1]; exact read_varint_sized_head V X2 pv 5 hV hV5 hV5
  have d3 : (L ++ X0).drop (L.length + 1 + V.length) = X2 := by
    rw [← List.drop_drop, d2, ← hX1]; exact List.drop_left V X2
  have e4 : read_varint_sized X2 0 2 = some (HL.length, (varint_sum HL : Int)) := by
    rw [← hX2, read_varint_sized_head HL X3 0 2 hHL (by omega) hHL2,
      int32_small _ (by have := varint_sum_lt2 HL hHL2; omega)]
  have d6 : (L ++ X0).drop (L.length + 1 + V.length + HL.length + (varint_sum HL) + 2) = X5 := by
    rw [← List.drop_drop, ← List.drop_drop, ← List.drop_drop, d3, ← hX2, List.drop_left, ← hX3, ← hhost,
      List.drop_left, ← hX4, ← hport, List.drop_left]
  have e5 : read_varint_sized X5 0 1 = some (1, (i.val : Int)) := by
    rw [← hX5]; exact read_byte_varint i rest 0 hi
  have d7 : (L ++ X0).drop (L.length + 1 + V.length + HL.length + (varint_sum HL) + 2 + 1)
      = rest := by
    rw [← List.drop_drop, d6, ← hX5]; rfl
  have hlen : (L ++ X0).length
      = L.length + 1 + V.length + HL.length + varint_sum HL + 2 + 1 + rest.length := by
    rw [← hX0, ← hX1, ← hX2, ← hX3, ← hX4, ← hX5]
    simp only [List.length_append, List.length_cons, hhost, hport]
    omega
  have hb0 : ∃ b0 : Byte, (L ++ X0)[0]? = some b0 ∧ b0.val ≠ 0xFE := by
    obtain ⟨b0, e⟩ := getElem?_of_lt (L ++ X0) 0 (by omega)
    refine ⟨b0, e, fun hv => hfe ?_⟩
    rw [e]; exact congrArg some (Fin.ext hv)
  obtain ⟨b0, hb0, hne⟩ := hb0
  unfold inspect_handshake
  simp only [hb0, if_pos (show 1 ≤ (L ++ X0).length by omega), decide_eq_false hne]
  rw [if_neg (by simp only [MAX_HANDSHAKE_LEN, MAX_LOGIN_LEN, MIN_HANDSHAKE_LEN]; omega)]
  unfold handshake_fields
  simp only [e1, d1, e2, d2, e3, d3, e4, Int.toNat_ofNat, d6, e5, d7]
  have hL0 := is_varint_length_pos L hL
  have hV0 := is_varint_length_pos V hV
  have hHL0 := is_varint_length_pos HL hHL
  rw [if_neg (by simp only [MAX_HANDSHAKE_LEN]; omega), if_neg (by simp), if_neg hV0,
    if_neg hHL0, if_neg (by omega), if_neg (by omega), if_neg (by omega), if_neg (by omega)]
  have hcond : ∀ v : Int, (1 = 0 ∨ ((i.val : Int) ≠ 1 ∧ (i.val : Int) ≠ 2 ∧
      if v ≥ 766 then (i.val : Int) ≠ 3 else True))
      ↔ ¬ (i.val = 1 ∨ i.val = 2 ∨ i.val = 3 ∧ v ≥ 766) := by
    intro v
    by_cases hv : v ≥ 766
    · simp only [hv, if_true, and_true]
      constructor <;> intro h <;> omega
    · simp only [hv, if_false, and_false, or_false, and_true]
      constructor <;> intro h <;> omega
  by_cases hp : i.val = 1 ∨ i.val = 2 ∨ i.val = 3 ∧ int32 (varint_sum V) ≥ 766
  · rw [if_neg (fun hc => (hcond _).1 hc hp), if_pos hp]
    unfold handshake_tail
    rw [d7, hlen]
    by_cases hr : rest = []
    · subst hr
      simp only [List.length_nil, Nat.add_zero, if_true]
      congr 2
      by_cases h1 : i.val = 1
      · simp [h1]
      · have : ¬ ((i.val : Int) = 1) := by omega
        simp [h1, this]
    · have hr' : rest.length ≠ 0 := fun e => hr (List.length_eq_zero.mp e)
      rw [if_neg (by omega), if_neg hr]
      by_cases h1 : i.val = 1
      · have : (i.val : Int) = 1 := by omega
        rw [if_pos this, if_pos h1, inspect_status_request_eq]
        by_cases h2 : rest = [1, 0]
        · simp [h2]
        · simp [h2]
      · have : ¬ ((i.val : Int) = 1) := by omega
        rw [if_neg this, if_neg h1]
        obtain ⟨b, hb⟩ := inspect_login_packet_total rest (int32 (varint_sum V))
        simp only [hb]
        cases b <;> simp
  · rw [if_pos ((hcond _).2 hp), if_neg hp]

theorem zero_result_absurd {r : Nat} {v v' : Int} (h : some ((0 : Nat), v') = some (r, v))
    (hr : r ≠ 0) : False := by
  simp only [Option.some.injEq, Prod.mk.injEq] at h
  exact hr h.1.symm

theorem drop_split (buf : List Byte) (a b : Nat) :
    buf.drop a = (buf.drop a).take b ++ buf.drop (a + b) := by
  rw [← List.drop_drop, List.take_append_drop]

theorem inspect_handshake_success (c : Common) (buf : List Byte) (pv : Int) (d : Nat)
    (r : Nat) (v : Int) (h : inspect_handshake c buf pv d = some (r, v)) (hr : r ≠ 0)
    (hfe : buf[0]? ≠ some 0xFE) :
    ∃ (hd : HandshakeHead) (rest : List Byte), buf = hd.bytes ++ rest ∧ hd.well_formed ∧
      intention_permitted hd.intention hd.version ∧ 8 ≤ buf.length ∧ buf.length ≤ 5447 ∧
      v = hd.version := by
  unfold inspect_handshake at h
  simp only [] at h
  have hb : 8 ≤ buf.length ∧ buf.length ≤ 5447 ∧
      handshake_fields c buf pv = some (r, v) := by
    by_cases h1 : 1 ≤ buf.length
    · rw [if_pos h1] at h
      obtain ⟨b0, e⟩ := getElem?_of_lt buf 0 (by omega)
      have hne : b0.val ≠ 0xFE := fun hv => hfe (by rw [e]; exact congrArg some (Fin.ext hv))
      rw [e] at h
      simp only [decide_eq_false hne] at h
      by_cases hs : (buf.length : Int) > MAX_HANDSHAKE_LEN + MAX_LOGIN_LEN ∨
          (buf.length : Int) < MIN_HANDSHAKE_LEN
      · rw [if_pos hs] at h; exact (zero_result_absurd h hr).elim
      rw [if_neg hs] at h
      simp only [MAX_HANDSHAKE_LEN, MAX_LOGIN_LEN, MIN_HANDSHAKE_LEN] at hs
      exact ⟨by omega, by omega, h⟩
    · rw [if_neg h1] at h
      simp only [] at h
      rw [if_pos (by simp only [MIN_HANDSHAKE_LEN]; omega)] at h
      exact (zero_result_absurd h hr).elim
  obtain ⟨hlo, hhi, h⟩ := hb
  clear hfe
  unfold handshake_fields at h
  obtain ⟨n1, v1, e1, hn1m, hn1l, -, -, hv1⟩ := read_varint_sized_spec buf 0 2
  rw [e1] at h; simp only [] at h
  by_cases c1 : n1 = 0 ∨ v1 > MAX_HANDSHAKE_LEN
  · rw [if_pos c1] at h; exact (zero_result_absurd h hr).elim
  rw [if_neg c1] at h
  obtain ⟨n2, v2, e2, hn2m, hn2l, -, -, hv2⟩ := read_varint_sized_spec (buf.drop n1) 0 1
  rw [e2] at h; simp only [] at h
  by_cases c2 : n2 = 0 ∨ v2 ≠ 0
  · rw [if_pos c2] at h; exact (zero_result_absurd h hr).elim
  rw [if_neg c2] at h
  obtain ⟨n3, v3, e3, hn3m, hn3l, -, -, hv3⟩ := read_varint_sized_spec (buf.drop (n1 + n2)) pv 5
  rw [e3] at h; simp only [] at h
  by_cases c3 : n3 = 0
  · rw [if_pos c3] at h; exact (zero_result_absurd h hr).elim
  rw [if_neg c3] at h
  obtain ⟨n4, v4, e4, hn4m, hn4l, -, -, hv4⟩ :=
    read_varint_sized_spec (buf.drop (n1 + n2 + n3)) 0 2
  rw [e4] at h; simp only [] at h
  by_cases c4 : n4 = 0
  · rw [if_pos c4] at h; exact (zero_result_absurd h hr).elim
  rw [if_neg c4] at h
  by_cases c5 : v4 > 255 * 3 ∨ v4 < 1
  · rw [if_pos c5] at h; exact (zero_result_absurd h hr).elim
  rw [if_neg c5] at h
  by_cases c6 : n1 + n2 + n3 + n4 > buf.length
  · rw [if_pos c6] at h; exact (zero_result_absurd h hr).elim
  rw [if_neg c6] at h
  by_cases c7 : n1 + n2 + n3 + n4 + v4.toNat > buf.length
  · rw [if_pos c7] at h; exact (zero_result_absurd h hr).elim
  rw [if_neg c7] at h
  by_cases c8 : n1 + n2 + n3 + n4 + v4.toNat + 2 > buf.length
  · rw [if_pos c8] at h; exact (zero_result_absurd h hr).elim
  rw [if_neg c8] at h
  obtain ⟨n5, v5, e5, hn5m, hn5l, -, -, hv5⟩ :=
    read_varint_sized_spec (buf.drop (n1 + n2 + n3 + n4 + v4.toNat + 2)) 0 1
  rw [e5] at h; simp only [] at h
  by_cases c9 : n5 = 0 ∨ (v5 ≠ 1 ∧ v5 ≠ 2 ∧ (if v3 ≥ 766 then v5 ≠ 3 else True))
  · rw [if_pos c9] at h; exact (zero_result_absurd h hr).elim
  rw [if_neg c9] at h
  obtain ⟨x, hx⟩ := handshake_tail_total c buf (n1 + n2 + n3 + n4 + v4.toNat + 2 + n5) v5 v3
  rw [hx] at h
  simp only [Option.some.injEq, Prod.mk.injEq] at h
  obtain ⟨-, hv⟩ := h
  -- the outer length
  have hn1 : n1 ≠ 0 := fun e => c1 (Or.inl e)
  obtain ⟨hL, hv1'⟩ := hv1 hn1
  have hLlen : (buf.take n1).length = n1 := by rw [List.length_take]; omega
  have hL2 : (buf.take n1).length ≤ 2 := by omega
  have hLsum := varint_sum_lt2 _ hL2
  rw [int32_small _ (by omega)] at hv1'
  have hLv : varint_sum (buf.take n1) ≤ 775 := by
    have : ¬ v1 > MAX_HANDSHAKE_LEN := fun e => c1 (Or.inr e)
    simp only [MAX_HANDSHAKE_LEN] at this
    omega
  -- the packet id
  have hn2 : n2 ≠ 0 := fun e => c2 (Or.inl e)
  have hn2' : n2 = 1 := by omega
  subst hn2'
  obtain ⟨hI, hv2'⟩ := hv2 hn2
  obtain ⟨b, hb, hb128, hbsum⟩ := varint_one _ hI (by rw [List.length_take]; omega)
  have hb0 : b = 0 := by
    have h0 : v2 = 0 := by
      by_contra hne
      exact c2 (Or.inr hne)
    rw [hbsum, int32_small _ (by omega), h0] at hv2'
    exact Fin.ext (by simp only [Fin.val_zero]; omega)
  subst hb0
  -- the protocol version
  obtain ⟨hV, hv3'⟩ := hv3 c3
  have hVlen : ((buf.drop (n1 + 1)).take n3).length ≤ 5 := by rw [List.length_take]; omega
  -- the host length
  obtain ⟨hHL, hv4'⟩ := hv4 c4
  have hHLlen : ((buf.drop (n1 + 1 + n3)).take n4).length ≤ 2 := by
    rw [List.length_take]; omega
  have hHLsum := varint_sum_lt2 _ hHLlen
  rw [int32_small _ (by omega)] at hv4'
  have hH : 1 ≤ varint_sum ((buf.drop (n1 + 1 + n3)).take n4) ∧
      varint_sum ((buf.drop (n1 + 1 + n3)).take n4) ≤ 765 := by
    have h1 : ¬ v4 > 255 * 3 := fun e => c5 (Or.inl e)
    have h2 : ¬ v4 < 1 := fun e => c5 (Or.inr e)
    omega
  have hv4n : v4.toNat = varint_sum ((buf.drop (n1 + 1 + n3)).take n4) := by
    rw [hv4']; exact Int.toNat_ofNat _
  -- the intention
  have hn5 : n5 ≠ 0 := fun e => c9 (Or.inl e)
  have hn5' : n5 = 1 := by omega
  subst hn5'
  obtain ⟨hT, hv5'⟩ := hv5 hn5
  obtain ⟨i, hi, hi128, hisum⟩ := varint_one _ hT (by rw [List.length_take]; omega)
  rw [hisum, int32_small _ (by omega)] at hv5'
  have hperm : intention_permitted i v3 := by
    have hc : ¬ (v5 ≠ 1 ∧ v5 ≠ 2 ∧ (if v3 ≥ 766 then v5 ≠ 3 else True)) :=
      fun e => c9 (Or.inr e)
    unfold intention_permitted
    by_cases hge : v3 ≥ 766
    · simp only [hge, if_true] at hc
      omega
    · simp only [hge, if_false, and_true] at hc
      omega
  refine ⟨⟨buf.take n1, (buf.drop (n1 + 1)).take n3, (buf.drop (n1 + 1 + n3)).take n4,
    (buf.drop (n1 + 1 + n3 + n4)).take v4.toNat,
    (buf.drop (n1 + 1 + n3 + n4 + v4.toNat)).take 2, i⟩,
    buf.drop (n1 + 1 + n3 + n4 + v4.toNat + 2 + 1), ?_, ?_, ?_, hlo, hhi, ?_⟩
  · simp only [HandshakeHead.bytes, List.append_assoc, List.cons_append, List.nil_append]
    have s7 := drop_split buf (n1 + 1 + n3 + n4 + v4.toNat + 2) 1
    rw [hi] at s7
    have s6 := drop_split buf (n1 + 1 + n3 + n4 + v4.toNat) 2
    have s5 := drop_split buf (n1 + 1 + n3 + n4) v4.toNat
    have s4 := drop_split buf (n1 + 1 + n3) n4
    have s3 := drop_split buf (n1 + 1) n3
    have s2 := drop_split buf n1 1
    rw [hb] at s2
    have s1 := (List.take_append_drop n1 buf).symm
    simp only [List.singleton_append] at s7 s2
    rw [← s7, ← s6, ← s5, ← s4, ← s3, ← s2]
    exact s1
  · refine ⟨hL, hL2, hLv, hV, hVlen, hHL, hHLlen, hH.1, hH.2, ?_, ?_, hi128⟩
    · simp only [List.length_take, List.length_drop]; omega
    · simp only [List.length_take, List.length_drop]; omega
  · simp only [HandshakeHead.version]
    rw [← hv3']; exact hperm
  · simp only [HandshakeHead.version]
    rw [← hv3']; exact hv.symm

theorem handshake_fields_total (c : Common) (buf : List Byte) (pv : Int) :
    ∃ r v, handshake_fields c buf pv = some (r, v) := by
  unfold handshake_fields
  obtain ⟨n1, v1, e1, -⟩ := read_varint_sized_spec buf 0 2
  rw [e1]; simp only []
  by_cases c1 : n1 = 0 ∨ v1 > MAX_HANDSHAKE_LEN
  · rw [if_pos c1]; exact ⟨_, _, rfl⟩
  rw [if_neg c1]
  obtain ⟨n2, v2, e2, -⟩ := read_varint_sized_spec (buf.drop n1) 0 1
  rw [e2]; simp only []
  by_cases c2 : n2 = 0 ∨ v2 ≠ 0
  · rw [if_pos c2]; exact ⟨_, _, rfl⟩
  rw [if_neg c2]
  obtain ⟨n3, v3, e3, -⟩ := read_varint_sized_spec (buf.drop (n1 + n2)) pv 5
  rw [e3]; simp only []
  by_cases c3 : n3 = 0
  · rw [if_pos c3]; exact ⟨_, _, rfl⟩
  rw [if_neg c3]
  obtain ⟨n4, v4, e4, -⟩ := read_varint_sized_spec (buf.drop (n1 + n2 + n3)) 0 2
  rw [e4]; simp only []
  by_cases c4 : n4 = 0
  · rw [if_pos c4]; exact ⟨_, _, rfl⟩
  rw [if_neg c4]
  by_cases c5 : v4 > 255 * 3 ∨ v4 < 1
  · rw [if_pos c5]; exact ⟨_, _, rfl⟩
  rw [if_neg c5]
  by_cases c6 : n1 + n2 + n3 + n4 > buf.length
  · rw [if_pos c6]; exact ⟨_, _, rfl⟩
  rw [if_neg c6]
  by_cases c7 : n1 + n2 + n3 + n4 + v4.toNat > buf.length
  · rw [if_pos c7]; exact ⟨_, _, rfl⟩
  rw [if_neg c7]
  by_cases c8 : n1 + n2 + n3 + n4 + v4.toNat + 2 > buf.length
  · rw [if_pos c8]; exact ⟨_, _, rfl⟩
  rw [if_neg c8]
  obtain ⟨n5, v5, e5, -⟩ :=
    read_varint_sized_spec (buf.drop (n1 + n2 + n3 + n4 + v4.toNat + 2)) 0 1
  rw [e5]; simp only []
  by_cases c9 : n5 = 0 ∨ (v5 ≠ 1 ∧ v5 ≠ 2 ∧ (if v3 ≥ 766 then v5 ≠ 3 else True))
  · rw [if_pos c9]; exact ⟨_, _, rfl⟩
  rw [if_neg c9]
  obtain ⟨x, hx⟩ := handshake_tail_total c buf (n1 + n2 + n3 + n4 + v4.toNat + 2 + n5) v5 v3
  exact ⟨_, _, hx⟩

theorem inspect_handshake_legacy (c : Common) (buf : List Byte) (pv : Int) (d : Nat)
    (h : buf[0]? = some 0xFE) :
    inspect_handshake c buf pv d = some (c.RECEIVED_LEGACY_PING, pv) := by
  unfold inspect_handshake
  have h1 : 1 ≤ buf.length := by
    rcases buf with _ | ⟨a, t⟩
    · simp at h
    · simp
  simp only [if_pos h1, h]
  rfl

theorem inspect_handshake_total (c : Common) (buf : List Byte) (pv : Int) (d : Nat) :
    ∃ r v, inspect_handshake c buf pv d = some (r, v) := by
  by_cases hfe : buf[0]? = some 0xFE
  · exact ⟨_, _, inspect_handshake_legacy c buf pv d hfe⟩
  unfold inspect_handshake
  simp only []
  by_cases h1 : 1 ≤ buf.length
  · rw [if_pos h1]
    obtain ⟨b0, e⟩ := getElem?_of_lt buf 0 (by omega)
    have hne : b0.val ≠ 0xFE := fun hv => hfe (by rw [e]; exact congrArg some (Fin.ext hv))
    rw [e]
    simp only [decide_eq_false hne]
    split_ifs
    · exact ⟨_, _, rfl⟩
    · exact handshake_fields_total c buf pv
  · rw [if_neg h1]
    simp only []
    split_ifs
    · exact ⟨_, _, rfl⟩
    · exact handshake_fields_total c buf pv

/-- C7: the result mapping of `inspect_handshake` on a range whose first byte is not `0xFE`.
When the range is well-formed handshake fields with a permitted intention followed by `rest`,
and its size is in `[8, 5447]`, the result is `handshake_result`: `AWAIT_STATUS_REQUEST` when
nothing follows and the intention is 1, `AWAIT_LOGIN` when nothing follows and the intention
is 2 or 3, `AWAIT_PING` when the intention is 1 and `rest` is exactly `0x01 0x00`,
`LOGIN_FINISHED` when the intention is 2 or 3 and `inspect_login_packet` accepts `rest` under
the decoded version, and 0 otherwise; the version slot holds the decoded version.  When the
range does not begin with such fields, the result is 0. -/
theorem inspect_handshake_mapping (c : Common) (buf : List Byte) (pv : Int) (tcp_dest : Nat)
    (hfe : buf[0]? ≠ some 0xFE) :
    (∀ (hd : HandshakeHead) (rest : List Byte), buf = hd.bytes ++ rest → hd.well_formed →
        intention_permitted hd.intention hd.version → 8 ≤ buf.length → buf.length ≤ 5447 →
        inspect_handshake c buf pv tcp_dest = some (handshake_result c hd rest, hd.version)) ∧
    ((¬ ∃ (hd : HandshakeHead) (rest : List Byte), buf = hd.bytes ++ rest ∧ hd.well_formed ∧
        intention_permitted hd.intention hd.version) →
      ∃ v, inspect_handshake c buf pv tcp_dest = some (0, v)) := by
  constructor
  · intro hd rest hbuf hwf hperm h8 hmax
    subst hbuf
    rw [inspect_handshake_head c hd rest pv tcp_dest hwf h8 hmax hfe, if_pos hperm]
  · intro hno
    obtain ⟨r, v, h⟩ := inspect_handshake_total c buf pv tcp_dest
    by_cases hr : r = 0
    · subst hr; exact ⟨v, h⟩
    · obtain ⟨hd, rest, e, hwf, hperm, -⟩ := inspect_handshake_success c buf pv tcp_dest r v h hr hfe
      exact (hno ⟨hd, rest, e, hwf, hperm⟩).elim

theorem distinct_success (c : Common) (hc : c.distinct) (r : Nat)
    (hs : r = c.AWAIT_STATUS_REQUEST ∨ r = c.AWAIT_LOGIN ∨ r = c.AWAIT_PING ∨
      r = c.LOGIN_FINISHED) : r ≠ 0 ∧ r ≠ c.RECEIVED_LEGACY_PING := by
  simp only [Common.distinct, List.nodup_cons, List.mem_cons, List.mem_singleton, not_or,
    List.not_mem_nil, List.nodup_nil, not_false_eq_true, and_true] at hc
  obtain ⟨⟨-, -, z3, z4, z5, -, z7, -⟩, -, -, ⟨-, -, -, -, s8⟩, ⟨-, -, -, l8⟩, ⟨-, -, p8⟩, -, f8⟩ :=
    hc
  rcases hs with e | e | e | e <;> subst e
  · exact ⟨fun e => z3 e.symm, s8⟩
  · exact ⟨fun e => z4 e.symm, l8⟩
  · exact ⟨fun e => z5 e.symm, p8⟩
  · exact ⟨fun e => z7 e.symm, f8⟩


theorem minecraft_filter_inspected (c : Common) (env : Env) (m : Maps) (f : Frame)
    (hf : f.inspected) :
    minecraft_filter c env m f
      = if f.syn then some (filter_syn c env m f) else filter_flow c env m f := by
  obtain ⟨h1, h2, h3, h4, h5, h6, h7, h8, h9, h10⟩ := hf
  unfold minecraft_filter
  rw [if_neg (by omega), if_neg (by simp [h2]), if_neg (by omega), if_neg (by simp [h5]),
    if_neg (by omega), if_neg (by simp [h7]), if_neg (by omega), if_neg (by omega), h10]
  simp

/-- The pairwise differences among the states that the payload dispatch compares. -/
theorem distinct_states (c : Common) (hc : c.distinct) :
    c.AWAIT_MC_HANDSHAKE ≠ c.AWAIT_ACK ∧ c.AWAIT_STATUS_REQUEST ≠ c.AWAIT_ACK ∧
    c.AWAIT_PING ≠ c.AWAIT_ACK ∧ c.AWAIT_LOGIN ≠ c.AWAIT_ACK ∧
    c.AWAIT_STATUS_REQUEST ≠ c.AWAIT_MC_HANDSHAKE ∧ c.AWAIT_PING ≠ c.AWAIT_MC_HANDSHAKE ∧
    c.AWAIT_LOGIN ≠ c.AWAIT_MC_HANDSHAKE ∧ c.AWAIT_PING ≠ c.AWAIT_STATUS_REQUEST ∧
    c.AWAIT_LOGIN ≠ c.AWAIT_STATUS_REQUEST ∧ c.AWAIT_LOGIN ≠ c.AWAIT_PING := by
  simp only [Common.distinct, List.nodup_cons, List.mem_cons, List.mem_singleton, not_or,
    List.not_mem_nil, List.nodup_nil, not_false_eq_true, and_true] at hc
  obtain ⟨-, ⟨a2, a3, a4, a5, -, -, -⟩, ⟨b3, b4, b5, -, -, -⟩, ⟨s4, s5, -, -, -⟩, ⟨l5, -, -, -⟩,
    -⟩ := hc
  exact ⟨fun e => a2 e.symm, fun e => a3 e.symm, fun e => a5 e.symm, fun e => a4 e.symm,
    fun e => b3 e.symm, fun e => b5 e.symm, fun e => b4 e.symm, fun e => s5 e.symm,
    fun e => s4 e.symm, l5⟩

/-- A failed inspection of a tracked flow ends in `retransmission`. -/
theorem filter_flow_fails (c : Common) (hc : c.distinct) (env : Env) (m : Maps) (f : Frame)
    (st : initial_state) (hack : f.ack = true) (hpay : f.payload_offset < f.data.length)
    (hsess : m.player_connection_map f.flow_key = none)
    (hrec : m.conntrack_map f.flow_key = some st)
    (hfail : inspection_fails c st f.payload f.dest) :
    filter_flow c env m f = some (retransmission c env m f.flow_key st) := by
  obtain ⟨d1, d2, d3, d4, d5, d6, d7, d8, d9, d10⟩ := distinct_states c hc
  unfold filter_flow
  simp only [hsess, hrec]
  have hna : st.state ≠ c.AWAIT_ACK := by
    rcases hfail with ⟨e, -⟩ | ⟨e, -⟩ | ⟨e, -⟩ | ⟨e, -⟩ <;> rw [e] <;> assumption
  rw [if_neg hna]
  unfold filter_payload
  rw [if_pos hpay]
  simp only [hack, Bool.not_true, Bool.false_eq_true, if_false]
  rcases hfail with ⟨e, h⟩ | ⟨e, h⟩ | ⟨e, h⟩ | ⟨e, h⟩
  · rw [if_pos e]
    obtain ⟨r, v, hr⟩ := inspect_handshake_total c f.payload 0 f.dest
    rw [hr] at h ⊢
    simp only [Option.map_some', Option.some.injEq] at h
    simp only [h, if_true]
  · rw [if_neg (by rw [e]; exact d5), if_pos e, h]
  · rw [if_neg (by rw [e]; exact d6), if_neg (by rw [e]; exact d8), if_pos e, h]
  · rw [if_neg (by rw [e]; exact d7), if_neg (by rw [e]; exact d9),
      if_neg (by rw [e]; exact d10), if_pos e, h]

theorem inspect_login_packet_too_long (buf : List Byte) (v : Int) (h : 4672 < buf.length) :
    inspect_login_packet buf v = some false := by
  unfold inspect_login_packet
  simp only []
  rw [if_pos (Or.inr (by simp only [MAX_LOGIN_LEN]; omega))]


theorem inspect_handshake_outer_too_long (c : Common) (buf : List Byte) (pv : Int) (d n : Nat)
    (v : Int) (h8 : 8 ≤ buf.length) (hmax : buf.length ≤ 5447) (hfe : buf[0]? ≠ some 0xFE)
    (hrd : read_varint_sized buf 0 2 = some (n, v)) (hv : v > MAX_HANDSHAKE_LEN) :
    inspect_handshake c buf pv d = some (0, pv) := by
  unfold inspect_handshake
  simp only []
  rw [if_pos (by omega)]
  obtain ⟨b0, e⟩ := getElem?_of_lt buf 0 (by omega)
  have hne : b0.val ≠ 0xFE := fun hv => hfe (by rw [e]; exact congrArg some (Fin.ext hv))
  rw [e]
  simp only [decide_eq_false hne]
  rw [if_neg (by simp only [MAX_HANDSHAKE_LEN, MAX_LOGIN_LEN, MIN_HANDSHAKE_LEN]; omega)]
  unfold handshake_fields
  simp only [hrd]
  rw [if_pos (Or.inr hv)]


theorem payload_nonempty (f : Frame) (h : f.payload ≠ []) :
    f.payload_offset < f.data.length := by
  by_contra hc
  exact h (List.drop_eq_nil_of_le (by omega))

theorem map_update_apply {κ ν : Type} [DecidableEq κ] (m : κ → Option ν) (k : κ) (v : ν)
    (x : κ) : map_update m k v x = if x = k then some v else m x := rfl

theorem map_delete_apply {κ ν : Type} [DecidableEq κ] (m : κ → Option ν) (k : κ) (x : κ) :
    map_delete m k x = if x = k then none else m x := rfl

theorem bpf_map_update_elem_apply {κ ν : Type} [DecidableEq κ] (ok : Bool) (m : κ → Option ν)
    (k : κ) (v : ν) (x : κ) :
    bpf_map_update_elem ok m k v x = if ok = true then (if x = k then some v else m x) else m x := by
  cases ok <;> rfl

/-- The counting of the retry policy, for every retry budget `MAX_RETRANSMISSION` (and state
constants that are non-zero and pairwise different).  When a packet with ACK and a non-empty
payload, for a flow without player session whose record is in the handshake, status, ping or
login state, fails the inspection of that state, the verdict is DROP.  If the record's `fails`
plus 1 exceeds the budget, the step calls the blocklist helper, at the key found at `&src_ip`
(which need not be the source address of the packet); otherwise the blocklist is unchanged and
the record holds the same state and protocol version with `fails` one higher.  A record that
is still stored for the flow after the step has `fails` raised by exactly 1.  The session and
throttle stores are unchanged. -/
theorem retransmission_retry_then_block (c : Common) (hc : c.distinct) (env : Env) (m : Maps)
    (f : Frame) (st : initial_state) (hf : f.inspected) (hsyn : f.syn = false)
    (hack : f.ack = true) (hpay : f.payload ≠ [])
    (hsess : m.player_connection_map f.flow_key = none)
    (hrec : m.conntrack_map f.flow_key = some st)
    (hfail : inspection_fails c st f.payload f.dest) :
    ∃ m', minecraft_filter c env m f = some (XDP_DROP, m') ∧
      (st.fails + 1 > c.MAX_RETRANSMISSION →
        m'.blocked_ips
          = bpf_map_update_elem env.block_write_ok m.blocked_ips env.src_ip_ref env.now) ∧
      (¬ st.fails + 1 > c.MAX_RETRANSMISSION →
        m'.blocked_ips = m.blocked_ips ∧
        m'.conntrack_map f.flow_key = some { st with fails := st.fails + 1 }) ∧
      (st.fails = c.MAX_RETRANSMISSION →
        m'.blocked_ips
          = bpf_map_update_elem env.block_write_ok m.blocked_ips env.src_ip_ref env.now) ∧
      (st.fails < c.MAX_RETRANSMISSION → m'.blocked_ips = m.blocked_ips) ∧
      (∀ st', m'.conntrack_map f.flow_key = some st' →
        st' = { st with fails := st.fails + 1 }) ∧
      m'.player_connection_map = m.player_connection_map ∧
      m'.connection_throttle = m.connection_throttle := by
  rw [minecraft_filter_inspected c env m f hf, hsyn]
  simp only [Bool.false_eq_true, if_false]
  rw [filter_flow_fails c hc env m f st hack (payload_nonempty f hpay) hsess hrec hfail]
  unfold retransmission
  simp only []
  by_cases hex : st.fails + 1 > c.MAX_RETRANSMISSION
  · rw [if_pos hex]
    refine ⟨_, rfl, fun _ => rfl, fun h => (h hex).elim, fun _ => rfl, fun h => ?_, ?_, rfl, rfl⟩
    · omega
    · intro st' h
      simp only [map_delete_apply, map_update_apply, if_true] at h
      split_ifs at h with h1
      exact (Option.some.inj h).symm
  · rw [if_neg hex]
    refine ⟨_, rfl, fun h => (hex h).elim, fun _ => ⟨rfl, ?_⟩, fun h => ?_, fun _ => rfl, ?_, rfl,
      rfl⟩
    · simp only [bpf_map_update_elem_apply, map_update_apply, if_true]
      split_ifs <;> rfl
    · omega
    · intro st' h
      simp only [bpf_map_update_elem_apply, map_update_apply, if_true] at h
      split_ifs at h <;> exact (Option.some.inj h).symm

theorem byte_val (n : Nat) : (byte n).val = n % 256 := rfl

theorem encode_varint_fuel_spec (fuel n : Nat) (h : n < 128 ^ fuel) (hf : 0 < fuel) :
    is_varint (encode_varint_fuel fuel n) = true ∧
    varint_sum (encode_varint_fuel fuel n) = n ∧
    (encode_varint_fuel fuel n).length ≤ fuel ∧
    1 ≤ (encode_varint_fuel fuel n).length := by
  induction fuel generalizing n with
  | zero => omega
  | succ k ih =>
    unfold encode_varint_fuel
    by_cases hn : n < 128
    · rw [if_pos hn]
      refine ⟨?_, ?_, by simp, by simp⟩
      · simp only [is_varint, decide_eq_true_eq, bit7_clear]
        rw [byte_val]; omega
      · simp only [varint_sum, and_7F, byte_val]; omega
    · rw [if_neg hn]
      have hk : 0 < k := by
        rcases k with _ | k
        · simp at h; omega
        · omega
      have hdiv : n / 128 < 128 ^ k := by
        rw [Nat.div_lt_iff_lt_mul (by decide)]
        rw [pow_succ] at h; exact h
      obtain ⟨i1, i2, i3, i4⟩ := ih (n / 128) hdiv hk
      refine ⟨?_, ?_, ?_, ?_⟩
      · rcases hx : encode_varint_fuel k (n / 128) with _ | ⟨a, t⟩
        · rw [hx] at i4; simp at i4
        · rw [hx] at i1
          simp only [is_varint, Bool.and_eq_true, decide_eq_true_eq, i1, and_true, ne_eq,
            bit7_clear]
          rw [byte_val]; omega
      · simp only [varint_sum, and_7F, byte_val, i2]; omega
      · simp only [List.length_cons]; omega
      · simp

theorem encode_varint_fuel_length (fuel k n : Nat) (h : n < 128 ^ k) (hk : 0 < k) :
    (encode_varint_fuel fuel n).length ≤ k := by
  induction fuel generalizing n k with
  | zero => simp [encode_varint_fuel]
  | succ f ih =>
    unfold encode_varint_fuel
    by_cases hn : n < 128
    · rw [if_pos hn]; simpa using hk
    · rw [if_neg hn]
      rcases k with _ | k
      · omega
      have hk' : 0 < k := by
        rcases k with _ | k
        · simp at h; omega
        · omega
      have hdiv : n / 128 < 128 ^ k := by
        rw [Nat.div_lt_iff_lt_mul (by decide)]
        rw [pow_succ] at h; exact h
      have := ih k (n / 128) hdiv hk'
      simp only [List.length_cons]; omega

theorem encode_varint_spec (n : Nat) (h : n < 2 ^ 35) :
    is_varint (encode_varint n) = true ∧ varint_sum (encode_varint n) = n ∧
    (encode_varint n).length ≤ 5 ∧ 1 ≤ (encode_varint n).length :=
  encode_varint_fuel_spec 5 n (by norm_num at h ⊢; exact h) (by decide)

theorem encode_varint_short (n : Nat) (h : n < 16384) : (encode_varint n).length ≤ 2 :=
  encode_varint_fuel_length 5 2 n (by norm_num; exact h) (by decide)

theorem bits32_lt (v : Int) : bits32 v < 2 ^ 32 := by
  unfold bits32
  have h1 : 0 ≤ v % 2 ^ 32 := Int.emod_nonneg _ (by norm_num)
  have h2 : v % 2 ^ 32 < 2 ^ 32 := Int.emod_lt_of_pos _ (by norm_num)
  omega

theorem int32_bits32 (v : Int) (hlo : -2 ^ 31 ≤ v) (hhi : v < 2 ^ 31) : int32 (bits32 v) = v := by
  have hlt := bits32_lt v
  unfold int32
  rw [Nat.mod_eq_of_lt hlt]
  unfold bits32 at hlt ⊢
  have h1 : 0 ≤ v % 2 ^ 32 := Int.emod_nonneg _ (by norm_num)
  rw [Int.toNat_of_nonneg h1]
  split_ifs with h <;> omega

theorem encode_handshake_head_well_formed (version : Int) (host : List Byte) (port : Nat)
    (intention : Byte) (hhost : 1 ≤ host.length ∧ host.length ≤ 765) (hi : intention.val < 128)
    (hbody : handshake_body_len version host ≤ 775) :
    (encode_handshake_head version host port intention).well_formed := by
  obtain ⟨v1, v2, v3, v4⟩ := encode_varint_spec (bits32 version)
    (by have := bits32_lt version; omega)
  obtain ⟨h1, h2, h3, h4⟩ := encode_varint_spec host.length (by omega)
  obtain ⟨l1, l2, l3, l4⟩ := encode_varint_spec (handshake_body_len version host) (by omega)
  refine ⟨l1, encode_varint_short _ (by omega), ?_, v1, v3, h1, encode_varint_short _ (by omega),
    ?_, ?_, ?_, rfl, hi⟩
  · show varint_sum (encode_varint _) ≤ 775
    rw [l2]; exact hbody
  · show 1 ≤ varint_sum (encode_varint host.length)
    rw [h2]; exact hhost.1
  · show varint_sum (encode_varint host.length) ≤ 765
    rw [h2]; exact hhost.2
  · show host.length = varint_sum (encode_varint host.length)
    rw [h2]

theorem login_uuid_new (buf : List Byte) (r : Nat) (v : Int) (h : v ≥ 764) :
    login_uuid buf r v = some (decide (r + 16 = buf.length)) := by
  unfold login_uuid
  rw [if_pos (by omega), if_pos h]
  by_cases hr : r + 16 ≤ buf.length
  · rw [if_pos hr]
  · rw [if_neg hr]
    have : ¬ (r + 16 = buf.length) := by omega
    simp [this]

theorem login_uuid_old (buf : List Byte) (r : Nat) (v : Int) (h : v < 760) :
    login_uuid buf r v = some (decide (r = buf.length)) := by
  unfold login_uuid
  rw [if_neg (by omega)]

theorem login_uuid_flag (pre tail : List Byte) (b : Byte) (v : Int) (h1 : 760 ≤ v)
    (h2 : v < 764) :
    login_uuid (pre ++ b :: tail) pre.length v
      = some (if b.val ≠ 0 then decide (tail.length = 16) else decide (tail.length = 0)) := by
  unfold login_uuid
  rw [if_pos (by omega), if_neg (by omega)]
  have hlen : (pre ++ b :: tail).length = pre.length + 1 + tail.length := by
    simp only [List.length_append, List.length_cons]; omega
  have hb : (pre ++ b :: tail)[pre.length]? = some b := by
    rw [List.getElem?_append_right (Nat.le_refl _)]; simp
  rw [if_pos (by omega), hb]
  simp only [hlen]
  by_cases hz : b.val ≠ 0
  · rw [if_pos hz, if_pos hz]
    by_cases ht : tail.length = 16
    · rw [if_pos (by omega)]; simp [ht]
    · by_cases h16 : pre.length + 1 + 16 ≤ pre.length + 1 + tail.length
      · rw [if_pos h16]
        have : ¬ (pre.length + 1 + 16 = pre.length + 1 + tail.length) := by omega
        simp [ht, this]
      · rw [if_neg h16]; simp [ht]
  · rw [if_neg hz, if_neg hz]
    by_cases ht : tail.length = 0
    · simp [ht]
    · have : ¬ (pre.length + 1 = pre.length + 1 + tail.length) := by omega
      simp [ht, this]

theorem login_uuid_end (pre : List Byte) (v : Int) (h1 : 760 ≤ v) :
    login_uuid pre pre.length v = some false := by
  by_cases h2 : v ≥ 764
  · rw [login_uuid_new _ _ _ h2]
    have : ¬ (pre.length + 16 = pre.length) := by omega
    simp [this]
  · unfold login_uuid
    rw [if_pos (by omega), if_neg h2, if_neg (by omega)]

theorem login_key_skip (buf : List Byte) (r : Nat) (v : Int) (h : ¬ (v ≥ 759 ∧ v < 761)) :
    login_key buf r v = login_uuid buf r v := by
  unfold login_key
  rw [if_neg h]

theorem login_key_end (pre : List Byte) (v : Int) (h : v ≥ 759 ∧ v < 761) :
    login_key pre pre.length v = some false := by
  unfold login_key
  rw [if_pos h, if_neg (by omega)]

theorem login_key_absent (pre tail : List Byte) (v : Int) (h : v ≥ 759 ∧ v < 761) :
    login_key (pre ++ (0 : Byte) :: tail) pre.length v
      = login_uuid (pre ++ (0 : Byte) :: tail) (pre.length + 1) v := by
  unfold login_key
  have hlen : (pre ++ (0 : Byte) :: tail).length = pre.length + 1 + tail.length := by
    simp only [List.length_append, List.length_cons]; omega
  have hb : (pre ++ (0 : Byte) :: tail)[pre.length]? = some 0 := by
    rw [List.getElem?_append_right (Nat.le_refl _)]; simp
  rw [if_pos h, if_pos (by omega), hb]
  simp

theorem read_varint_short (bs rest : List Byte) (slot : Int) (hv : is_varint bs = true)
    (h2 : bs.length ≤ 2) :
    read_varint_sized (bs ++ rest) slot 2 = some (bs.length, (varint_sum bs : Int)) := by
  rw [read_varint_sized_head bs rest slot 2 hv (by omega) h2,
    int32_small _ (by have := varint_sum_lt2 bs h2; omega)]

theorem login_key_present (pre expiry KL key SL tail : List Byte) (b : Byte) (v : Int)
    (h : v ≥ 759 ∧ v < 761) (hb : b.val ≠ 0) (he : expiry.length = 8)
    (hKL : is_varint KL = true) (hKL2 : KL.length ≤ 2) (hK : varint_sum KL = key.length)
    (hK512 : key.length ≤ 512)
    (hSL : is_varint SL = true) (hSL2 : SL.length ≤ 2) (hS : varint_sum SL ≤ 4096) :
    login_key (pre ++ b :: (expiry ++ (KL ++ (key ++ (SL ++ tail))))) pre.length v
      = if varint_sum SL ≤ tail.length then
          login_uuid (pre ++ b :: (expiry ++ (KL ++ (key ++ (SL ++ tail)))))
            (pre.length + 1 + 8 + KL.length + key.length + SL.length + varint_sum SL) v
        else
          login_uuid (pre ++ b :: (expiry ++ (KL ++ (key ++ (SL ++ tail)))))
            (pre.length + 1 + 8 + KL.length + key.length + SL.length) v := by
  generalize hX4 : SL ++ tail = X4
  generalize hX3 : key ++ X4 = X3
  generalize hX2 : KL ++ X3 = X2
  generalize hX1 : expiry ++ X2 = X1
  generalize hX0 : b :: X1 = X0
  have hlen : (pre ++ X0).length
      = pre.length + 1 + 8 + KL.length + key.length + SL.length + tail.length := by
    rw [← hX0, ← hX1, ← hX2, ← hX3, ← hX4]
    simp only [List.length_append, List.length_cons, he]
    omega
  have hb0 : (pre ++ X0)[pre.length]? = some b := by
    rw [List.getElem?_append_right (Nat.le_refl _), ← hX0]; simp
  have d0 : (pre ++ X0).drop pre.length = X0 := List.drop_left pre X0
  have d2 : (pre ++ X0).drop (pre.length + 1 + 8) = X2 := by
    rw [← List.drop_drop, ← List.drop_drop, d0, ← hX0, List.drop_one, List.tail_cons, ← hX1,
      ← he, List.drop_left]
  have e1 : read_varint_sized X2 0 2 = some (KL.length, (key.length : Int)) := by
    rw [← hX2, read_varint_short KL X3 0 hKL hKL2, hK]
  have d4 : (pre ++ X0).drop (pre.length + 1 + 8 + KL.length + key.length) = X4 := by
    rw [← List.drop_drop, ← List.drop_drop, d2, ← hX2, List.drop_left, ← hX3, List.drop_left]
  have e2 : read_varint_sized X4 0 2 = some (SL.length, (varint_sum SL : Int)) := by
    rw [← hX4, read_varint_short SL tail 0 hSL hSL2]
  have hKL0 := is_varint_length_pos KL hKL
  have hSL0 := is_varint_length_pos SL hSL
  unfold login_key
  rw [if_pos h, if_pos (by omega), hb0]
  simp only [if_pos hb]
  rw [if_pos (by omega)]
  simp only [d2, e1, Int.toNat_ofNat]
  rw [if_neg hKL0, if_neg (by omega), if_pos (by omega), if_pos ⟨by omega, by omega⟩]
  simp only [d4, e2, Int.toNat_ofNat]
  rw [if_neg hSL0, if_neg (by omega), if_pos (by omega)]
  by_cases hfit : varint_sum SL ≤ tail.length
  · rw [if_pos (by omega), if_pos hfit]
  · rw [if_neg (by omega), if_neg hfit]

theorem login_key_no_signature (pre expiry KL key : List Byte) (b : Byte) (v : Int)
    (h : v ≥ 759 ∧ v < 761) (hb : b.val ≠ 0) (he : expiry.length = 8)
    (hKL : is_varint KL = true) (hKL2 : KL.length ≤ 2) (hK : varint_sum KL = key.length)
    (hK512 : key.length ≤ 512) :
    login_key (pre ++ b :: (expiry ++ (KL ++ key))) pre.length v = some false := by
  generalize hX2 : KL ++ key = X2
  generalize hX1 : expiry ++ X2 = X1
  generalize hX0 : b :: X1 = X0
  have hlen : (pre ++ X0).length = pre.length + 1 + 8 + KL.length + key.length := by
    rw [← hX0, ← hX1, ← hX2]
    simp only [List.length_append, List.length_cons, he]
    omega
  have hb0 : (pre ++ X0)[pre.length]? = some b := by
    rw [List.getElem?_append_right (Nat.le_refl _), ← hX0]; simp
  have d0 : (pre ++ X0).drop pre.length = X0 := List.drop_left pre X0
  have d2 : (pre ++ X0).drop (pre.length + 1 + 8) = X2 := by
    rw [← List.drop_drop, ← List.drop_drop, d0, ← hX0, List.drop_one, List.tail_cons, ← hX1,
      ← he, List.drop_left]
  have e1 : read_varint_sized X2 0 2 = some (KL.length, (key.length : Int)) := by
    have := read_varint_short KL key 0 hKL hKL2
    rw [hX2] at this
    rw [this, hK]
  have d4 : (pre ++ X0).drop (pre.length + 1 + 8 + KL.length + key.length) = [] := by
    apply List.drop_eq_nil_of_le; omega
  have hKL0 := is_varint_length_pos KL hKL
  unfold login_key
  rw [if_pos h, if_pos (by omega), hb0]
  simp only [if_pos hb]
  rw [if_pos (by omega)]
  simp only [d2, e1, Int.toNat_ofNat]
  rw [if_neg hKL0, if_neg (by omega), if_pos (by omega), if_pos ⟨by omega, by omega⟩]
  simp only [d4]
  rfl

theorem inspect_login_packet_name (Len NL rest : List Byte) (v : Int)
    (hLen : is_varint Len = true) (hLen2 : Len.length ≤ 2)
    (hNL : is_varint NL = true) (hNL2 : NL.length ≤ 2)
    (hN1 : 1 ≤ varint_sum NL) (hN48 : varint_sum NL ≤ 48) :
    inspect_login_packet (Len ++ (0 : Byte) :: (NL ++ rest)) v
      = if (Len ++ (0 : Byte) :: (NL ++ rest)).length < 4 ∨
            4672 < (Len ++ (0 : Byte) :: (NL ++ rest)).length ∨ 4672 < varint_sum Len ∨
            rest.length < varint_sum NL then some false
        else login_key (Len ++ (0 : Byte) :: (NL ++ rest))
          (Len.length + 1 + NL.length + varint_sum NL) v := by
  generalize hX1 : NL ++ rest = X1
  generalize hX0 : (0 : Byte) :: X1 = X0
  have hlen : (Len ++ X0).length = Len.length + 1 + NL.length + rest.length := by
    rw [← hX0, ← hX1]
    simp only [List.length_append, List.length_cons]
    omega
  have e1 : read_varint_sized (Len ++ X0) 0 2 = some (Len.length, (varint_sum Len : Int)) :=
    read_varint_short Len X0 0 hLen hLen2
  have d1 : (Len ++ X0).drop Len.length = X0 := List.drop_left Len X0
  have e2 : read_varint_sized X0 0 1 = some (1, 0) := by
    rw [← hX0]; exact read_byte_varint 0 X1 0 (by decide)
  have d2 : (Len ++ X0).drop (Len.length + 1) = X1 := by
    rw [← List.drop_drop, d1, ← hX0]; rfl
  have e3 : read_varint_sized X1 0 2 = some (NL.length, (varint_sum NL : Int)) := by
    rw [← hX1]; exact read_varint_short NL rest 0 hNL hNL2
  have hL0 := is_varint_length_pos Len hLen
  have hNL0 := is_varint_length_pos NL hNL
  unfold inspect_login_packet
  simp only [MIN_LOGIN_LEN, MAX_LOGIN_LEN]
  by_cases hs : (Len ++ X0).length < 4 ∨ 4672 < (Len ++ X0).length
  · rw [if_pos (by omega), if_pos (by omega)]
  rw [if_neg (by omega)]
  simp only [e1, d1, e2, d2, e3, Int.toNat_ofNat]
  by_cases hv : 4672 < varint_sum Len
  · rw [if_pos (by omega), if_pos (by omega)]
  rw [if_neg (by omega), if_neg (by simp), if_neg hNL0, if_neg (by omega), if_pos (by omega)]
  by_cases hr : rest.length < varint_sum NL
  · rw [if_neg (by omega), if_pos (by omega)]
  · rw [if_pos (by omega), if_neg (by omega)]

theorem login_uuid_block (pre : List Byte) (v : Int) (l : LoginFields) (hl : l.valid) :
    login_uuid (pre ++ uuid_block v l) pre.length v = some true := by
  obtain ⟨-, -, -, -, -, hu⟩ := hl
  unfold uuid_block
  by_cases h764 : v ≥ 764
  · rw [if_pos h764, login_uuid_new _ _ _ h764]
    simp [hu]
  rw [if_neg h764]
  by_cases h760 : v ≥ 760
  · rw [if_pos h760]
    cases l.has_uuid
    · simp only [Bool.false_eq_true, if_false]
      rw [login_uuid_flag pre [] 0 v h760 (by omega)]
      simp
    · simp only [if_true]
      rw [login_uuid_flag pre l.uuid 1 v h760 (by omega)]
      simp [hu]
  · rw [if_neg h760, login_uuid_old _ _ _ (by omega)]
    simp

theorem login_uuid_block_cut (pre : List Byte) (v : Int) (l : LoginFields) (hl : l.valid)
    (h760 : v ≥ 760) :
    login_uuid (pre ++ (uuid_block v l).dropLast) pre.length v = some false := by
  obtain ⟨-, -, -, -, -, hu⟩ := hl
  unfold uuid_block
  by_cases h764 : v ≥ 764
  · rw [if_pos h764, login_uuid_new _ _ _ h764]
    have : ¬ (pre.length + 16 = (pre ++ l.uuid.dropLast).length) := by
      simp only [List.length_append, List.length_dropLast, hu]; omega
    simp only [this, decide_False]
  rw [if_neg h764, if_pos h760]
  cases l.has_uuid
  · simp only [Bool.false_eq_true, if_false, List.dropLast_single, List.append_nil]
    exact login_uuid_end pre v h760
  · simp only [if_true]
    have hne : l.uuid ≠ [] := by
      intro e; rw [e] at hu; simp at hu
    rw [List.dropLast_cons_of_ne_nil hne, login_uuid_flag pre _ 1 v h760 (by omega)]
    have : ¬ (l.uuid.dropLast.length = 16) := by
      simp only [List.length_dropLast, hu]; omega
    simp only [this, decide_False]
    simp

/-- The facts about the two length varints of a valid signing-key block. -/
theorem key_block_varints (l : LoginFields) (hl : l.valid) :
    is_varint (encode_varint l.key.length) = true ∧ (encode_varint l.key.length).length ≤ 2 ∧
    varint_sum (encode_varint l.key.length) = l.key.length ∧
    is_varint (encode_varint l.signature.length) = true ∧
    (encode_varint l.signature.length).length ≤ 2 ∧
    varint_sum (encode_varint l.signature.length) = l.signature.length := by
  obtain ⟨-, -, -, hk, hs, -⟩ := hl
  obtain ⟨k1, k2, -, -⟩ := encode_varint_spec l.key.length (by omega)
  obtain ⟨s1, s2, -, -⟩ := encode_varint_spec l.signature.length (by omega)
  exact ⟨k1, encode_varint_short _ (by omega), k2, s1, encode_varint_short _ (by omega), s2⟩

theorem login_key_block (pre tail : List Byte) (v : Int) (l : LoginFields) (hl : l.valid) :
    login_key (pre ++ (key_block v l ++ tail)) pre.length v
      = login_uuid (pre ++ (key_block v l ++ tail)) (pre.length + (key_block v l).length) v := by
  obtain ⟨k1, k2, k3, s1, s2, s3⟩ := key_block_varints l hl
  obtain ⟨-, -, he, hk, hs, -⟩ := hl
  unfold key_block
  by_cases h : v ≥ 759 ∧ v < 761
  · rw [if_pos h]
    cases l.has_key
    · simp only [Bool.false_eq_true, if_false, List.singleton_append, List.length_singleton]
      exact login_key_absent pre tail v h
    · simp only [if_true, List.cons_append, List.append_assoc]
      rw [login_key_present pre l.expiry _ l.key _ (l.signature ++ tail) 1 v h (by decide) he k1
        k2 k3 hk s1 s2 (by omega), s3, if_pos (by simp)]
      congr 1
      simp only [List.length_cons, List.length_append, he]
      omega
  · rw [if_neg h]
    simp only [List.nil_append, List.length_nil, Nat.add_zero]
    exact login_key_skip _ _ _ h

theorem login_key_block_cut (pre : List Byte) (l : LoginFields) (hl : l.valid)
    (hslip : ¬ (l.has_key = true ∧ l.signature.length = 1)) :
    login_key (pre ++ (key_block 759 l).dropLast) pre.length 759 = some false := by
  obtain ⟨k1, k2, k3, s1, s2, s3⟩ := key_block_varints l hl
  obtain ⟨-, -, he, hk, hs, -⟩ := hl
  have h : (759 : Int) ≥ 759 ∧ (759 : Int) < 761 := by decide
  unfold key_block
  rw [if_pos h]
  cases hkey : l.has_key
  · simp only [Bool.false_eq_true, if_false, List.dropLast_single, List.append_nil]
    exact login_key_end pre 759 h
  · simp only [if_true]
    rw [hkey] at hslip
    by_cases hsig : l.signature = []
    · have hS : encode_varint l.signature.length = [0] := by rw [hsig]; decide
      rw [hS, hsig]
      have hd : List.dropLast ((1 : Byte) :: (l.expiry ++ (encode_varint l.key.length ++
          (l.key ++ ([0] ++ []))))) = (1 : Byte) :: (l.expiry ++ (encode_varint l.key.length ++
          l.key)) := by
        rw [List.append_nil, List.dropLast_cons_of_ne_nil (by simp),
          List.dropLast_append_of_ne_nil _ (by simp),
          List.dropLast_append_of_ne_nil _ (by simp),
          List.dropLast_append_of_ne_nil _ (by simp), List.dropLast_single, List.append_nil]
      rw [hd]
      exact login_key_no_signature pre l.expiry _ l.key 1 759 h (by decide) he k1 k2 k3 hk
    · have hne : encode_varint l.signature.length ++ l.signature ≠ [] := by simp [hsig]
      have hd : List.dropLast ((1 : Byte) :: (l.expiry ++ (encode_varint l.key.length ++ (l.key ++
          (encode_varint l.signature.length ++ l.signature)))))
          = (1 : Byte) :: (l.expiry ++ (encode_varint l.key.length ++ (l.key ++
          (encode_varint l.signature.length ++ l.signature.dropLast)))) := by
        rw [List.dropLast_cons_of_ne_nil (by simp [hsig]),
          List.dropLast_append_of_ne_nil _ (by simp [hsig]),
          List.dropLast_append_of_ne_nil _ (by simp [hsig]),
          List.dropLast_append_of_ne_nil _ hne,
          List.dropLast_append_of_ne_nil _ hsig]
      rw [hd, login_key_present pre l.expiry _ l.key _ l.signature.dropLast 1 759 h (by decide) he
        k1 k2 k3 hk s1 s2 (by omega), s3]
      have hpos : 0 < l.signature.length := List.length_pos.mpr hsig
      rw [if_neg (by simp only [List.length_dropLast]; omega),
        login_uuid_old _ _ _ (by decide)]
      have hlen : ¬ (pre.length + 1 + 8 + (encode_varint l.key.length).length + l.key.length
          + (encode_varint l.signature.length).length
          = (pre ++ (1 : Byte) :: (l.expiry ++ (encode_varint l.key.length ++ (l.key ++
          (encode_varint l.signature.length ++ l.signature.dropLast))))).length) := by
        simp only [List.length_append, List.length_cons, List.length_dropLast, he]
        have : l.signature.length ≠ 1 := fun e => hslip ⟨rfl, e⟩
        omega
      simp only [hlen, decide_False]

theorem key_block_length (v : Int) (l : LoginFields) (hl : l.valid) :
    (key_block v l).length ≤ 4621 := by
  obtain ⟨-, k2, -, -, s2, -⟩ := key_block_varints l hl
  obtain ⟨-, -, he, hk, hs, -⟩ := hl
  unfold key_block
  split_ifs
  · simp only [List.length_cons, List.length_append, he]; omega
  · simp
  · simp

theorem uuid_block_length (v : Int) (l : LoginFields) (hl : l.valid) :
    (uuid_block v l).length ≤ 17 := by
  obtain ⟨-, -, -, -, -, hu⟩ := hl
  unfold uuid_block
  split_ifs <;> simp [hu]

/-- The facts about the two leading varints of an encoded login packet. -/
theorem login_varints (v : Int) (l : LoginFields) (hl : l.valid) :
    is_varint (encode_varint (login_body v l).length) = true ∧
    (encode_varint (login_body v l).length).length ≤ 2 ∧
    varint_sum (encode_varint (login_body v l).length) = (login_body v l).length ∧
    is_varint (encode_varint l.name.length) = true ∧
    (encode_varint l.name.length).length ≤ 2 ∧
    varint_sum (encode_varint l.name.length) = l.name.length ∧
    (login_body v l).length = 1 + (encode_varint l.name.length).length + l.name.length
      + (key_block v l).length + (uuid_block v l).length := by
  have hk := key_block_length v l hl
  have hu := uuid_block_length v l hl
  obtain ⟨hn1, hn48, -⟩ := hl
  obtain ⟨n1, n2, -, -⟩ := encode_varint_spec l.name.length (by omega)
  have n3 := encode_varint_short l.name.length (by omega)
  have hlen : (login_body v l).length = 1 + (encode_varint l.name.length).length + l.name.length
      + (key_block v l).length + (uuid_block v l).length := by
    simp only [login_body, List.length_cons, List.length_append]; omega
  obtain ⟨b1, b2, -, -⟩ := encode_varint_spec (login_body v l).length (by omega)
  exact ⟨b1, encode_varint_short _ (by omega), b2, n1, n3, n2, hlen⟩

theorem inspect_login_packet_encoded (v : Int) (l : LoginFields) (hl : l.valid)
    (hsize : (encode_login v l).length ≤ 4672) :
    inspect_login_packet (encode_login v l) v = some true := by
  obtain ⟨b1, b2, b3, n1, n2, n3, hlen⟩ := login_varints v l hl
  have hn := hl.1
  have hn48 := hl.2.1
  have hpos := is_varint_length_pos _ b1
  have hnpos := is_varint_length_pos _ n1
  have hG : encode_login v l = encode_varint (login_body v l).length ++ (0 : Byte) ::
      (encode_varint l.name.length ++ (l.name ++ (key_block v l ++ uuid_block v l))) := rfl
  rw [hG] at hsize ⊢
  rw [inspect_login_packet_name _ _ _ v b1 b2 n1 n2 (by omega) (by omega), if_neg]
  · have hre : encode_varint (login_body v l).length ++ (0 : Byte) ::
        (encode_varint l.name.length ++ (l.name ++ (key_block v l ++ uuid_block v l)))
        = (encode_varint (login_body v l).length ++ (0 : Byte) ::
          (encode_varint l.name.length ++ l.name)) ++ (key_block v l ++ uuid_block v l) := by
      simp only [List.append_assoc, List.cons_append]
    have hpre : (encode_varint (login_body v l).length ++ (0 : Byte) ::
        (encode_varint l.name.length ++ l.name)).length
        = (encode_varint (login_body v l).length).length + 1
          + (encode_varint l.name.length).length + varint_sum (encode_varint l.name.length) := by
      simp only [List.length_append, List.length_cons, n3]; omega
    rw [hre, ← hpre, login_key_block _ _ v l hl, ← List.append_assoc, ← List.length_append]
    exact login_uuid_block _ v l hl
  · simp only [List.length_append, List.length_cons] at hsize ⊢
    omega

theorem inspect_login_packet_truncated (v : Int) (l : LoginFields) (hl : l.valid)
    (hslip : ¬ (v = 759 ∧ l.has_key = true ∧ l.signature.length = 1)) :
    inspect_login_packet (encode_login v l).dropLast v = some false := by
  obtain ⟨b1, b2, b3, n1, n2, n3, hlen⟩ := login_varints v l hl
  have hn := hl.1
  have hn48 := hl.2.1
  have hname : l.name ≠ [] := fun e => by rw [e] at hn; simp at hn
  have hG : encode_login v l = encode_varint (login_body v l).length ++ (0 : Byte) ::
      (encode_varint l.name.length ++ (l.name ++ (key_block v l ++ uuid_block v l))) := rfl
  rw [hG, List.dropLast_append_of_ne_nil _ (by simp),
    List.dropLast_cons_of_ne_nil (by simp [hname]),
    List.dropLast_append_of_ne_nil _ (by simp [hname])]
  have hpre : ∀ X : List Byte, encode_varint (login_body v l).length ++ (0 : Byte) ::
      (encode_varint l.name.length ++ (l.name ++ X))
      = (encode_varint (login_body v l).length ++ (0 : Byte) ::
        (encode_varint l.name.length ++ l.name)) ++ X := by
    intro X; simp only [List.append_assoc, List.cons_append]
  have hprelen : (encode_varint (login_body v l).length ++ (0 : Byte) ::
      (encode_varint l.name.length ++ l.name)).length
      = (encode_varint (login_body v l).length).length + 1
        + (encode_varint l.name.length).length + varint_sum (encode_varint l.name.length) := by
    simp only [List.length_append, List.length_cons, n3]; omega
  by_cases h760 : v ≥ 760
  · -- the last byte is in the UUID block
    have hU : uuid_block v l ≠ [] := by
      have hu := hl.2.2.2.2.2
      unfold uuid_block
      split_ifs
      · intro e; rw [e] at hu; simp at hu
      · simp
      · simp
    rw [List.dropLast_append_of_ne_nil _ (by simp [hU]),
      List.dropLast_append_of_ne_nil _ hU,
      inspect_login_packet_name _ _ _ v b1 b2 n1 n2 (by omega) (by omega)]
    split_ifs
    · rfl
    · rw [hpre, ← hprelen, login_key_block _ _ v l hl, ← List.append_assoc, ← List.length_append]
      exact login_uuid_block_cut _ v l hl h760
  · have hU : uuid_block v l = [] := by
      unfold uuid_block
      rw [if_neg (by omega), if_neg h760]
    rw [hU, List.append_nil]
    by_cases h759 : v = 759
    · -- the last byte is in the signing-key block
      subst h759
      have hK : key_block 759 l ≠ [] := by
        unfold key_block
        rw [if_pos (by decide)]
        split_ifs <;> simp
      rw [List.dropLast_append_of_ne_nil _ hK,
        inspect_login_packet_name _ _ _ 759 b1 b2 n1 n2 (by omega) (by omega)]
      split_ifs
      · rfl
      · rw [hpre, ← hprelen]
        exact login_key_block_cut _ l hl (fun h => hslip ⟨rfl, h⟩)
    · -- the last byte is in the name
      have hK : key_block v l = [] := by
        unfold key_block
        rw [if_neg (by omega)]
      rw [hK, List.append_nil,
        inspect_login_packet_name _ _ _ v b1 b2 n1 n2 (by omega) (by omega), if_pos]
      right; right; right
      rw [n3, List.length_dropLast]
      omega

theorem handshake_body_len_bounds (version : Int) (host : List Byte)
    (hhost : 1 ≤ host.length ∧ host.length ≤ 765) :
    7 ≤ handshake_body_len version host ∧ handshake_body_len version host ≤ 776 := by
  obtain ⟨-, -, v3, v4⟩ := encode_varint_spec (bits32 version)
    (by have := bits32_lt version; omega)
  obtain ⟨-, -, -, h4⟩ := encode_varint_spec host.length (by omega)
  have h2 := encode_varint_short host.length (by omega)
  unfold handshake_body_len
  omega

theorem encode_handshake_length (version : Int) (host : List Byte) (port : Nat)
    (intention : Byte) :
    (encode_handshake version host port intention).length
      = (encode_varint (handshake_body_len version host)).length
        + handshake_body_len version host := by
  simp only [encode_handshake, encode_handshake_head, HandshakeHead.bytes, List.length_append,
    List.length_cons, List.length_nil, handshake_body_len]
  omega

theorem inspect_handshake_size (c : Common) (buf : List Byte) (pv : Int) (d : Nat)
    (hfe : buf[0]? ≠ some 0xFE) (h : buf.length < 8 ∨ 5447 < buf.length) :
    inspect_handshake c buf pv d = some (0, pv) := by
  unfold inspect_handshake
  simp only []
  by_cases h1 : 1 ≤ buf.length
  · rw [if_pos h1]
    obtain ⟨b0, e⟩ := getElem?_of_lt buf 0 (by omega)
    have hne : b0.val ≠ 0xFE := fun hv => hfe (by rw [e]; exact congrArg some (Fin.ext hv))
    rw [e]
    simp only [decide_eq_false hne]
    rw [if_pos (by simp only [MAX_HANDSHAKE_LEN, MAX_LOGIN_LEN, MIN_HANDSHAKE_LEN]; omega)]
  · rw [if_neg h1]
    simp only []
    rw [if_pos (by simp only [MAX_HANDSHAKE_LEN, MAX_LOGIN_LEN, MIN_HANDSHAKE_LEN]; omega)]

theorem getElem?_zero_append (a b : List Byte) (h : a ≠ []) : (a ++ b)[0]? = a[0]? := by
  cases a with
  | nil => exact (h rfl).elim
  | cons x t => simp

theorem encode_handshake_ne_nil (version : Int) (host : List Byte) (port : Nat)
    (intention : Byte) : encode_handshake version host port intention ≠ [] := by
  simp [encode_handshake, HandshakeHead.bytes]

theorem encode_handshake_version (version : Int) (host : List Byte) (port : Nat)
    (intention : Byte) (hlo : -2 ^ 31 ≤ version) (hhi : version < 2 ^ 31) :
    (encode_handshake_head version host port intention).version = version := by
  obtain ⟨-, v2, -, -⟩ := encode_varint_spec (bits32 version)
    (by have := bits32_lt version; omega)
  show int32 (varint_sum (encode_varint (bits32 version))) = version
  rw [v2, int32_bits32 version hlo hhi]

theorem encode_login_length_small (version : Int) (l : LoginFields) (hl : l.valid)
    (h : ¬ (version ≥ 759 ∧ version < 761)) : (encode_login version l).length ≤ 70 := by
  obtain ⟨b1, b2, b3, n1, n2, n3, hlen⟩ := login_varints version l hl
  have hu := uuid_block_length version l hl
  have hk : (key_block version l).length = 0 := by
    unfold key_block; rw [if_neg h]; rfl
  have hn48 := hl.2.1
  unfold encode_login
  rw [List.length_append]
  omega

theorem encode_login_length_pos (version : Int) (l : LoginFields) (hl : l.valid) :
    4 ≤ (encode_login version l).length := by
  obtain ⟨b1, b2, b3, n1, n2, n3, hlen⟩ := login_varints version l hl
  have hpos := is_varint_length_pos _ b1
  have hnpos := is_varint_length_pos _ n1
  have hn := hl.1
  unfold encode_login
  rw [List.length_append]
  omega

theorem handshake_len_key_versions (version : Int) (host : List Byte)
    (hhost : 1 ≤ host.length ∧ host.length ≤ 765) (h : version ≥ 759 ∧ version < 761) :
    handshake_body_len version host ≤ 773 := by
  have h2 := encode_varint_short host.length (by omega)
  have hv : (encode_varint (bits32 version)).length = 2 := by
    have : version = 759 ∨ version = 760 := by omega
    rcases this with e | e <;> subst e <;> decide
  unfold handshake_body_len
  omega

/-- C5 (amended): round trip of encode then inspect.  For every signed 32-bit protocol version,
every host of 1 to 765 bytes, every port, and every login content the wire shape allows (name
of 1 to 48 bytes, key of at most 512 bytes, signature of at most 4096 bytes, 16-byte UUID), let
`H` be the standard encoding of the handshake with intention 2 and `G` the standard encoding of
the login packet for that version.  If the first byte of `H` is not `0xFE`, the body of `H` has
at most 775 bytes and `G` has at most 4672 bytes, then `inspect_handshake` returns
`LOGIN_FINISHED` on `H ++ G` and `AWAIT_LOGIN` on `H`, both times with the version slot equal
to the encoded version. -/
theorem handshake_login_round_trip (c : Common) (version : Int) (host : List Byte) (port : Nat)
    (l : LoginFields) (tcp_dest : Nat)
    (hv : -2 ^ 31 ≤ version ∧ version < 2 ^ 31)
    (hhost : 1 ≤ host.length ∧ host.length ≤ 765) (hl : l.valid)
    (hfe : (encode_handshake version host port 2)[0]? ≠ some 0xFE)
    (hH : handshake_body_len version host ≤ 775)
    (hG : (encode_login version l).length ≤ 4672) :
    inspect_handshake c (encode_handshake version host port 2 ++ encode_login version l) 0
        tcp_dest = some (c.LOGIN_FINISHED, version) ∧
    inspect_handshake c (encode_handshake version host port 2) 0 tcp_dest
      = some (c.AWAIT_LOGIN, version) := by
  have hwf := encode_handshake_head_well_formed version host port 2 hhost (by decide) hH
  have hver := encode_handshake_version version host port 2 hv.1 hv.2
  have hbl := handshake_body_len_bounds version host hhost
  have hHlen := encode_handshake_length version host port 2
  have hLenlen : (encode_varint (handshake_body_len version host)).length ≤ 2 :=
    encode_varint_short _ (by omega)
  have hLenpos : 1 ≤ (encode_varint (handshake_body_len version host)).length :=
    (encode_varint_spec _ (by omega)).2.2.2
  have hGpos := encode_login_length_pos version l hl
  have hperm : intention_permitted (encode_handshake_head version host port 2).intention
      (encode_handshake_head version host port 2).version := Or.inr (Or.inl rfl)
  have hi : ¬ ((encode_handshake_head version host port 2).intention.val = 1) := by
    show ¬ ((2 : Byte).val = 1)
    decide
  constructor
  · have htotal : (encode_handshake version host port 2 ++ encode_login version l).length
        ≤ 5447 := by
      rw [List.length_append, hHlen]
      by_cases hk : version ≥ 759 ∧ version < 761
      · have := handshake_len_key_versions version host hhost hk
        omega
      · have := encode_login_length_small version l hl hk
        omega
    have hne : encode_login version l ≠ [] := by
      intro e; rw [e] at hGpos; simp at hGpos
    unfold encode_handshake at hfe htotal hHlen ⊢
    rw [inspect_handshake_head c _ _ 0 tcp_dest hwf
      (by rw [List.length_append, hHlen]; omega) htotal
      (by
        have hnn := encode_handshake_ne_nil version host port 2
        unfold encode_handshake at hnn
        rw [getElem?_zero_append _ _ hnn]; exact hfe),
      if_pos hperm, hver]
    unfold handshake_result
    rw [if_neg hne, if_neg hi, hver, inspect_login_packet_encoded version l hl hG]
    simp
  · unfold encode_handshake at hfe hHlen ⊢
    have := inspect_handshake_head c (encode_handshake_head version host port 2) [] 0 tcp_dest hwf
      (by rw [List.append_nil, hHlen]; omega) (by rw [List.append_nil, hHlen]; omega)
      (by rw [List.append_nil]; exact hfe)
    rw [List.append_nil] at this
    rw [this, if_pos hperm, hver]
    unfold handshake_result
    rw [if_pos rfl, if_neg hi]

/-- C6 (amended): truncation is rejected.  For every signed 32-bit protocol version, every
standard-encoded handshake `H` with intention 2 whose first byte is not `0xFE`, and every
standard-encoded login packet `G` for that version, other than a version-759 login that carries
a signing-key block with a 1-byte signature, `inspect_handshake` returns 0 on `H` followed by
`G` without its last byte. -/
theorem truncated_login_rejected (c : Common) (version : Int) (host : List Byte) (port : Nat)
    (l : LoginFields) (tcp_dest : Nat)
    (hv : -2 ^ 31 ≤ version ∧ version < 2 ^ 31)
    (hhost : 1 ≤ host.length ∧ host.length ≤ 765) (hl : l.valid)
    (hfe : (encode_handshake version host port 2)[0]? ≠ some 0xFE)
    (hslip : ¬ (version = 759 ∧ l.has_key = true ∧ l.signature.length = 1)) :
    ∃ v, inspect_handshake c
      (encode_handshake version host port 2 ++ (encode_login version l).dropLast) 0 tcp_dest
        = some (0, v) := by
  have hnn := encode_handshake_ne_nil version host port 2
  have hfe2 : (encode_handshake version host port 2 ++ (encode_login version l).dropLast)[0]?
      ≠ some 0xFE := by
    rw [getElem?_zero_append _ _ hnn]; exact hfe
  have hbl := handshake_body_len_bounds version host hhost
  have hHlen := encode_handshake_length version host port 2
  have hLenlen : (encode_varint (handshake_body_len version host)).length ≤ 2 :=
    encode_varint_short _ (by omega)
  obtain ⟨l1, l2, -, l4⟩ := encode_varint_spec (handshake_body_len version host) (by omega)
  by_cases hsize : (encode_handshake version host port 2 ++
      (encode_login version l).dropLast).length < 8 ∨
      5447 < (encode_handshake version host port 2 ++ (encode_login version l).dropLast).length
  · exact ⟨_, inspect_handshake_size c _ 0 tcp_dest hfe2 hsize⟩
  by_cases hH : handshake_body_len version host ≤ 775
  · have hwf := encode_handshake_head_well_formed version host port 2 hhost (by decide) hH
    have hver := encode_handshake_version version host port 2 hv.1 hv.2
    have hi : ¬ ((encode_handshake_head version host port 2).intention.val = 1) := by
      show ¬ ((2 : Byte).val = 1)
      decide
    have hGpos := encode_login_length_pos version l hl
    have hne : (encode_login version l).dropLast ≠ [] := by
      intro e
      have := congrArg List.length e
      rw [List.length_dropLast, List.length_nil] at this
      omega
    unfold encode_handshake at hfe2 hsize ⊢
    rw [inspect_handshake_head c _ _ 0 tcp_dest hwf (by omega) (by omega) hfe2]
    refine ⟨(encode_handshake_head version host port 2).version, ?_⟩
    by_cases hperm : intention_permitted (encode_handshake_head version host port 2).intention
        (encode_handshake_head version host port 2).version
    · rw [if_pos hperm]
      unfold handshake_result
      rw [if_neg hne, if_neg hi, hver, inspect_login_packet_truncated version l hl hslip]
      simp
    · rw [if_neg hperm]
  · have hrd : read_varint_sized (encode_handshake version host port 2 ++
        (encode_login version l).dropLast) 0 2
        = some ((encode_varint (handshake_body_len version host)).length,
            (handshake_body_len version host : Int)) := by
      have := read_varint_short (encode_varint (handshake_body_len version host))
        ((0 : Byte) :: (encode_varint (bits32 version) ++ (encode_varint host.length ++ (host ++
          ([byte (port / 256), byte port] ++ [(2 : Byte)])))) ++
          (encode_login version l).dropLast) 0 l1 hLenlen
      rw [l2] at this
      rw [← this]
      simp only [encode_handshake, encode_handshake_head, HandshakeHead.bytes,
        List.append_assoc]
    exact ⟨_, inspect_handshake_outer_too_long c _ 0 tcp_dest _ _ (by omega) (by omega) hfe2 hrd
      (by simp only [MAX_HANDSHAKE_LEN]; omega)⟩

theorem sample_login_full_valid : sample_login_full.valid := by
  simp only [LoginFields.valid, sample_login_full, List.length_replicate]
  decide

theorem encode_login_full_length : (encode_login 759 sample_login_full).length = 4673 := by
  have hk : key_block 759 sample_login_full
      = 0x01 :: (sample_login_full.expiry ++ (encode_varint sample_login_full.key.length ++
        (sample_login_full.key ++ (encode_varint sample_login_full.signature.length ++
          sample_login_full.signature)))) := by
    unfold key_block
    rw [if_pos (by decide), if_pos (show sample_login_full.has_key = true from rfl)]
  have hu : uuid_block 759 sample_login_full = [] := by
    unfold uuid_block
    rw [if_neg (by decide), if_neg (by decide)]
  have hb : (login_body 759 sample_login_full).length = 4671 := by
    unfold login_body
    rw [hk, hu]
    simp only [List.length_cons, List.length_append, List.length_nil,
      sample_login_full, List.length_replicate]
    have h1 : (encode_varint 48).length = 1 := by decide
    have h2 : (encode_varint 512).length = 2 := by decide
    have h3 : (encode_varint 4096).length = 2 := by decide
    omega
  unfold encode_login
  rw [List.length_append, hb]
  have : (encode_varint 4671).length = 2 := by decide
  omega

set_option maxRecDepth 100000 in
/-- C5 (counterexample): three standard encodings on which the round trip fails.  A handshake
for version 759 with a 246-byte host has a 254-byte body, so its first byte is `0xFE` and the
inspector answers `RECEIVED_LEGACY_PING`, not `AWAIT_LOGIN`; a handshake with a 5-byte version
and a 765-byte host has a 776-byte body, above `MAX_HANDSHAKE_LEN`, and gets 0; and a login
packet for version 759 with all fields at their largest has 4673 bytes, above `MAX_LOGIN_LEN`,
so the pair gets 0, not `LOGIN_FINISHED`. -/
theorem handshake_login_round_trip_counterexample :
    sample_login_full.valid ∧
    inspect_handshake sample_common (encode_handshake 759 (List.replicate 246 0x61) 25565 2) 0
      25565 = some (sample_common.RECEIVED_LEGACY_PING, 0) ∧
    inspect_handshake sample_common (encode_handshake (2 ^ 28) (List.replicate 765 0x61) 25565 2)
      0 25565 = some (0, 0) ∧
    inspect_handshake sample_common
      (encode_handshake 759 [0x61] 25565 2 ++ encode_login 759 sample_login_full) 0 25565
      = some (0, 759) := by
  refine ⟨sample_login_full_valid, ?_, ?_, ?_⟩
  · exact inspect_handshake_legacy sample_common _ 0 25565 (by decide)
  · have hbl : handshake_body_len (2 ^ 28) (List.replicate 765 0x61) = 776 := by
      simp only [handshake_body_len, List.length_replicate]
      decide
    have hlen : (encode_handshake (2 ^ 28) (List.replicate 765 0x61) 25565 2).length = 778 := by
      rw [encode_handshake_length, hbl]; decide
    have hrd : read_varint_sized (encode_handshake (2 ^ 28) (List.replicate 765 0x61) 25565 2)
        0 2 = some (2, 776) := by
      simp only [encode_handshake, encode_handshake_head, HandshakeHead.bytes, hbl]
      rw [read_varint_short (encode_varint 776) _ 0 (by decide) (by decide)]
      decide
    have h0 : (encode_handshake (2 ^ 28) (List.replicate 765 0x61) 25565 2)[0]? ≠ some 0xFE := by
      simp only [encode_handshake, encode_handshake_head, HandshakeHead.bytes, hbl]
      rw [getElem?_zero_append _ _ (by decide)]
      decide
    exact inspect_handshake_outer_too_long sample_common _ 0 25565 2 776 (by omega) (by omega)
      h0 hrd (by decide)
  · have hlen := encode_login_full_length
    have hH : encode_handshake 759 [0x61] 25565 2 = (sample_head version_759 2).bytes := by
      decide
    have hb : (sample_head version_759 2).bytes
        = [0x08, 0x00, 0xF7, 0x05, 0x01, 0x61, 0x63, 0xDD, 0x02] := by decide
    have hv : (sample_head version_759 2).version = 759 := by decide
    have hi : (sample_head version_759 2).intention.val = 2 := rfl
    have hne : encode_login 759 sample_login_full ≠ [] := by
      intro e; rw [e] at hlen; simp at hlen
    rw [hH, inspect_handshake_head sample_common (sample_head version_759 2) _ 0 25565
      (by decide) (by rw [List.length_append, hlen, hb]; decide)
      (by rw [List.length_append, hlen, hb]; decide)
      (by rw [hb]; simp only [List.cons_append, List.getElem?_cons_zero]; decide)]
    rw [if_pos (by decide)]
    simp only [handshake_result, if_neg hne, hi, hv,
      inspect_login_packet_too_long _ _ (by rw [hlen]; decide)]
    decide

/-- The round trip at version 759 with a short host and a login with a signing-key block. -/
theorem handshake_login_round_trip_witness :
    inspect_handshake sample_common
      (encode_handshake 759 [0x61] 25565 2 ++ encode_login 759 sample_login) 0 25565
      = some (sample_common.LOGIN_FINISHED, 759) ∧
    inspect_handshake sample_common (encode_handshake 759 [0x61] 25565 2) 0 25565
      = some (sample_common.AWAIT_LOGIN, 759) :=
  handshake_login_round_trip sample_common 759 [0x61] 25565 sample_login 25565 (by decide)
    (by decide) (by decide) (by decide) (by decide) (by decide)

set_option maxRecDepth 100000 in
/-- C6 (counterexample): two truncated pairs that are not answered with 0.  After a handshake
whose first byte is `0xFE` the result is `RECEIVED_LEGACY_PING`; and a version-759 login with a
1-byte signature, cut by its last byte, is accepted, so the result is `LOGIN_FINISHED`. -/
theorem truncated_login_rejected_counterexample :
    inspect_handshake sample_common
      (encode_handshake 759 (List.replicate 246 0x61) 25565 2
        ++ (encode_login 759 sample_login).dropLast) 0 25565
      = some (sample_common.RECEIVED_LEGACY_PING, 0) ∧
    inspect_handshake sample_common
      (encode_handshake 759 [0x61] 25565 2 ++ (encode_login 759 sample_login).dropLast) 0 25565
      = some (sample_common.LOGIN_FINISHED, 759) := by
  constructor
  · exact inspect_handshake_legacy sample_common _ 0 25565
      (by rw [getElem?_zero_append _ _ (encode_handshake_ne_nil _ _ _ _)]; decide)
  · decide

/-- The truncation of a version-760 login with a signing-key block is rejected. -/
theorem truncated_login_rejected_witness :
    ∃ v, inspect_handshake sample_common
      (encode_handshake 760 [0x61] 25565 2 ++ (encode_login 760 sample_login).dropLast) 0 25565
        = some (0, v) :=
  truncated_login_rejected sample_common 760 [0x61] 25565 sample_login 25565 (by decide)
    (by decide) (by decide) (by decide) (by decide)

open xdp_action

/-- The decoder on the two-byte varint `0x85 0x01` followed by another byte. -/
theorem read_varint_sized_valid_witness :
    read_varint_sized ([0x85, 0x01] ++ [0xFF]) 0 2 = some (2, 133) := by
  have h := read_varint_sized_valid [0x85, 0x01] [0xFF] 0 2 (by decide)
    (fun i hi => by
      have hi0 : i = 0 := by simp only [List.length_cons, List.length_nil] at hi; omega
      subst hi0; decide)
    (by decide) (by decide)
  rw [h]
  decide


/-- C8 (amended): the intention rule of `inspect_handshake`, for state constants that are
non-zero and pairwise different.  Whenever the result is `AWAIT_STATUS_REQUEST`, `AWAIT_LOGIN`,
`AWAIT_PING` or `LOGIN_FINISHED`, the range begins with well-formed handshake fields whose
version is the one left in the slot, and the intention of any such fields is 1, or 2, or 3 with
a decoded version of at least 766.  A range whose first byte is not `0xFE` and that begins with
well-formed fields whose intention byte is 3 with a decoded version below 766 (negative
versions included), or 0, or in `4..127`, gets the result 0. -/
theorem inspect_handshake_intention (c : Common) (hc : c.distinct) (buf : List Byte) (pv : Int)
    (tcp_dest : Nat) :
    (∀ r v, inspect_handshake c buf pv tcp_dest = some (r, v) →
      (r = c.AWAIT_STATUS_REQUEST ∨ r = c.AWAIT_LOGIN ∨ r = c.AWAIT_PING ∨
        r = c.LOGIN_FINISHED) →
      (∃ (hd : HandshakeHead) (rest : List Byte), buf = hd.bytes ++ rest ∧ hd.well_formed ∧
        v = hd.version) ∧
      ∀ (hd : HandshakeHead) (rest : List Byte), buf = hd.bytes ++ rest → hd.well_formed →
        (hd.intention.val = 1 ∨ hd.intention.val = 2 ∨
          (hd.intention.val = 3 ∧ hd.version ≥ 766))) ∧
    (∀ (hd : HandshakeHead) (rest : List Byte), buf = hd.bytes ++ rest → hd.well_formed →
      buf[0]? ≠ some 0xFE →
      ((hd.intention.val = 3 ∧ hd.version < 766) ∨ hd.intention.val = 0 ∨
        (4 ≤ hd.intention.val ∧ hd.intention.val ≤ 127)) →
      ∃ v, inspect_handshake c buf pv tcp_dest = some (0, v)) := by
  constructor
  · intro r v h hsucc
    obtain ⟨hr0, hrl⟩ := distinct_success c hc r hsucc
    have hfe : buf[0]? ≠ some 0xFE := by
      intro hfe
      rw [inspect_handshake_legacy c buf pv tcp_dest hfe] at h
      simp only [Option.some.injEq, Prod.mk.injEq] at h
      exact hrl h.1.symm
    obtain ⟨hd, rest, e, hwf, hperm, h8, hmax, hv⟩ :=
      inspect_handshake_success c buf pv tcp_dest r v h hr0 hfe
    refine ⟨⟨hd, rest, e, hwf, hv⟩, ?_⟩
    intro hd' rest' e' hwf'
    subst e'
    rw [inspect_handshake_head c hd' rest' pv tcp_dest hwf' h8 hmax hfe] at h
    by_cases hp : intention_permitted hd'.intention hd'.version
    · exact hp
    · rw [if_neg hp] at h
      simp only [Option.some.injEq, Prod.mk.injEq] at h
      exact (hr0 h.1.symm).elim
  · intro hd rest e hwf hfe hbad
    subst e
    by_cases hsize : (hd.bytes ++ rest).length < 8 ∨ 5447 < (hd.bytes ++ rest).length
    · exact ⟨_, inspect_handshake_size c _ pv tcp_dest hfe hsize⟩
    · refine ⟨hd.version, ?_⟩
      rw [inspect_handshake_head c hd rest pv tcp_dest hwf (by omega) (by omega) hfe, if_neg]
      unfold intention_permitted
      omega

set_option maxRecDepth 100000 in
/-- C8 (counterexample): a standard-encoded handshake for version 759 with intention 3 and a
246-byte host is made of well-formed fields, yet its first byte is `0xFE` and the result is
`RECEIVED_LEGACY_PING`, not 0. -/
theorem inspect_handshake_intention_counterexample :
    (encode_handshake_head 759 (List.replicate 246 0x61) 25565 3).well_formed ∧
    (encode_handshake_head 759 (List.replicate 246 0x61) 25565 3).intention.val = 3 ∧
    (encode_handshake_head 759 (List.replicate 246 0x61) 25565 3).version = 759 ∧
    inspect_handshake sample_common (encode_handshake 759 (List.replicate 246 0x61) 25565 3) 0
      25565 = some (sample_common.RECEIVED_LEGACY_PING, 0) ∧
    sample_common.RECEIVED_LEGACY_PING ≠ 0 := by
  refine ⟨by decide, rfl, by decide, ?_, by decide⟩
  exact inspect_handshake_legacy sample_common _ 0 25565 (by decide)

/-- The intention rule at a handshake for version 759 with intention 3. -/
theorem inspect_handshake_intention_witness :
    ∃ v, inspect_handshake sample_common (encode_handshake 759 [0x61] 25565 3) 0 25565
      = some (0, v) :=
  (inspect_handshake_intention sample_common (by decide) (encode_handshake 759 [0x61] 25565 3) 0
    25565).2 (encode_handshake_head 759 [0x61] 25565 3) [] (by decide) (by decide) (by decide)
    (by decide)

/-- The result mapping at a version-759 handshake followed by a login packet. -/
theorem inspect_handshake_mapping_witness :
    inspect_handshake sample_common ((sample_head version_759 2).bytes ++ login_759) 0 25565
      = some (sample_common.LOGIN_FINISHED, 759) := by
  have h := (inspect_handshake_mapping sample_common
    ((sample_head version_759 2).bytes ++ login_759) 0 25565 (by decide)).1
    (sample_head version_759 2) login_759 rfl (by decide) (by decide) (by decide) (by decide)
  rw [h]
  decide

/-- The retry policy at a record with 3 failures under a budget of 3. -/
theorem retransmission_retry_then_block_witness :
    (minecraft_filter sample_common sample_env (sample_maps 3 3) (sample_frame [0x00])).map
      Prod.fst = some XDP_DROP := by
  obtain ⟨m', h, -⟩ := retransmission_retry_then_block sample_common (by decide) sample_env
    (sample_maps 3 3) (sample_frame [0x00]) { state := 3, protocol := 759, fails := 3 }
    (by decide) rfl rfl (by decide) rfl (by decide) (by decide)
  rw [h]
  rfl

/-- C4 (the code at the failing input): `inspect_login_packet` accepts, for version 759, a
16-byte range whose signature-length varint at offset 15 announces 5 bytes and after which
nothing follows, and, for version 760, a 17-byte range whose signature-length varint announces
5 bytes and after which a single byte follows. -/
theorem inspect_login_packet_cut_signature :
    inspect_login_packet login_759_cut 759 = some true ∧
    read_varint_sized (login_759_cut.drop 15) 0 2 = some (1, 5) ∧
    (login_759_cut.drop 16).length = 0 ∧
    inspect_login_packet login_760_cut 760 = some true ∧
    read_varint_sized (login_760_cut.drop 15) 0 2 = some (1, 5) ∧
    (login_760_cut.drop 16).length = 1 := by decide

/-- C10 (the code at the failing input): a flow of 10.0.0.1 with 3 failures under a budget of
3 fails the status inspection.  The verdict is DROP, yet the blocklist has no entry for
10.0.0.1 afterwards (the entry is written at the key found at `&src_ip`), the flow record is
still stored, now with 4 failures, the next SYN of 10.0.0.1 is passed, and the next packet of
the flow, a valid status request, is passed as well. -/
theorem retransmission_block_key :
    (minecraft_filter sample_common sample_env (sample_maps 3 3) (sample_frame [0x00])).map
      Prod.fst = some XDP_DROP ∧
    (minecraft_filter sample_common sample_env (sample_maps 3 3) (sample_frame [0x00])).map
      (fun r => r.2.blocked_ips (sample_frame [0x00]).saddr) = some none ∧
    (minecraft_filter sample_common sample_env (sample_maps 3 3) (sample_frame [0x00])).map
      (fun r => r.2.blocked_ips sample_env.src_ip_ref) = some (some sample_env.now) ∧
    (minecraft_filter sample_common sample_env (sample_maps 3 3) (sample_frame [0x00])).map
      (fun r => r.2.conntrack_map (sample_frame [0x00]).flow_key)
      = some (some { state := 3, protocol := 759, fails := 4 }) ∧
    ((minecraft_filter sample_common sample_env (sample_maps 3 3) (sample_frame [0x00])).bind
      (fun r => minecraft_filter sample_common sample_env r.2 sample_syn)).map Prod.fst
      = some XDP_PASS ∧
    ((minecraft_filter sample_common sample_env (sample_maps 3 3) (sample_frame [0x00])).bind
      (fun r => minecraft_filter sample_common sample_env r.2 (sample_frame [0x01, 0x00]))).map
      Prod.fst = some XDP_PASS := by decide

/-! ## The SYN branch and the throttle -/

theorem filter_syn_tracked (c : Common) (env : Env) (m : Maps) (f : Frame) (st : initial_state)
    (hrec : m.conntrack_map f.flow_key = some st) :
    ∃ m', filter_syn c env m f = (XDP_DROP, m') ∧ m'.conntrack_map = m.conntrack_map ∧
      m'.player_connection_map = m.player_connection_map ∧ m'.blocked_ips = m.blocked_ips := by
  unfold filter_syn
  simp only []
  cases hb : m.blocked_ips f.saddr with
  | some t => exact ⟨m, rfl, rfl, rfl, rfl⟩
  | none =>
    cases ht : m.connection_throttle f.saddr with
    | some count =>
      simp only []
      by_cases h1 : count > HIT_COUNT
      · rw [if_pos h1]; exact ⟨m, rfl, rfl, rfl, rfl⟩
      · rw [if_neg h1]
        cases hw : env.throttle_write_ok with
        | false => exact ⟨m, rfl, rfl, rfl, rfl⟩
        | true =>
          simp only [if_true, filter_new_flow, hrec]
          exact ⟨_, rfl, rfl, rfl, rfl⟩
    | none =>
      simp only []
      cases hw : env.throttle_write_ok with
      | false => exact ⟨m, rfl, rfl, rfl, rfl⟩
      | true =>
        simp only [if_true, filter_new_flow, hrec]
        exact ⟨_, rfl, rfl, rfl, rfl⟩

theorem filter_syn_fresh (c : Common) (env : Env) (m : Maps) (f : Frame) (count : Nat)
    (hblock : m.blocked_ips f.saddr = none)
    (hthr : m.connection_throttle f.saddr = throttle_entry count) (hle : count ≤ HIT_COUNT)
    (hrec : m.conntrack_map f.flow_key = none)
    (hw1 : env.throttle_write_ok = true) (hw2 : env.conntrack_write_ok = true) :
    filter_syn c env m f = (XDP_PASS, { m with
      connection_throttle := map_update m.connection_throttle f.saddr (count + 1)
      conntrack_map := map_update m.conntrack_map f.flow_key (gen_initial_state c.AWAIT_ACK 0) }) := by
  unfold filter_syn
  simp only [hblock, hthr, throttle_entry]
  by_cases h0 : count = 0
  · subst h0
    simp only [if_true, hw1, filter_new_flow, hrec, hw2]
  · have h1 : ¬ count > HIT_COUNT := by omega
    simp only [if_neg h0, if_neg h1, hw1, if_true, filter_new_flow, hrec, hw2]

theorem filter_syn_throttled (c : Common) (env : Env) (m : Maps) (f : Frame) (count : Nat)
    (hblock : m.blocked_ips f.saddr = none)
    (hthr : m.connection_throttle f.saddr = some count) (hgt : count > HIT_COUNT) :
    filter_syn c env m f = (XDP_DROP, m) := by
  unfold filter_syn
  simp only [hblock, hthr, if_pos hgt]

theorem throttle_run (c : Common) (a : Nat) (steps : List (Env × Frame)) :
    ∀ (m : Maps) (count : Nat), count ≤ HIT_COUNT + 1 →
    m.blocked_ips a = none → m.connection_throttle a = throttle_entry count →
    (∀ s ∈ steps, s.2.inspected ∧ s.2.syn = true ∧ s.2.saddr = a ∧
      s.1.throttle_write_ok = true ∧ s.1.conntrack_write_ok = true ∧
      m.conntrack_map s.2.flow_key = none) →
    (steps.map (fun s => s.2.flow_key)).Nodup →
    ∃ m', minecraft_filter_run c m steps
        = some (List.replicate (min steps.length (HIT_COUNT + 1 - count)) XDP_PASS
            ++ List.replicate (steps.length - (HIT_COUNT + 1 - count)) XDP_DROP, m') ∧
      m'.connection_throttle a = throttle_entry (min (count + steps.length) (HIT_COUNT + 1)) ∧
      m'.blocked_ips = m.blocked_ips ∧ m'.player_connection_map = m.player_connection_map ∧
      (∀ k, k ∉ steps.map (fun s => s.2.flow_key) → m'.conntrack_map k = m.conntrack_map k) ∧
      (∀ (i : Nat) (h : i < steps.length),
        m'.conntrack_map (steps[i]).2.flow_key
          = if i < HIT_COUNT + 1 - count then some (gen_initial_state c.AWAIT_ACK 0) else none) := by
  induction steps with
  | nil =>
    intro m count hc hb ht _ _
    refine ⟨m, ?_, ?_, rfl, rfl, fun _ _ => rfl, ?_⟩
    · simp [minecraft_filter_run]
    · have : min (count + 0) (HIT_COUNT + 1) = count := by simp; omega
      rw [List.length_nil, this]; exact ht
    · intro i h; simp at h
  | cons s rest ih =>
    intro m count hc hb ht hs hnd
    obtain ⟨env, f⟩ := s
    obtain ⟨hf, hsyn, hsa, hw1, hw2, hrec⟩ := hs (env, f) (List.mem_cons_self _ _)
    simp only at hf hsyn hsa hw1 hw2 hrec
    simp only [List.map_cons, List.nodup_cons] at hnd
    obtain ⟨hnotin, hnd'⟩ := hnd
    subst hsa
    by_cases hlt : count ≤ HIT_COUNT
    · -- the SYN is passed
      have hstep := filter_syn_fresh c env m f count hb ht hlt hrec hw1 hw2
      obtain ⟨m', hrun, hthr', hbl', hpc', hother, hidx⟩ := ih
        { m with
          connection_throttle := map_update m.connection_throttle f.saddr (count + 1)
          conntrack_map := map_update m.conntrack_map f.flow_key (gen_initial_state c.AWAIT_ACK 0) }
        (count + 1) (by omega) hb
        (by simp [map_update_apply, throttle_entry])
        (by
          intro s hs'
          obtain ⟨h1, h2, h3, h4, h5, h6⟩ := hs s (List.mem_cons_of_mem _ hs')
          refine ⟨h1, h2, h3, h4, h5, ?_⟩
          have hne : s.2.flow_key ≠ f.flow_key := by
            intro e
            apply hnotin
            rw [← e]
            exact List.mem_map_of_mem (fun s => s.2.flow_key) hs'
          simp [map_update_apply, hne, h6])
        hnd'
      refine ⟨m', ?_, ?_, hbl', hpc', ?_, ?_⟩
      · rw [minecraft_filter_run, minecraft_filter_inspected c env m f hf, hsyn, if_pos rfl, hstep]
        simp only [hrun]
        have e1 : min (rest.length + 1) (HIT_COUNT + 1 - count)
            = min rest.length (HIT_COUNT + 1 - (count + 1)) + 1 := by omega
        have e2 : rest.length + 1 - (HIT_COUNT + 1 - count)
            = rest.length - (HIT_COUNT + 1 - (count + 1)) := by omega
        rw [List.length_cons, e1, e2, List.replicate_succ, List.cons_append]
      · rw [hthr', List.length_cons]
        congr 2; omega
      · intro k hk
        simp only [List.map_cons, List.mem_cons, not_or] at hk
        rw [hother k hk.2]
        simp [map_update_apply, hk.1]
      · intro i h
        rcases i with _ | j
        · simp only [List.getElem_cons_zero]
          rw [hother _ hnotin]
          have : 0 < HIT_COUNT + 1 - count := by omega
          simp [map_update_apply, this]
        · simp only [List.getElem_cons_succ]
          rw [hidx j (by simpa using h)]
          congr 1
          apply propext
          constructor <;> intro <;> omega
    · -- the SYN is dropped by the throttle
      have hcount : count = HIT_COUNT + 1 := by omega
      have ht' : m.connection_throttle f.saddr = some count := by
        rw [ht, throttle_entry, if_neg (by omega)]
      have hstep := filter_syn_throttled c env m f count hb ht' (by omega)
      obtain ⟨m', hrun, hthr', hbl', hpc', hother, hidx⟩ := ih m count hc hb ht
        (fun s hs' => hs s (List.mem_cons_of_mem _ hs')) hnd'
      refine ⟨m', ?_, ?_, hbl', hpc', ?_, ?_⟩
      · rw [minecraft_filter_run, minecraft_filter_inspected c env m f hf, hsyn, if_pos rfl, hstep]
        simp only [hrun]
        subst hcount
        simp [List.replicate_succ]
      · rw [hthr', List.length_cons]
        congr 1; omega
      · intro k hk
        simp only [List.map_cons, List.mem_cons, not_or] at hk
        exact hother k hk.2
      · intro i h
        have hz : ¬ i < HIT_COUNT + 1 - count := by omega
        rw [if_neg hz]
        rcases i with _ | j
        · simp only [List.getElem_cons_zero]
          rw [hother _ hnotin]; exact hrec
        · simp only [List.getElem_cons_succ]
          rw [hidx j (by simpa using h), if_neg (by omega)]

/-! ## The throttle store across one invocation -/

theorem retransmission_throttle (c : Common) (env : Env) (m : Maps) (k : ipv4_flow_key)
    (st : initial_state) :
    (retransmission c env m k st).2.connection_throttle = m.connection_throttle := by
  unfold retransmission
  simp only []
  split_ifs <;> rfl

theorem filter_advance_throttle (c : Common) (env : Env) (m : Maps) (k : ipv4_flow_key)
    (st : initial_state) (n : Nat) (v : Int) :
    (filter_advance c env m k st n v).2.connection_throttle = m.connection_throttle := by
  unfold filter_advance
  simp only []
  split_ifs <;> rfl

theorem filter_next_throttle (env : Env) (m : Maps) (k : ipv4_flow_key)
    (st : initial_state) (n : Nat) :
    (filter_next env m k st n).2.connection_throttle = m.connection_throttle := by
  unfold filter_next
  simp only []
  split_ifs <;> rfl

theorem filter_payload_throttle (c : Common) (env : Env) (m : Maps) (f : Frame)
    (k : ipv4_flow_key) (st : initial_state) (state : Nat) (r : xdp_action × Maps)
    (h : filter_payload c env m f k st state = some r) :
    r.2.connection_throttle = m.connection_throttle := by
  unfold filter_payload at h
  by_cases h0 : f.payload_offset < f.data.length
  swap
  · rw [if_neg h0] at h; cases h; rfl
  rw [if_pos h0] at h
  by_cases h1 : (!f.ack) = true
  · rw [if_pos h1] at h; cases h; rfl
  rw [if_neg h1] at h
  by_cases s1 : state = c.AWAIT_MC_HANDSHAKE
  · rw [if_pos s1] at h
    cases hi : inspect_handshake c f.payload 0 f.dest with
    | none => rw [hi] at h; cases h
    | some p =>
      obtain ⟨n, v⟩ := p
      rw [hi] at h
      simp only [] at h
      split_ifs at h <;> cases h
      · exact retransmission_throttle _ _ _ _ _
      · rfl
      · exact filter_advance_throttle _ _ _ _ _ _ _
  rw [if_neg s1] at h
  by_cases s2 : state = c.AWAIT_STATUS_REQUEST
  · rw [if_pos s2] at h
    cases hi : inspect_status_request f.payload with
    | none => rw [hi] at h; cases h
    | some b =>
      rw [hi] at h
      cases b <;> cases h
      · exact retransmission_throttle _ _ _ _ _
      · exact filter_next_throttle _ _ _ _ _
  rw [if_neg s2] at h
  by_cases s3 : state = c.AWAIT_PING
  · rw [if_pos s3] at h
    cases hi : inspect_ping_request f.payload with
    | none => rw [hi] at h; cases h
    | some b =>
      rw [hi] at h
      cases b <;> cases h
      · exact retransmission_throttle _ _ _ _ _
      · exact filter_next_throttle _ _ _ _ _
  rw [if_neg s3] at h
  by_cases s4 : state = c.AWAIT_LOGIN
  · rw [if_pos s4] at h
    cases hi : inspect_login_packet f.payload st.protocol with
    | none => rw [hi] at h; cases h
    | some b =>
      rw [hi] at h
      cases b
      · cases h; exact retransmission_throttle _ _ _ _ _
      · simp only [] at h
        split_ifs at h <;> cases h <;> rfl
  rw [if_neg s4] at h
  split_ifs at h <;> cases h <;> rfl

theorem filter_flow_throttle (c : Common) (env : Env) (m : Maps) (f : Frame)
    (r : xdp_action × Maps) (h : filter_flow c env m f = some r) :
    r.2.connection_throttle = m.connection_throttle := by
  unfold filter_flow at h
  simp only [] at h
  cases hs : m.player_connection_map f.flow_key with
  | some t =>
    rw [hs] at h
    simp only [] at h
    split_ifs at h <;> cases h <;> rfl
  | none =>
    rw [hs] at h
    simp only [] at h
    cases hr : m.conntrack_map f.flow_key with
    | none => rw [hr] at h; cases h; rfl
    | some st =>
      rw [hr] at h
      simp only [] at h
      split_ifs at h
      · cases h; rfl
      · have e := filter_payload_throttle _ _ _ _ _ _ _ _ h
        exact e
      · cases h; rfl
      · exact filter_payload_throttle _ _ _ _ _ _ _ _ h

theorem filter_new_flow_throttle (c : Common) (env : Env) (m : Maps) (f : Frame) :
    (filter_new_flow c env m f).2.connection_throttle = m.connection_throttle := by
  unfold filter_new_flow
  simp only []
  split
  · rfl
  · split_ifs <;> rfl

theorem filter_syn_throttle_bound (c : Common) (env : Env) (m : Maps) (f : Frame)
    (hm : ∀ a n, m.connection_throttle a = some n → n ≤ HIT_COUNT + 1) :
    ∀ a n, (filter_syn c env m f).2.connection_throttle a = some n → n ≤ HIT_COUNT + 1 := by
  have key : ∀ count, count ≤ HIT_COUNT → ∀ a n,
      map_update m.connection_throttle f.saddr (count + 1) a = some n → n ≤ HIT_COUNT + 1 := by
    intro count hc a n
    rw [map_update_apply]
    split_ifs
    · intro h; cases h; omega
    · exact hm a n
  unfold filter_syn
  simp only []
  cases hb : m.blocked_ips f.saddr with
  | some t => exact hm
  | none =>
    cases ht : m.connection_throttle f.saddr with
    | some count =>
      simp only []
      by_cases h1 : count > HIT_COUNT
      · rw [if_pos h1]; exact hm
      · rw [if_neg h1]
        cases hw : env.throttle_write_ok with
        | false => exact hm
        | true =>
          rw [if_pos rfl, filter_new_flow_throttle]
          exact key count (by omega)
    | none =>
      simp only []
      cases hw : env.throttle_write_ok with
      | false => exact hm
      | true =>
        rw [if_pos rfl, filter_new_flow_throttle]
        exact key 0 (by simp [HIT_COUNT])

theorem minecraft_filter_not_inspected (c : Common) (env : Env) (m : Maps) (f : Frame)
    (hf : ¬ f.inspected) : ∃ verdict, minecraft_filter c env m f = some (verdict, m) := by
  unfold minecraft_filter
  by_cases h1 : ETH_HLEN > f.data.length
  · rw [if_pos h1]; exact ⟨_, rfl⟩
  rw [if_neg h1]
  by_cases h2 : f.h_proto ≠ ETH_P_IP
  · rw [if_pos h2]; exact ⟨_, rfl⟩
  rw [if_neg h2]
  by_cases h3 : ETH_HLEN + IPHDR_LEN > f.data.length ∨ f.ihl < 5
  · rw [if_pos h3]; exact ⟨_, rfl⟩
  rw [if_neg h3]
  by_cases h4 : f.protocol ≠ IPPROTO_TCP
  · rw [if_pos h4]; exact ⟨_, rfl⟩
  rw [if_neg h4]
  by_cases h5 : ETH_HLEN + f.ihl * 4 + TCPHDR_LEN > f.data.length
  · rw [if_pos h5]; exact ⟨_, rfl⟩
  rw [if_neg h5]
  by_cases h6 : f.dest ≠ MINECRAFT_PORT
  · rw [if_pos h6]; exact ⟨_, rfl⟩
  rw [if_neg h6]
  by_cases h7 : f.doff < 5
  · rw [if_pos h7]; exact ⟨_, rfl⟩
  rw [if_neg h7]
  by_cases h8 : ETH_HLEN + f.ihl * 4 + f.doff * 4 > f.data.length
  · rw [if_pos h8]; exact ⟨_, rfl⟩
  rw [if_neg h8]
  by_cases h9 : detect_tcp_bypass f = true
  · rw [if_pos h9]; exact ⟨_, rfl⟩
  exfalso
  apply hf
  refine ⟨by omega, not_not.mp h2, by omega, by omega, not_not.mp h4, by omega, not_not.mp h6,
    by omega, by omega, ?_⟩
  simpa using h9

theorem minecraft_filter_throttle_bound (c : Common) (env : Env) (m : Maps) (f : Frame)
    (r : xdp_action × Maps)
    (hm : ∀ a n, m.connection_throttle a = some n → n ≤ HIT_COUNT + 1)
    (h : minecraft_filter c env m f = some r) :
    ∀ a n, r.2.connection_throttle a = some n → n ≤ HIT_COUNT + 1 := by
  by_cases hf : f.inspected
  · rw [minecraft_filter_inspected c env m f hf] at h
    cases hs : f.syn with
    | true =>
      rw [hs, if_pos rfl] at h
      cases h
      exact filter_syn_throttle_bound c env m f hm
    | false =>
      rw [hs, if_neg (by simp)] at h
      rw [filter_flow_throttle c env m f r h]; exact hm
  · obtain ⟨v, e⟩ := minecraft_filter_not_inspected c env m f hf
    rw [e] at h
    cases h
    exact hm

/-! ## The payload dispatch, state by state -/

/-- The differences among the state constants that the ping and legacy paths compare. -/
theorem distinct_ping (c : Common) (hc : c.distinct) :
    c.RECEIVED_LEGACY_PING ≠ 0 ∧ c.PING_COMPLETE ≠ c.AWAIT_ACK ∧
    c.PING_COMPLETE ≠ c.AWAIT_MC_HANDSHAKE ∧ c.PING_COMPLETE ≠ c.AWAIT_STATUS_REQUEST ∧
    c.PING_COMPLETE ≠ c.AWAIT_PING ∧ c.PING_COMPLETE ≠ c.AWAIT_LOGIN := by
  simp only [Common.distinct, List.nodup_cons, List.mem_cons, List.mem_singleton, not_or,
    List.not_mem_nil, List.nodup_nil, not_false_eq_true, and_true] at hc
  obtain ⟨⟨-, -, -, -, -, -, -, z8⟩, ⟨-, -, -, -, a6, -, -⟩, ⟨-, -, -, b6, -, -⟩, ⟨-, -, s6, -, -⟩,
    ⟨-, l6, -, -⟩, ⟨p6, -, -⟩, -⟩ := hc
  exact ⟨fun e => z8 e.symm, fun e => a6 e.symm, fun e => b6 e.symm, fun e => s6 e.symm,
    fun e => p6 e.symm, fun e => l6 e.symm⟩

theorem filter_flow_tracked (c : Common) (env : Env) (m : Maps) (f : Frame) (st : initial_state)
    (hsess : m.player_connection_map f.flow_key = none)
    (hrec : m.conntrack_map f.flow_key = some st) (hna : st.state ≠ c.AWAIT_ACK) :
    filter_flow c env m f = filter_payload c env m f f.flow_key st st.state := by
  unfold filter_flow
  simp only [hsess, hrec, if_neg hna]

theorem filter_flow_await_ack (c : Common) (env : Env) (m : Maps) (f : Frame) (st : initial_state)
    (hack : f.ack = true)
    (hsess : m.player_connection_map f.flow_key = none)
    (hrec : m.conntrack_map f.flow_key = some st) (ha : st.state = c.AWAIT_ACK) :
    filter_flow c env m f =
      if env.ack_write_ok = true then
        filter_payload c env
          { m with conntrack_map := map_update m.conntrack_map f.flow_key (ack_record c st) }
          f f.flow_key (ack_record c st) c.AWAIT_MC_HANDSHAKE
      else some (XDP_DROP,
        { m with conntrack_map := map_update m.conntrack_map f.flow_key (ack_record c st) }) := by
  unfold filter_flow
  simp only [hsess, hrec, if_pos ha, hack, Bool.not_true, Bool.false_eq_true, if_false]
  have e : map_update (map_update m.conntrack_map f.flow_key (ack_record c st)) f.flow_key
        (ack_record c st)
      = map_update m.conntrack_map f.flow_key (ack_record c st) := by
    funext x
    simp only [map_update_apply]
    split_ifs <;> rfl
  unfold ack_record at e ⊢
  rw [e]

theorem filter_payload_legacy (c : Common) (hc : c.distinct) (env : Env) (m : Maps) (f : Frame)
    (k : ipv4_flow_key) (st : initial_state) (rest : List Byte) (hack : f.ack = true)
    (hpay : f.payload = 0xFE :: rest) :
    filter_payload c env m f k st c.AWAIT_MC_HANDSHAKE
      = some (XDP_DROP, { m with conntrack_map := map_delete m.conntrack_map k }) := by
  have hne : f.payload ≠ [] := by rw [hpay]; exact List.cons_ne_nil _ _
  have h0 := payload_nonempty f hne
  have hl := inspect_handshake_legacy c f.payload 0 f.dest (by rw [hpay]; simp)
  unfold filter_payload
  rw [if_pos h0, if_neg (by simp [hack]), if_pos rfl, hl]
  simp only []
  rw [if_neg (distinct_ping c hc).1]
  simp

theorem inspect_ping_request_eq (buf : List Byte) :
    inspect_ping_request buf
      = some (decide (buf.length = 10 ∧ buf[0]? = some 0x09 ∧ buf[1]? = some 0x01)) := by
  unfold inspect_ping_request
  rcases buf with _ | ⟨a, _ | ⟨b, t⟩⟩
  · rfl
  · simp [PING_REQUEST_LEN]
  · simp only [List.length_cons, List.getElem?_cons_zero, List.getElem?_cons_succ,
      PING_REQUEST_LEN, Option.some.injEq]
    by_cases hlen : t.length + 1 + 1 = 10
    · have h1 : 2 ≤ t.length + 1 + 1 ∧ ((t.length + 1 + 1 : Nat) : Int) = 10 := by omega
      rw [if_pos h1]
      by_cases ha : a.val = 9
      · have ha' : a = 9 := Fin.ext ha
        rw [if_pos ha]
        by_cases hb : b.val = 1
        · have hb' : b = 1 := Fin.ext hb
          simp [hlen, ha', hb']
        · have hb' : b ≠ 1 := fun e => hb (by rw [e]; rfl)
          simp [hb, hb']
      · have ha' : a ≠ 9 := fun e => ha (by rw [e]; rfl)
        rw [if_neg ha]
        simp [ha']
    · have h1 : ¬ (2 ≤ t.length + 1 + 1 ∧ ((t.length + 1 + 1 : Nat) : Int) = 10) := by omega
      rw [if_neg h1]
      simp [hlen]

theorem filter_payload_ping (c : Common) (hc : c.distinct) (env : Env) (m : Maps) (f : Frame)
    (k : ipv4_flow_key) (st : initial_state) (hack : f.ack = true)
    (hpay : f.payload ≠ []) (hping : inspect_ping_request f.payload = some true) :
    filter_payload c env m f k st c.AWAIT_PING = some (filter_next env m k st c.PING_COMPLETE) := by
  obtain ⟨d1, d2, d3, d4, d5, d6, d7, d8, d9, d10⟩ := distinct_states c hc
  unfold filter_payload
  rw [if_pos (payload_nonempty f hpay), if_neg (by simp [hack]), if_neg d6, if_neg d8,
    if_pos rfl, hping]

theorem filter_payload_ping_complete (c : Common) (hc : c.distinct) (env : Env) (m : Maps)
    (f : Frame) (k : ipv4_flow_key) (st : initial_state) (hpay : f.payload ≠ []) :
    filter_payload c env m f k st c.PING_COMPLETE
      = some (XDP_DROP, { m with conntrack_map := map_delete m.conntrack_map k }) := by
  obtain ⟨-, -, p2, p3, p5, p4⟩ := distinct_ping c hc
  unfold filter_payload
  rw [if_pos (payload_nonempty f hpay)]
  cases hack : f.ack
  · rfl
  · rw [if_neg (by simp), if_neg p2, if_neg p3, if_neg p5, if_neg p4, if_pos rfl]

theorem filter_payload_login (c : Common) (hc : c.distinct) (env : Env) (m : Maps) (f : Frame)
    (k : ipv4_flow_key) (st : initial_state) (hack : f.ack = true)
    (hpay : f.payload ≠ []) (hlogin : inspect_login_packet f.payload st.protocol = some true) :
    filter_payload c env m f k st c.AWAIT_LOGIN
      = if env.session_write_ok = true then
          some (XDP_PASS, { m with
            player_connection_map := map_update m.player_connection_map k env.now
            conntrack_map := map_delete m.conntrack_map k })
        else some (XDP_DROP, { m with conntrack_map := map_delete m.conntrack_map k }) := by
  obtain ⟨d1, d2, d3, d4, d5, d6, d7, d8, d9, d10⟩ := distinct_states c hc
  unfold filter_payload
  rw [if_pos (payload_nonempty f hpay), if_neg (by simp [hack]), if_neg d7, if_neg d9,
    if_neg d10, if_pos rfl, hlogin]

/-! ## The sign of a decoded varint -/

theorem varint_sum_lt (bs : List Byte) : varint_sum bs < 128 ^ bs.length := by
  induction bs with
  | nil => simp [varint_sum]
  | cons a t ih =>
    simp only [varint_sum, and_7F, List.length_cons, pow_succ]
    have : a.val % 128 < 128 := Nat.mod_lt _ (by norm_num)
    omega

set_option maxRecDepth 100000 in
theorem bit3_set : ∀ b : Byte, (b.val &&& 0x08 ≠ 0) ↔ 8 ≤ b.val % 16 := by decide

theorem int32_range (n : Nat) : -2 ^ 31 ≤ int32 n ∧ int32 n < 2 ^ 31 := by
  unfold int32
  have : n % 2 ^ 32 < 2 ^ 32 := Nat.mod_lt _ (by norm_num)
  split_ifs with h <;> constructor <;> omega

theorem int32_neg_iff (n : Nat) : int32 n < 0 ↔ 2 ^ 31 ≤ n % 2 ^ 32 := by
  unfold int32
  have : n % 2 ^ 32 < 2 ^ 32 := Nat.mod_lt _ (by norm_num)
  split_ifs with h <;> constructor <;> intro <;> omega


/-! ## The SYN branch, the default verdict and the trusted sessions -/

/-- C11: duplicate SYNs are always dropped.  For every SYN to the server port that passes the
header checks and the flag check, if the flow-record store holds a record for the packet's
flow key, in any state, the verdict is DROP and that record is unchanged (as is every other
flow record), whatever the payload, the blocklist, the throttle count and the outcome of the
store writes. -/
theorem minecraft_filter_duplicate_syn (c : Common) (env : Env) (m : Maps) (f : Frame)
    (st : initial_state) (hf : f.inspected) (hsyn : f.syn = true)
    (hrec : m.conntrack_map f.flow_key = some st) :
    ∃ m', minecraft_filter c env m f = some (XDP_DROP, m') ∧
      m'.conntrack_map f.flow_key = some st ∧ m'.conntrack_map = m.conntrack_map ∧
      m'.player_connection_map = m.player_connection_map ∧ m'.blocked_ips = m.blocked_ips := by
  rw [minecraft_filter_inspected c env m f hf, hsyn, if_pos rfl]
  obtain ⟨m', h, h1, h2, h3⟩ := filter_syn_tracked c env m f st hrec
  exact ⟨m', by rw [h], by rw [h1]; exact hrec, h1, h2, h3⟩

/-- A second SYN of a flow whose record awaits the handshake, sent while no write succeeds. -/
theorem minecraft_filter_duplicate_syn_witness :
    ∃ m', minecraft_filter sample_common sample_env_no_write (sample_maps 2 1)
        { sample_frame [0x00] with syn := true, ack := false } = some (XDP_DROP, m') ∧
      m'.conntrack_map (sample_frame [0x00]).flow_key
        = some { state := 2, protocol := 759, fails := 1 } := by
  obtain ⟨m', h, h1, -⟩ := minecraft_filter_duplicate_syn sample_common sample_env_no_write
    (sample_maps 2 1) { sample_frame [0x00] with syn := true, ack := false }
    { state := 2, protocol := 759, fails := 1 } (by decide) rfl (by decide)
  exact ⟨m', h, h1⟩

/-- C12: the throttle ceiling.  Let the address `a` have no blocklist entry and no throttle
entry, and let `steps` be successive SYNs of `a` (each passing the header checks and the flag
check) on pairwise different flows without a record, in invocations whose throttle and
flow-record writes succeed.  Then the first `HIT_COUNT + 1 = 11` SYNs are passed and every
later one is dropped; afterwards the flows of the first 11 hold a record in `AWAIT_ACK`, the
flows of the later SYNs hold none, and the counter of `a` is the number of SYNs, capped at 11.
In one step, a SYN that reaches the throttle with writes succeeding on a flow without record
is dropped exactly when the stored count is above 10.  No invocation at all raises a stored
counter above 11. -/
theorem minecraft_filter_throttle_ceiling (c : Common) (a : Nat) (m : Maps)
    (steps : List (Env × Frame))
    (hblock : m.blocked_ips a = none) (hthr : m.connection_throttle a = none)
    (hsyn : ∀ s ∈ steps, s.2.inspected ∧ s.2.syn = true ∧ s.2.saddr = a ∧
      s.1.throttle_write_ok = true ∧ s.1.conntrack_write_ok = true ∧
      m.conntrack_map s.2.flow_key = none)
    (hflows : (steps.map (fun s => s.2.flow_key)).Nodup) :
    (∃ m', minecraft_filter_run c m steps
        = some (List.replicate (min steps.length 11) XDP_PASS
            ++ List.replicate (steps.length - 11) XDP_DROP, m') ∧
      (∀ (i : Nat) (h : i < steps.length),
        m'.conntrack_map (steps[i]).2.flow_key
          = if i < 11 then some (gen_initial_state c.AWAIT_ACK 0) else none) ∧
      m'.connection_throttle a = throttle_entry (min steps.length 11) ∧
      m'.blocked_ips = m.blocked_ips ∧ m'.player_connection_map = m.player_connection_map) ∧
    (∀ (env : Env) (m0 : Maps) (f : Frame), f.inspected → f.syn = true →
      m0.blocked_ips f.saddr = none → m0.conntrack_map f.flow_key = none →
      env.throttle_write_ok = true → env.conntrack_write_ok = true →
      ((minecraft_filter c env m0 f).map Prod.fst = some XDP_DROP ↔
        ∃ count, m0.connection_throttle f.saddr = some count ∧ count > 10)) ∧
    (∀ (env : Env) (m0 : Maps) (f : Frame) (r : xdp_action × Maps),
      (∀ b n, m0.connection_throttle b = some n → n ≤ 11) →
      minecraft_filter c env m0 f = some r →
      ∀ b n, r.2.connection_throttle b = some n → n ≤ 11) := by
  refine ⟨?_, ?_, ?_⟩
  · obtain ⟨m', hrun, ht, hb, hp, -, hidx⟩ := throttle_run c a steps m 0 (by simp) hblock
      (by rw [hthr]; rfl) hsyn hflows
    refine ⟨m', ?_, ?_, ?_, hb, hp⟩
    · rw [hrun]; rfl
    · intro i h; rw [hidx i h]; rfl
    · rw [ht]; simp [HIT_COUNT]
  · intro env m0 f hf hs hb hrec hw1 hw2
    rw [minecraft_filter_inspected c env m0 f hf, hs, if_pos rfl]
    cases hc : m0.connection_throttle f.saddr with
    | none =>
      rw [filter_syn_fresh c env m0 f 0 hb (by rw [hc]; rfl) (by simp) hrec hw1 hw2]
      simp
    | some count =>
      by_cases hgt : count > HIT_COUNT
      · rw [filter_syn_throttled c env m0 f count hb hc hgt]
        simp only [Option.map_some', Option.some.injEq, exists_eq_left', true_iff]
        exact hgt
      · by_cases h0 : count = 0
        · subst h0
          unfold filter_syn
          simp only [hb, hc, if_neg hgt, hw1, if_true, filter_new_flow, hrec, hw2]
          simp
        · rw [filter_syn_fresh c env m0 f count hb (by rw [hc, throttle_entry, if_neg h0])
            (by omega) hrec hw1 hw2]
          simp only [Option.map_some', Option.some.injEq, exists_eq_left']
          constructor
          · intro h; cases h
          · intro h; exact absurd h hgt
  · intro env m0 f r hm h
    exact minecraft_filter_throttle_bound c env m0 f r hm h

/-- Twelve SYNs of one address on twelve fresh flows: eleven are passed, the twelfth is
dropped. -/
theorem minecraft_filter_throttle_ceiling_witness :
    (minecraft_filter_run sample_common empty_maps sample_syn_burst).map Prod.fst
      = some (List.replicate 11 XDP_PASS ++ [XDP_DROP]) := by
  obtain ⟨m', h, -⟩ := (minecraft_filter_throttle_ceiling sample_common 0x0A000001 empty_maps
    sample_syn_burst rfl rfl (by decide) (by decide)).1
  rw [h]
  rfl

/-- C16: a fresh SYN.  For every SYN to the server port that passes the header checks and the
flag check (so ACK and URG are clear), whose source address has no blocklist entry and a
throttle count of at most 10 or none, whose flow key has no record, and for which the throttle
and flow-record writes succeed, the verdict is PASS, the flow-record store gains the record
of a new flow in `AWAIT_ACK` at that key and is otherwise unchanged, the throttle counter of
the address becomes its previous value plus 1 (1 when absent) with the other counters
unchanged, and the blocklist and the player sessions are unchanged. -/
theorem minecraft_filter_fresh_syn (c : Common) (env : Env) (m : Maps) (f : Frame)
    (hf : f.inspected) (hsyn : f.syn = true) (hblock : m.blocked_ips f.saddr = none)
    (hthr : ∀ count, m.connection_throttle f.saddr = some count → count ≤ HIT_COUNT)
    (hrec : m.conntrack_map f.flow_key = none)
    (hw1 : env.throttle_write_ok = true) (hw2 : env.conntrack_write_ok = true) :
    f.ack = false ∧ f.urg = false ∧
    ∃ m', minecraft_filter c env m f = some (XDP_PASS, m') ∧
      m'.conntrack_map f.flow_key = some (gen_initial_state c.AWAIT_ACK 0) ∧
      (gen_initial_state c.AWAIT_ACK 0).state = c.AWAIT_ACK ∧
      (∀ k, k ≠ f.flow_key → m'.conntrack_map k = m.conntrack_map k) ∧
      m'.connection_throttle f.saddr = some ((m.connection_throttle f.saddr).getD 0 + 1) ∧
      (∀ a, a ≠ f.saddr → m'.connection_throttle a = m.connection_throttle a) ∧
      m'.blocked_ips = m.blocked_ips ∧ m'.player_connection_map = m.player_connection_map := by
  have hby := hf.2.2.2.2.2.2.2.2.2
  refine ⟨?_, ?_, ?_⟩
  · simp only [detect_tcp_bypass, hsyn] at hby
    cases h : f.ack <;> simp_all
  · simp only [detect_tcp_bypass, hsyn] at hby
    cases h : f.urg <;> simp_all
  rw [minecraft_filter_inspected c env m f hf, hsyn, if_pos rfl]
  unfold filter_syn
  simp only [hblock]
  cases ht : m.connection_throttle f.saddr with
  | some count =>
    have h1 : ¬ count > HIT_COUNT := by have := hthr count ht; omega
    simp only [if_neg h1, hw1, if_true, filter_new_flow, hrec, hw2]
    refine ⟨_, rfl, ?_, rfl, ?_, ?_, ?_, rfl, rfl⟩
    · simp [map_update_apply]
    · intro k hk; simp [map_update_apply, hk]
    · simp [map_update_apply]
    · intro a ha; simp [map_update_apply, ha]
  | none =>
    simp only [hw1, if_true, filter_new_flow, hrec, hw2]
    refine ⟨_, rfl, ?_, rfl, ?_, ?_, ?_, rfl, rfl⟩
    · simp [map_update_apply]
    · intro k hk; simp [map_update_apply, hk]
    · simp [map_update_apply]
    · intro a ha; simp [map_update_apply, ha]

/-- The first SYN of 10.0.0.1 from port 40001, with empty stores. -/
theorem minecraft_filter_fresh_syn_witness :
    ∃ m', minecraft_filter sample_common sample_env empty_maps sample_syn = some (XDP_PASS, m') ∧
      m'.conntrack_map sample_syn.flow_key = some { state := 1, protocol := 0, fails := 0 } ∧
      m'.connection_throttle 0x0A000001 = some 1 := by
  obtain ⟨-, -, m', h, h1, -, -, h2, -⟩ := minecraft_filter_fresh_syn sample_common sample_env
    empty_maps sample_syn (by decide) rfl rfl (by decide) rfl rfl rfl
  exact ⟨m', h, h1, h2⟩

/-- C17: default deny.  For every packet without SYN to the server port that passes the header
checks and the flag check, if its flow key has neither a player session nor a flow record, the
verdict is DROP and the four stores are unchanged, whatever the payload, the blocklist and the
throttle contents. -/
theorem minecraft_filter_default_deny (c : Common) (env : Env) (m : Maps) (f : Frame)
    (hf : f.inspected) (hsyn : f.syn = false)
    (hsess : m.player_connection_map f.flow_key = none)
    (hrec : m.conntrack_map f.flow_key = none) :
    minecraft_filter c env m f = some (XDP_DROP, m) := by
  rw [minecraft_filter_inspected c env m f hf, hsyn]
  simp only [Bool.false_eq_true, if_false, filter_flow, hsess, hrec]

/-- A valid status request on a flow that was never opened. -/
theorem minecraft_filter_default_deny_witness :
    (minecraft_filter sample_common sample_env empty_maps (sample_frame [0x01, 0x00])).map
      Prod.fst = some XDP_DROP := by
  rw [minecraft_filter_default_deny sample_common sample_env empty_maps
    (sample_frame [0x01, 0x00]) (by decide) rfl rfl rfl]
  rfl

/-- C18 (amended): the trusted-session bypass.  For every packet without SYN to the server port
that passes the header checks and the flag check and whose flow key has a player session with
timestamp `t`, the verdict is PASS for every payload and every flow-record state, the
flow-record, blocklist and throttle stores are unchanged, no other session is touched, and the
timestamp of the session becomes `now` if and only if `t + SECOND_TO_NANOS < now` (the sum
taken as the source takes it, in unsigned 64-bit arithmetic) and the store write succeeds;
otherwise it stays `t`. -/
theorem minecraft_filter_session_bypass (c : Common) (env : Env) (m : Maps) (f : Frame) (t : Nat)
    (hf : f.inspected) (hsyn : f.syn = false)
    (hsess : m.player_connection_map f.flow_key = some t) :
    ∃ m', minecraft_filter c env m f = some (XDP_PASS, m') ∧
      m'.conntrack_map = m.conntrack_map ∧ m'.blocked_ips = m.blocked_ips ∧
      m'.connection_throttle = m.connection_throttle ∧
      (∀ k, k ≠ f.flow_key → m'.player_connection_map k = m.player_connection_map k) ∧
      m'.player_connection_map f.flow_key
        = some (if (t + c.SECOND_TO_NANOS) % 2 ^ 64 < env.now ∧ env.session_write_ok = true
            then env.now else t) ∧
      (t + c.SECOND_TO_NANOS < 2 ^ 64 →
        ((t + c.SECOND_TO_NANOS) % 2 ^ 64 < env.now ↔ t + c.SECOND_TO_NANOS < env.now)) := by
  rw [minecraft_filter_inspected c env m f hf, hsyn]
  simp only [Bool.false_eq_true, if_false, filter_flow, hsess]
  by_cases h : (t + c.SECOND_TO_NANOS) % 2 ^ 64 < env.now
  · rw [if_pos h]
    refine ⟨_, rfl, rfl, rfl, rfl, ?_, ?_, ?_⟩
    · intro k hk
      simp [bpf_map_update_elem_apply, hk]
    · cases hw : env.session_write_ok
      · rw [if_neg (by simp)]; exact hsess
      · rw [if_pos ⟨h, rfl⟩]; simp [bpf_map_update_elem_apply]
    · intro hlt; rw [Nat.mod_eq_of_lt hlt]
  · rw [if_neg h]
    refine ⟨_, rfl, rfl, rfl, rfl, fun _ _ => rfl, ?_, ?_⟩
    · rw [if_neg (fun hh => h hh.1)]; exact hsess
    · intro hlt; rw [Nat.mod_eq_of_lt hlt]

/-- C18 (counterexample): a session with timestamp 0, one second of 10^9 ns and the clock at
5 * 10^9, so `t + SECOND_TO_NANOS < now`; the store write fails and the timestamp is still 0
after the packet. -/
theorem minecraft_filter_session_bypass_counterexample :
    (0 : Nat) + sample_common.SECOND_TO_NANOS < sample_env_no_write.now ∧
    (minecraft_filter sample_common sample_env_no_write (sample_session_maps 3 0)
      (sample_frame sample_ping)).map
        (fun r => (r.1, r.2.player_connection_map (sample_frame sample_ping).flow_key))
      = some (XDP_PASS, some 0) := by decide

/-- The same packet when the store write succeeds: the timestamp becomes the clock value. -/
theorem minecraft_filter_session_bypass_witness :
    ∃ m', minecraft_filter sample_common sample_env (sample_session_maps 3 0)
        (sample_frame sample_ping) = some (XDP_PASS, m') ∧
      m'.player_connection_map (sample_frame sample_ping).flow_key = some 5000000000 := by
  obtain ⟨m', h, -, -, -, -, h1, -⟩ := minecraft_filter_session_bypass sample_common sample_env
    (sample_session_maps 3 0) (sample_frame sample_ping) 0 (by decide) rfl (by decide)
  exact ⟨m', h, by rw [h1]; decide⟩

/-! ## The legacy probe and the ping exchange -/

/-- C13 (amended): legacy probe teardown.  Take a flow without player session whose record is
handshake-pending or in `AWAIT_ACK`, and a packet of it without SYN, with ACK set, passing the
header checks and the flag check, whose payload is non-empty and starts with `0xFE`.  Then
`inspect_handshake` returns `RECEIVED_LEGACY_PING` whatever the length and the remaining bytes
of the payload, the verdict is DROP, no blocklist entry is written, no other flow record, no
session and no throttle counter changes, and the flow record is deleted; except that a record
in `AWAIT_ACK` whose advancing store write (line 454) fails is kept, handshake-pending and with
its failure count unchanged.  The state constants are taken non-zero and pairwise different. -/
theorem minecraft_filter_legacy_ping (c : Common) (hc : c.distinct) (env : Env) (m : Maps)
    (f : Frame) (st : initial_state) (rest : List Byte)
    (hf : f.inspected) (hsyn : f.syn = false) (hack : f.ack = true)
    (hpay : f.payload = 0xFE :: rest)
    (hsess : m.player_connection_map f.flow_key = none)
    (hrec : m.conntrack_map f.flow_key = some st)
    (hstate : st.state = c.AWAIT_MC_HANDSHAKE ∨ st.state = c.AWAIT_ACK) :
    (∀ (pv : Int) (d : Nat),
      inspect_handshake c f.payload pv d = some (c.RECEIVED_LEGACY_PING, pv)) ∧
    ∃ m', minecraft_filter c env m f = some (XDP_DROP, m') ∧
      m'.conntrack_map f.flow_key
        = (if st.state = c.AWAIT_ACK ∧ env.ack_write_ok = false then
            some { state := c.AWAIT_MC_HANDSHAKE, protocol := st.protocol, fails := st.fails }
          else none) ∧
      (∀ k, k ≠ f.flow_key → m'.conntrack_map k = m.conntrack_map k) ∧
      m'.blocked_ips = m.blocked_ips ∧ m'.player_connection_map = m.player_connection_map ∧
      m'.connection_throttle = m.connection_throttle := by
  refine ⟨fun pv d => inspect_handshake_legacy c f.payload pv d (by rw [hpay]; simp), ?_⟩
  rw [minecraft_filter_inspected c env m f hf, hsyn, if_neg (by simp)]
  rcases hstate with hs | hs
  · have hna : st.state ≠ c.AWAIT_ACK := by rw [hs]; exact (distinct_states c hc).1
    rw [filter_flow_tracked c env m f st hsess hrec hna, hs,
      filter_payload_legacy c hc env m f f.flow_key st rest hack hpay]
    refine ⟨_, rfl, ?_, ?_, rfl, rfl, rfl⟩
    · rw [if_neg (fun h => (distinct_states c hc).1 h.1)]
      simp [map_delete_apply]
    · intro k hk; simp [map_delete_apply, hk]
  · rw [filter_flow_await_ack c env m f st hack hsess hrec hs]
    cases hw : env.ack_write_ok
    · rw [if_neg (by simp)]
      refine ⟨_, rfl, ?_, ?_, rfl, rfl, rfl⟩
      · rw [if_pos ⟨hs, rfl⟩]
        simp [map_update_apply, ack_record]
      · intro k hk; simp [map_update_apply, hk]
    · rw [if_pos rfl, filter_payload_legacy c hc env _ f f.flow_key _ rest hack hpay]
      refine ⟨_, rfl, ?_, ?_, rfl, rfl, rfl⟩
      · rw [if_neg (by simp)]
        simp [map_delete_apply]
      · intro k hk; simp [map_delete_apply, map_update_apply, hk]

/-- C13 (counterexample): a record in `AWAIT_ACK`, a packet with ACK and the single payload
byte `0xFE`, and a failing store write at line 454: the verdict is DROP and the record is still
stored, handshake-pending. -/
theorem minecraft_filter_legacy_ping_counterexample :
    (minecraft_filter sample_common sample_env_no_write (sample_maps 1 0)
      (sample_frame [0xFE])).map
        (fun r => (r.1, r.2.conntrack_map (sample_frame [0xFE]).flow_key))
      = some (XDP_DROP, some { state := 2, protocol := 759, fails := 0 }) := by decide

/-- A legacy probe of one byte on a handshake-pending flow: dropped and the record deleted. -/
theorem minecraft_filter_legacy_ping_witness :
    ∃ m', minecraft_filter sample_common sample_env (sample_maps 2 0) (sample_frame [0xFE])
        = some (XDP_DROP, m') ∧
      m'.conntrack_map (sample_frame [0xFE]).flow_key = none := by
  obtain ⟨m', h, h1, -⟩ := (minecraft_filter_legacy_ping sample_common (by decide) sample_env
    (sample_maps 2 0) (sample_frame [0xFE]) { state := 2, protocol := 759, fails := 0 } []
    (by decide) rfl rfl (by decide) rfl (by decide) (Or.inl rfl)).2
  exact ⟨m', h, by rw [h1]; decide⟩

/-- C14 (amended): the ping scenario.  `inspect_ping_request` is true exactly on the ranges of
10 bytes that start with `0x09 0x01`.  Take a flow without player session whose record is in
`AWAIT_PING` and a packet of it (without SYN, passing the header checks and the flag check)
with ACK set whose payload is `0x09 0x01` and eight more bytes of any value.  When the store
write of line 517 succeeds, the verdict is PASS and the stored state becomes `PING_COMPLETE`;
the next packet of that flow with a non-empty payload (again without SYN and passing the
checks) is dropped and deletes the flow record, for every payload content and every outcome
of the store writes.  The state constants are taken non-zero and pairwise different. -/
theorem minecraft_filter_ping_scenario (c : Common) (hc : c.distinct) (env env2 : Env)
    (m : Maps) (f g : Frame) (st : initial_state) (tail : List Byte)
    (hf : f.inspected) (hsyn : f.syn = false) (hack : f.ack = true)
    (hpay : f.payload = 0x09 :: 0x01 :: tail) (htail : tail.length = 8)
    (hsess : m.player_connection_map f.flow_key = none)
    (hrec : m.conntrack_map f.flow_key = some st) (hstate : st.state = c.AWAIT_PING)
    (hw : env.conntrack_write_ok = true)
    (hg : g.inspected) (hgsyn : g.syn = false) (hgkey : g.flow_key = f.flow_key)
    (hgpay : g.payload ≠ []) :
    (∀ buf : List Byte, inspect_ping_request buf
      = some (decide (buf.length = 10 ∧ buf[0]? = some 0x09 ∧ buf[1]? = some 0x01))) ∧
    inspect_ping_request f.payload = some true ∧
    ∃ m1, minecraft_filter c env m f = some (XDP_PASS, m1) ∧
      m1.conntrack_map f.flow_key
        = some { state := c.PING_COMPLETE, protocol := st.protocol, fails := st.fails } ∧
      ∃ m2, minecraft_filter c env2 m1 g = some (XDP_DROP, m2) ∧
        m2.conntrack_map f.flow_key = none := by
  have hping : inspect_ping_request f.payload = some true := by
    rw [inspect_ping_request_eq, hpay]
    simp [htail]
  have hne : f.payload ≠ [] := by rw [hpay]; exact List.cons_ne_nil _ _
  have hna : st.state ≠ c.AWAIT_ACK := by rw [hstate]; exact (distinct_states c hc).2.2.1
  refine ⟨inspect_ping_request_eq, hping, ?_⟩
  rw [minecraft_filter_inspected c env m f hf, hsyn, if_neg (by simp),
    filter_flow_tracked c env m f st hsess hrec hna, hstate,
    filter_payload_ping c hc env m f f.flow_key st hack hne hping]
  unfold filter_next
  simp only [hw, if_true]
  refine ⟨_, rfl, by simp [map_update_apply], ?_⟩
  rw [minecraft_filter_inspected c env2 _ g hg, hgsyn, if_neg (by simp)]
  have hna2 : c.PING_COMPLETE ≠ c.AWAIT_ACK := (distinct_ping c hc).2.1
  rw [filter_flow_tracked c env2 _ g
    { state := c.PING_COMPLETE, protocol := st.protocol, fails := st.fails }
    (by rw [hgkey]; exact hsess) (by rw [hgkey]; simp [map_update_apply]) hna2,
    filter_payload_ping_complete c hc env2 _ g g.flow_key _ hgpay]
  refine ⟨_, rfl, ?_⟩
  rw [hgkey]
  simp [map_delete_apply]

/-- C14 (counterexample): a record in `AWAIT_PING` and a packet with ACK whose payload is a
ping request of 10 bytes; the store write of line 517 fails and the verdict is DROP. -/
theorem minecraft_filter_ping_scenario_counterexample :
    inspect_ping_request (sample_frame sample_ping).payload = some true ∧
    (minecraft_filter sample_common sample_env_no_write (sample_maps 5 0)
      (sample_frame sample_ping)).map Prod.fst = some XDP_DROP := by decide

/-- A ping request on a flow in `AWAIT_PING`, then a further data packet. -/
theorem minecraft_filter_ping_scenario_witness :
    ∃ m1, minecraft_filter sample_common sample_env (sample_maps 5 0) (sample_frame sample_ping)
        = some (XDP_PASS, m1) ∧
      ∃ m2, minecraft_filter sample_common sample_env m1 (sample_frame [0x00])
        = some (XDP_DROP, m2) := by
  obtain ⟨-, -, m1, h1, -, m2, h2, -⟩ := minecraft_filter_ping_scenario sample_common (by decide)
    sample_env sample_env (sample_maps 5 0) (sample_frame sample_ping) (sample_frame [0x00])
    { state := 5, protocol := 759, fails := 0 } [0x11, 0x22, 0x33, 0x44, 0x55, 0x66, 0x77, 0x88]
    (by decide) rfl rfl (by decide) rfl rfl (by decide) rfl rfl (by decide) rfl rfl (by decide)
  exact ⟨m1, h1, m2, h2⟩

/-- C15 (amended): completing the ping exchange is not treated like a finished login.  In the
step where a flow without player session in `AWAIT_PING` receives a ping request that
`inspect_ping_request` accepts, no player-session entry is created or refreshed and the flow
record is kept, with state `PING_COMPLETE`; the verdict is PASS when the store write of line
517 succeeds and DROP otherwise.  A player-session entry is created, and the flow record
deleted, only by a login: in the step where `inspect_login_packet` accepts the payload of a flow
in `AWAIT_LOGIN`, or where `inspect_handshake` returns `LOGIN_FINISHED` for a handshake-pending
flow, with the session write succeeding, the verdict is PASS, the session of the flow holds the
current time and the flow record is gone.  The state constants are taken non-zero and pairwise
different. -/
theorem minecraft_filter_ping_no_session (c : Common) (hc : c.distinct) (env : Env) (m : Maps)
    (f : Frame) (st : initial_state)
    (hf : f.inspected) (hsyn : f.syn = false) (hack : f.ack = true)
    (hping : inspect_ping_request f.payload = some true)
    (hsess : m.player_connection_map f.flow_key = none)
    (hrec : m.conntrack_map f.flow_key = some st) (hstate : st.state = c.AWAIT_PING) :
    (∃ m1, minecraft_filter c env m f
        = some (if env.conntrack_write_ok = true then XDP_PASS else XDP_DROP, m1) ∧
      m1.player_connection_map = m.player_connection_map ∧
      m1.conntrack_map f.flow_key
        = some { state := c.PING_COMPLETE, protocol := st.protocol, fails := st.fails } ∧
      m1.blocked_ips = m.blocked_ips ∧ m1.connection_throttle = m.connection_throttle) ∧
    (∀ (env2 : Env) (m2 : Maps) (g : Frame) (st2 : initial_state),
      g.inspected → g.syn = false → g.ack = true → g.payload ≠ [] →
      m2.player_connection_map g.flow_key = none → m2.conntrack_map g.flow_key = some st2 →
      ((st2.state = c.AWAIT_LOGIN ∧ inspect_login_packet g.payload st2.protocol = some true) ∨
        (st2.state = c.AWAIT_MC_HANDSHAKE ∧
          ∃ v, inspect_handshake c g.payload 0 g.dest = some (c.LOGIN_FINISHED, v))) →
      env2.session_write_ok = true →
      ∃ m3, minecraft_filter c env2 m2 g = some (XDP_PASS, m3) ∧
        m3.player_connection_map g.flow_key = some env2.now ∧
        m3.conntrack_map g.flow_key = none) := by
  have hne : f.payload ≠ [] := by
    intro e
    rw [e] at hping
    exact absurd hping (by decide)
  have hna : st.state ≠ c.AWAIT_ACK := by rw [hstate]; exact (distinct_states c hc).2.2.1
  constructor
  · rw [minecraft_filter_inspected c env m f hf, hsyn, if_neg (by simp),
      filter_flow_tracked c env m f st hsess hrec hna, hstate,
      filter_payload_ping c hc env m f f.flow_key st hack hne hping]
    unfold filter_next
    cases hw : env.conntrack_write_ok
    · simp only [Bool.false_eq_true, if_false]
      exact ⟨_, rfl, rfl, by simp [map_update_apply], rfl, rfl⟩
    · simp only [if_true]
      exact ⟨_, rfl, rfl, by simp [map_update_apply], rfl, rfl⟩
  · intro env2 m2 g st2 hg hgsyn hgack hgpay hs2 hr2 hcase hw2
    obtain ⟨d1, d2, d3, d4, d5, d6, d7, d8, d9, d10⟩ := distinct_states c hc
    rw [minecraft_filter_inspected c env2 m2 g hg, hgsyn, if_neg (by simp)]
    rcases hcase with ⟨hst, hlogin⟩ | ⟨hst, v, hhs⟩
    · have hna2 : st2.state ≠ c.AWAIT_ACK := by rw [hst]; exact d4
      rw [filter_flow_tracked c env2 m2 g st2 hs2 hr2 hna2, hst,
        filter_payload_login c hc env2 m2 g g.flow_key st2 hgack hgpay hlogin, if_pos hw2]
      exact ⟨_, rfl, by simp [map_update_apply], by simp [map_delete_apply]⟩
    · have hna2 : st2.state ≠ c.AWAIT_ACK := by rw [hst]; exact d1
      obtain ⟨z, l⟩ := distinct_success c hc c.LOGIN_FINISHED (Or.inr (Or.inr (Or.inr rfl)))
      rw [filter_flow_tracked c env2 m2 g st2 hs2 hr2 hna2, hst]
      unfold filter_payload
      rw [if_pos (payload_nonempty g hgpay), if_neg (by simp [hgack]), if_pos rfl, hhs]
      simp only []
      rw [if_neg z, if_neg l]
      unfold filter_advance
      simp only [if_true, hw2]
      exact ⟨_, rfl, by simp [map_update_apply], by simp [map_delete_apply]⟩

/-- C15 (counterexample): a record in `AWAIT_PING` and an accepted ping request, with every
write succeeding: the verdict is PASS, no player session exists for the flow afterwards and the
flow record is still stored, in `PING_COMPLETE`. -/
theorem minecraft_filter_ping_no_session_counterexample :
    inspect_ping_request (sample_frame sample_ping).payload = some true ∧
    (minecraft_filter sample_common sample_env (sample_maps 5 0) (sample_frame sample_ping)).map
      (fun r => (r.1, r.2.player_connection_map (sample_frame sample_ping).flow_key,
        r.2.conntrack_map (sample_frame sample_ping).flow_key))
      = some (XDP_PASS, none, some { state := 6, protocol := 759, fails := 0 }) := by decide

/-- The ping request of the counterexample under the amended claim. -/
theorem minecraft_filter_ping_no_session_witness :
    ∃ m1, minecraft_filter sample_common sample_env (sample_maps 5 0) (sample_frame sample_ping)
        = some (XDP_PASS, m1) ∧
      m1.player_connection_map = (sample_maps 5 0).player_connection_map := by
  obtain ⟨m1, h1, h2, -⟩ := (minecraft_filter_ping_no_session sample_common (by decide)
    sample_env (sample_maps 5 0) (sample_frame sample_ping)
    { state := 5, protocol := 759, fails := 0 } (by decide) rfl rfl (by decide) rfl (by decide)
    rfl).1
  exact ⟨m1, h1, h2⟩

/-! ## Ranges below the minimum, and the sign of a decoded value -/

/-- C19: ranges below the minimum are never accepted.  `inspect_status_request` returns false
on every range of fewer than 2 bytes, `inspect_ping_request` on every range of fewer than 10
bytes and `inspect_login_packet` on every range of fewer than 4 bytes, for every protocol
version; on a range of fewer than 8 bytes `inspect_handshake` returns 0 or
`RECEIVED_LEGACY_PING`, hence none of `AWAIT_STATUS_REQUEST`, `AWAIT_LOGIN`, `AWAIT_PING` and
`LOGIN_FINISHED` (the state constants being non-zero and pairwise different).  No read of
these calls faults. -/
theorem inspectors_below_minimum (c : Common) (hc : c.distinct) :
    (∀ buf : List Byte, buf.length < 2 → inspect_status_request buf = some false) ∧
    (∀ buf : List Byte, buf.length < 10 → inspect_ping_request buf = some false) ∧
    (∀ (buf : List Byte) (v : Int), buf.length < 4 → inspect_login_packet buf v = some false) ∧
    (∀ (buf : List Byte) (pv : Int) (d : Nat), buf.length < 8 →
      ∃ r v, inspect_handshake c buf pv d = some (r, v) ∧
        (r = 0 ∨ r = c.RECEIVED_LEGACY_PING) ∧
        r ≠ c.AWAIT_STATUS_REQUEST ∧ r ≠ c.AWAIT_LOGIN ∧ r ≠ c.AWAIT_PING ∧
        r ≠ c.LOGIN_FINISHED) := by
  refine ⟨?_, ?_, ?_, ?_⟩
  · intro buf h
    unfold inspect_status_request
    rw [if_neg (by omega)]
  · intro buf h
    unfold inspect_ping_request
    rw [if_neg (by simp only [PING_REQUEST_LEN]; omega)]
  · intro buf v h
    unfold inspect_login_packet
    simp only []
    rw [if_pos (by simp only [MIN_LOGIN_LEN]; omega)]
  · intro buf pv d h
    have hres : ∃ r v, inspect_handshake c buf pv d = some (r, v) ∧
        (r = 0 ∨ r = c.RECEIVED_LEGACY_PING) := by
      by_cases hfe : buf[0]? = some 0xFE
      · exact ⟨_, _, inspect_handshake_legacy c buf pv d hfe, Or.inr rfl⟩
      · refine ⟨0, pv, ?_, Or.inl rfl⟩
        unfold inspect_handshake
        simp only []
        have hsize : (buf.length : Int) > MAX_HANDSHAKE_LEN + MAX_LOGIN_LEN ∨
            (buf.length : Int) < MIN_HANDSHAKE_LEN := by
          right; simp only [MIN_HANDSHAKE_LEN]; omega
        by_cases h1 : 1 ≤ buf.length
        · rw [if_pos h1]
          obtain ⟨b0, e⟩ := getElem?_of_lt buf 0 (by omega)
          have hne : b0.val ≠ 0xFE :=
            fun hv => hfe (by rw [e]; exact congrArg some (Fin.ext hv))
          rw [e]
          simp only [decide_eq_false hne]
          rw [if_pos hsize]
        · rw [if_neg h1]
          simp only []
          rw [if_pos hsize]
    obtain ⟨r, v, e, hr⟩ := hres
    refine ⟨r, v, e, hr, ?_⟩
    refine ⟨fun h1 => ?_, fun h1 => ?_, fun h1 => ?_, fun h1 => ?_⟩
    · have := distinct_success c hc r (Or.inl h1); rcases hr with h0 | h0 <;> simp_all
    · have := distinct_success c hc r (Or.inr (Or.inl h1)); rcases hr with h0 | h0 <;> simp_all
    · have := distinct_success c hc r (Or.inr (Or.inr (Or.inl h1)))
      rcases hr with h0 | h0 <;> simp_all
    · have := distinct_success c hc r (Or.inr (Or.inr (Or.inr h1)))
      rcases hr with h0 | h0 <;> simp_all

/-- A 1-byte status range, a 9-byte ping range, a 3-byte login range and a 7-byte handshake
range. -/
theorem inspectors_below_minimum_witness :
    inspect_status_request [0x01] = some false ∧
    inspect_ping_request [0x09, 0x01, 0, 0, 0, 0, 0, 0, 0] = some false ∧
    inspect_login_packet [0x02, 0x00, 0x01] 759 = some false ∧
    ∃ r v, inspect_handshake sample_common [0x06, 0x00, 0x2F, 0x01, 0x61, 0x63, 0xDD] 0 25565
        = some (r, v) ∧ r ≠ sample_common.AWAIT_STATUS_REQUEST := by
  obtain ⟨h1, h2, h3, h4⟩ := inspectors_below_minimum sample_common (by decide)
  obtain ⟨r, v, e, -, hr, -⟩ := h4 [0x06, 0x00, 0x2F, 0x01, 0x61, 0x63, 0xDD] 0 25565 (by decide)
  exact ⟨h1 _ (by decide), h2 _ (by decide), h3 _ 759 (by decide), r, v, e, hr⟩

/-- C20 (amended): the sign of a decoded value.  Whenever `read_varint_sized` returns a non-zero
count `n`, for every range and every `max_size`: when `n <= 4` the value in the output slot is
`>= 0` and `< 2^(7*n)`; when `n = 5` it is a signed 32-bit number, negative exactly when bit 3
(`0x08`) of the fifth byte is set. -/
theorem read_varint_sized_sign (buf : List Byte) (slot : Int) (max_size n : Nat) (v : Int)
    (h : read_varint_sized buf slot max_size = some (n, v)) (hn : n ≠ 0) :
    (n ≤ 4 → 0 ≤ v ∧ v < 2 ^ (7 * n)) ∧
    (n = 5 → -2 ^ 31 ≤ v ∧ v < 2 ^ 31 ∧
      (v < 0 ↔ ∃ b, buf[4]? = some b ∧ b.val &&& 0x08 ≠ 0)) := by
  obtain ⟨n', v', e, -, hlen, h5, -, hv⟩ := read_varint_sized_spec buf slot max_size
  rw [h] at e
  cases e
  obtain ⟨-, hval⟩ := hv hn
  have hl : (buf.take n).length = n := by rw [List.length_take]; omega
  have hlt := varint_sum_lt (buf.take n)
  rw [hl] at hlt
  constructor
  · intro h4
    have hpow : (128 : Nat) ^ n ≤ 128 ^ 4 := Nat.pow_le_pow_right (by norm_num) h4
    have hs : varint_sum (buf.take n) < 2 ^ 31 := by
      have : (128 : Nat) ^ 4 < 2 ^ 31 := by norm_num
      omega
    rw [hval, int32_small _ hs]
    refine ⟨by positivity, ?_⟩
    have e7 : (2 : Int) ^ (7 * n) = ((128 ^ n : Nat) : Int) := by
      rw [pow_mul]; norm_num
    rw [e7]
    exact_mod_cast hlt
  · intro hn5
    subst hn5
    refine ⟨hval ▸ (int32_range _).1, hval ▸ (int32_range _).2, ?_⟩
    rw [hval, int32_neg_iff]
    rcases buf with _ | ⟨a, _ | ⟨b, _ | ⟨c, _ | ⟨d, _ | ⟨e, t⟩⟩⟩⟩⟩
    all_goals simp only [List.length_cons, List.length_nil] at hlen
    all_goals try omega
    simp only [List.take_succ_cons, List.take_zero, varint_sum, and_7F, List.getElem?_cons_succ,
      List.getElem?_cons_zero, Option.some.injEq, exists_eq_left', bit3_set]
    have ha : a.val % 128 < 128 := Nat.mod_lt _ (by norm_num)
    have hb : b.val % 128 < 128 := Nat.mod_lt _ (by norm_num)
    have hc : c.val % 128 < 128 := Nat.mod_lt _ (by norm_num)
    have hd : d.val % 128 < 128 := Nat.mod_lt _ (by norm_num)
    omega

/-- C20 (counterexample): the five bytes `FF FF FF FF 0F` decode, with `max_size` 5, to the
count 5 and the value -1. -/
theorem read_varint_sized_sign_counterexample :
    read_varint_sized [0xFF, 0xFF, 0xFF, 0xFF, 0x0F] 0 5 = some (5, -1) ∧ ¬ ((0 : Int) ≤ -1) := by
  decide

/-- The five bytes `FF FF FF FF 07`: bit 3 of the fifth byte is clear and the value is
`2^31 - 1`. -/
theorem read_varint_sized_sign_witness :
    read_varint_sized [0xFF, 0xFF, 0xFF, 0xFF, 0x07] 0 5 = some (5, 2147483647) ∧
    ((2147483647 : Int) < 0 ↔
      ∃ b, ([0xFF, 0xFF, 0xFF, 0xFF, 0x07] : List Byte)[4]? = some b ∧ b.val &&& 0x08 ≠ 0) :=
  ⟨by decide, ((read_varint_sized_sign [0xFF, 0xFF, 0xFF, 0xFF, 0x07] 0 5 5 2147483647
    (by decide) (by decide)).2 rfl).2.2⟩

/-! ## The session store across one invocation -/

/-- The differences between `LOGIN_FINISHED` and the other results of the handshake
inspector. -/
theorem distinct_login_finished (c : Common) (hc : c.distinct) :
    c.LOGIN_FINISHED ≠ 0 ∧ c.LOGIN_FINISHED ≠ c.RECEIVED_LEGACY_PING ∧
    c.AWAIT_STATUS_REQUEST ≠ c.LOGIN_FINISHED ∧ c.AWAIT_LOGIN ≠ c.LOGIN_FINISHED ∧
    c.AWAIT_PING ≠ c.LOGIN_FINISHED := by
  simp only [Common.distinct, List.nodup_cons, List.mem_cons, List.mem_singleton, not_or,
    List.not_mem_nil, List.nodup_nil, not_false_eq_true, and_true] at hc
  obtain ⟨⟨-, -, -, -, -, -, z7, -⟩, -, -, ⟨-, -, -, s7, -⟩, ⟨-, -, l7, -⟩, ⟨-, p7, -⟩, -, f8⟩ := hc
  exact ⟨fun e => z7 e.symm, f8, s7, l7, p7⟩

theorem inspect_handshake_login_finished (c : Common) (hc : c.distinct) (buf : List Byte)
    (pv : Int) (d : Nat) (v : Int)
    (h : inspect_handshake c buf pv d = some (c.LOGIN_FINISHED, v)) :
    ∃ (hd : HandshakeHead) (rest : List Byte), buf = hd.bytes ++ rest ∧ hd.well_formed ∧
      intention_permitted hd.intention hd.version ∧ hd.intention.val ≠ 1 ∧ rest ≠ [] ∧
      inspect_login_packet rest hd.version = some true ∧ v = hd.version := by
  obtain ⟨z, l, s7, l7, p7⟩ := distinct_login_finished c hc
  have hfe : buf[0]? ≠ some 0xFE := by
    intro e
    rw [inspect_handshake_legacy c buf pv d e] at h
    exact l (congrArg Prod.fst (Option.some.inj h)).symm
  obtain ⟨hd, rest, e, hwf, hperm, h8, hmax, hv⟩ :=
    inspect_handshake_success c buf pv d c.LOGIN_FINISHED v h z hfe
  refine ⟨hd, rest, e, hwf, hperm, ?_⟩
  subst e
  rw [inspect_handshake_head c hd rest pv d hwf h8 hmax hfe, if_pos hperm] at h
  have hres : handshake_result c hd rest = c.LOGIN_FINISHED :=
    congrArg Prod.fst (Option.some.inj h)
  unfold handshake_result at hres
  by_cases hr : rest = []
  · rw [if_pos hr] at hres
    split_ifs at hres
    · exact (s7 hres).elim
    · exact (l7 hres).elim
  rw [if_neg hr] at hres
  by_cases hi : hd.intention.val = 1
  · rw [if_pos hi] at hres
    split_ifs at hres
    · exact (p7 hres).elim
    · exact (z hres.symm).elim
  rw [if_neg hi] at hres
  by_cases hl : inspect_login_packet rest hd.version = some true
  · exact ⟨hi, hr, hl, hv⟩
  · rw [if_neg hl] at hres
    exact (z hres.symm).elim

theorem retransmission_sessions (c : Common) (env : Env) (m : Maps) (k : ipv4_flow_key)
    (st : initial_state) :
    (retransmission c env m k st).2.player_connection_map = m.player_connection_map := by
  unfold retransmission
  simp only []
  split_ifs <;> rfl

theorem filter_next_sessions (env : Env) (m : Maps) (k : ipv4_flow_key)
    (st : initial_state) (n : Nat) :
    (filter_next env m k st n).2.player_connection_map = m.player_connection_map := by
  unfold filter_next
  simp only []
  split_ifs <;> rfl

theorem filter_new_flow_sessions (c : Common) (env : Env) (m : Maps) (f : Frame) :
    (filter_new_flow c env m f).2.player_connection_map = m.player_connection_map := by
  unfold filter_new_flow
  simp only []
  split
  · rfl
  · split_ifs <;> rfl

theorem filter_syn_sessions (c : Common) (env : Env) (m : Maps) (f : Frame) :
    (filter_syn c env m f).2.player_connection_map = m.player_connection_map := by
  unfold filter_syn
  simp only []
  cases hb : m.blocked_ips f.saddr with
  | some t => rfl
  | none =>
    cases ht : m.connection_throttle f.saddr with
    | some count =>
      simp only []
      by_cases h1 : count > HIT_COUNT
      · rw [if_pos h1]
      · rw [if_neg h1]
        cases hw : env.throttle_write_ok with
        | false => rfl
        | true => rw [if_pos rfl, filter_new_flow_sessions]
    | none =>
      simp only []
      cases hw : env.throttle_write_ok with
      | false => rfl
      | true => rw [if_pos rfl, filter_new_flow_sessions]

/-- The session store after `filter_advance`: a new entry only for the flow itself, with the
current time, and only when the next state is `LOGIN_FINISHED`. -/
theorem filter_advance_sessions (c : Common) (env : Env) (m : Maps) (key : ipv4_flow_key)
    (st : initial_state) (n : Nat) (v : Int) (k : ipv4_flow_key) (t : Nat)
    (hb : m.player_connection_map k = none)
    (ha : (filter_advance c env m key st n v).2.player_connection_map k = some t) :
    k = key ∧ t = env.now ∧ n = c.LOGIN_FINISHED ∧ env.session_write_ok = true ∧
      (filter_advance c env m key st n v).1 = XDP_PASS := by
  unfold filter_advance at ha ⊢
  simp only [] at ha ⊢
  by_cases h1 : n = c.LOGIN_FINISHED
  · rw [if_pos h1] at ha ⊢
    cases hw : env.session_write_ok with
    | false =>
      rw [hw] at ha
      simp only [Bool.false_eq_true, if_false] at ha
      rw [hb] at ha; cases ha
    | true =>
      rw [hw] at ha
      simp only [if_true, map_update_apply] at ha
      by_cases hk : k = key
      · rw [if_pos hk] at ha
        exact ⟨hk, (Option.some.inj ha).symm, h1, rfl, rfl⟩
      · rw [if_neg hk, hb] at ha; cases ha
  · rw [if_neg h1] at ha
    split_ifs at ha <;> (rw [hb] at ha; cases ha)

/-- The session store after the payload dispatch: a key without session gets one only when it
is the flow's own key, the packet carries ACK and a payload, and either the handshake inspector
returned `LOGIN_FINISHED` in the handshake state or the login inspector accepted the payload
in the login state. -/
theorem filter_payload_sessions (c : Common) (env : Env) (m : Maps) (f : Frame)
    (key : ipv4_flow_key) (st : initial_state) (state : Nat) (r : xdp_action × Maps)
    (k : ipv4_flow_key) (t : Nat)
    (h : filter_payload c env m f key st state = some r)
    (hb : m.player_connection_map k = none) (ha : r.2.player_connection_map k = some t) :
    k = key ∧ t = env.now ∧ r.1 = XDP_PASS ∧ f.payload_offset < f.data.length ∧
      f.ack = true ∧ env.session_write_ok = true ∧
      ((state = c.AWAIT_MC_HANDSHAKE ∧
          ∃ v, inspect_handshake c f.payload 0 f.dest = some (c.LOGIN_FINISHED, v)) ∨
        (state = c.AWAIT_LOGIN ∧ inspect_login_packet f.payload st.protocol = some true)) := by
  have none_some : ∀ {P : Prop} (m0 : Maps), m0.player_connection_map = m.player_connection_map →
      m0.player_connection_map k = some t → P := by
    intro P m0 e h0
    rw [e, hb] at h0
    cases h0
  unfold filter_payload at h
  by_cases h0 : f.payload_offset < f.data.length
  swap
  · rw [if_neg h0] at h; cases h; exact none_some m rfl ha
  rw [if_pos h0] at h
  by_cases h1 : (!f.ack) = true
  · rw [if_pos h1] at h; cases h; exact none_some _ rfl ha
  rw [if_neg h1] at h
  have hack : f.ack = true := by simpa using h1
  by_cases s1 : state = c.AWAIT_MC_HANDSHAKE
  · rw [if_pos s1] at h
    cases hi : inspect_handshake c f.payload 0 f.dest with
    | none => rw [hi] at h; cases h
    | some p =>
      obtain ⟨n, v⟩ := p
      rw [hi] at h
      simp only [] at h
      by_cases hn0 : n = 0
      · rw [if_pos hn0] at h; cases h
        exact none_some _ (retransmission_sessions _ _ _ _ _) ha
      rw [if_neg hn0] at h
      by_cases hnl : n = c.RECEIVED_LEGACY_PING
      · rw [if_pos hnl] at h; cases h; exact none_some _ rfl ha
      rw [if_neg hnl] at h
      cases h
      obtain ⟨e1, e2, e3, e4, e5⟩ := filter_advance_sessions c env m key st n v k t hb ha
      subst e3
      exact ⟨e1, e2, e5, h0, hack, e4, Or.inl ⟨s1, v, rfl⟩⟩
  rw [if_neg s1] at h
  by_cases s2 : state = c.AWAIT_STATUS_REQUEST
  · rw [if_pos s2] at h
    cases hi : inspect_status_request f.payload with
    | none => rw [hi] at h; cases h
    | some b =>
      rw [hi] at h
      cases b <;> cases h
      · exact none_some _ (retransmission_sessions _ _ _ _ _) ha
      · exact none_some _ (filter_next_sessions _ _ _ _ _) ha
  rw [if_neg s2] at h
  by_cases s3 : state = c.AWAIT_PING
  · rw [if_pos s3] at h
    cases hi : inspect_ping_request f.payload with
    | none => rw [hi] at h; cases h
    | some b =>
      rw [hi] at h
      cases b <;> cases h
      · exact none_some _ (retransmission_sessions _ _ _ _ _) ha
      · exact none_some _ (filter_next_sessions _ _ _ _ _) ha
  rw [if_neg s3] at h
  by_cases s4 : state = c.AWAIT_LOGIN
  · rw [if_pos s4] at h
    cases hi : inspect_login_packet f.payload st.protocol with
    | none => rw [hi] at h; cases h
    | some b =>
      rw [hi] at h
      cases b
      · cases h; exact none_some _ (retransmission_sessions _ _ _ _ _) ha
      · simp only [] at h
        cases hw : env.session_write_ok with
        | false =>
          rw [hw] at h
          simp only [Bool.false_eq_true, if_false] at h
          cases h; exact none_some _ rfl ha
        | true =>
          rw [hw] at h
          simp only [if_true] at h
          cases h
          simp only [map_update_apply] at ha
          by_cases hk : k = key
          · rw [if_pos hk] at ha
            exact ⟨hk, (Option.some.inj ha).symm, rfl, h0, hack, rfl, Or.inr ⟨s4, rfl⟩⟩
          · rw [if_neg hk, hb] at ha; cases ha
  rw [if_neg s4] at h
  split_ifs at h <;> cases h <;> exact none_some _ rfl ha

/-- The session store after a packet without SYN.  `st0` is the record the packet finds and
`st` the record as it stands when the payload dispatch runs: the same, or, for a record in
`AWAIT_ACK`, the record that line 453 has moved to the handshake-pending state. -/
theorem filter_flow_sessions (c : Common) (env : Env) (m : Maps) (f : Frame)
    (r : xdp_action × Maps) (k : ipv4_flow_key) (t : Nat)
    (h : filter_flow c env m f = some r)
    (hb : m.player_connection_map k = none) (ha : r.2.player_connection_map k = some t) :
    k = f.flow_key ∧ t = env.now ∧ r.1 = XDP_PASS ∧ f.payload_offset < f.data.length ∧
      f.ack = true ∧ env.session_write_ok = true ∧
      ∃ (st0 st : initial_state) (m1 : Maps), m.conntrack_map f.flow_key = some st0 ∧
        (st = st0 ∨ (st0.state = c.AWAIT_ACK ∧ env.ack_write_ok = true ∧ st = ack_record c st0)) ∧
        m1.conntrack_map f.flow_key = some st ∧
        m1.player_connection_map = m.player_connection_map ∧
        filter_flow c env m f = filter_payload c env m1 f f.flow_key st st.state ∧
        ((st.state = c.AWAIT_MC_HANDSHAKE ∧
            ∃ v, inspect_handshake c f.payload 0 f.dest = some (c.LOGIN_FINISHED, v)) ∨
          (st.state = c.AWAIT_LOGIN ∧ inspect_login_packet f.payload st.protocol = some true)) := by
  have hfl := h
  unfold filter_flow at h
  simp only [] at h
  cases hs : m.player_connection_map f.flow_key with
  | some t0 =>
    rw [hs] at h
    simp only [] at h
    have hk : k ≠ f.flow_key := by
      intro e; rw [e, hs] at hb; cases hb
    split_ifs at h <;> cases h
    · simp only [bpf_map_update_elem_apply] at ha
      split_ifs at ha
      · rw [hb] at ha; cases ha
      · rw [hb] at ha; cases ha
    · rw [hb] at ha; cases ha
  | none =>
    rw [hs] at h
    simp only [] at h
    cases hr : m.conntrack_map f.flow_key with
    | none => rw [hr] at h; cases h; rw [hb] at ha; cases ha
    | some st0 =>
      rw [hr] at h
      simp only [] at h
      by_cases hst : st0.state = c.AWAIT_ACK
      · rw [if_pos hst] at h
        cases hack : f.ack with
        | false =>
          rw [hack] at h
          simp only [Bool.not_false, if_true] at h
          cases h; rw [hb] at ha; cases ha
        | true =>
          have hflow := filter_flow_await_ack c env m f st0 hack hs hr hst
          cases hw : env.ack_write_ok with
          | false =>
            rw [hw, if_neg (by simp)] at hflow
            rw [hflow] at hfl
            cases hfl
            rw [hb] at ha; cases ha
          | true =>
            rw [hw, if_pos rfl] at hflow
            rw [hflow] at hfl
            obtain ⟨e1, e2, e3, e4, e5, e6, e7⟩ :=
              filter_payload_sessions c env _ f f.flow_key (ack_record c st0)
                c.AWAIT_MC_HANDSHAKE r k t hfl hb ha
            refine ⟨e1, e2, e3, e4, rfl, e6, st0, ack_record c st0,
              { m with conntrack_map := map_update m.conntrack_map f.flow_key (ack_record c st0) },
              rfl, Or.inr ⟨hst, rfl, rfl⟩, ?_, rfl, hflow, e7⟩
            simp [map_update_apply]
      · have hflow := filter_flow_tracked c env m f st0 hs hr hst
        rw [hflow] at hfl
        obtain ⟨e1, e2, e3, e4, e5, e6, e7⟩ :=
          filter_payload_sessions c env m f f.flow_key st0 st0.state r k t hfl hb ha
        exact ⟨e1, e2, e3, e4, e5, e6, st0, st0, m, rfl, Or.inl rfl, hr, rfl, hflow, e7⟩

theorem payload_of_offset (f : Frame) (h : f.payload_offset < f.data.length) :
    f.payload ≠ [] := by
  intro e
  have hlen : f.payload.length = f.data.length - f.payload_offset := List.length_drop _ _
  rw [e] at hlen
  simp only [List.length_nil] at hlen
  omega

/-- C21: trust is granted only after a validated login.  If a key has no player session before
an invocation of `minecraft_filter` and has one after it, then the key is the flow key of the
packet, the session holds the current time and the verdict is PASS; the packet passed the
header checks and the flag check, carries no SYN, has ACK set and a non-empty payload; the
flow had a record `st0`; and the payload dispatch ran on stores in which the record of the flow
is `st` (it is `st0`, or, when the packet found the record in `AWAIT_ACK`, the record that line
453 has just moved to the handshake-pending state), with either `st` in `AWAIT_LOGIN` and
`inspect_login_packet` accepting the whole payload under the stored protocol version, or `st`
handshake-pending and the payload made of well-formed handshake fields with a permitted
intention other than 1 followed by a non-empty remainder that `inspect_login_packet` accepts
under the version just decoded.  In particular the record is in neither the status nor the
ping state and the inspection of its state did not fail: no SYN, empty payload, status or ping
packet, failed inspection or packet of an untracked flow adds a session.  The state constants
are taken non-zero and pairwise different. -/
theorem minecraft_filter_trust_after_login (c : Common) (hc : c.distinct) (env : Env) (m : Maps)
    (f : Frame) (k : ipv4_flow_key) (t : Nat)
    (hbefore : m.player_connection_map k = none)
    (hafter : (minecraft_filter c env m f).map (fun r => r.2.player_connection_map k)
      = some (some t)) :
    k = f.flow_key ∧ t = env.now ∧
    (minecraft_filter c env m f).map Prod.fst = some XDP_PASS ∧
    f.inspected ∧ f.syn = false ∧ f.ack = true ∧ f.payload ≠ [] ∧
    ∃ (st0 st : initial_state) (m1 : Maps),
      m.conntrack_map f.flow_key = some st0 ∧
      (st = st0 ∨
        (st0.state = c.AWAIT_ACK ∧
          st = { state := c.AWAIT_MC_HANDSHAKE, protocol := st0.protocol, fails := st0.fails })) ∧
      m1.conntrack_map f.flow_key = some st ∧
      minecraft_filter c env m f = filter_payload c env m1 f f.flow_key st st.state ∧
      st.state ≠ c.AWAIT_STATUS_REQUEST ∧ st.state ≠ c.AWAIT_PING ∧
      ¬ inspection_fails c st f.payload f.dest ∧
      ((st.state = c.AWAIT_LOGIN ∧ st = st0 ∧
          inspect_login_packet f.payload st0.protocol = some true) ∨
        (st.state = c.AWAIT_MC_HANDSHAKE ∧
          ∃ (hd : HandshakeHead) (rest : List Byte), f.payload = hd.bytes ++ rest ∧
            hd.well_formed ∧ intention_permitted hd.intention hd.version ∧
            hd.intention.val ≠ 1 ∧ rest ≠ [] ∧
            inspect_login_packet rest hd.version = some true ∧
            inspect_handshake c f.payload 0 f.dest = some (c.LOGIN_FINISHED, hd.version))) := by
  obtain ⟨d1, d2, d3, d4, d5, d6, d7, d8, d9, d10⟩ := distinct_states c hc
  obtain ⟨z, l, s7, l7, p7⟩ := distinct_login_finished c hc
  cases hres : minecraft_filter c env m f with
  | none => rw [hres] at hafter; cases hafter
  | some r =>
    rw [hres] at hafter
    have ha : r.2.player_connection_map k = some t := Option.some.inj hafter
    have hf : f.inspected := by
      by_contra hn
      obtain ⟨v, e⟩ := minecraft_filter_not_inspected c env m f hn
      rw [e] at hres
      cases hres
      rw [hbefore] at ha
      cases ha
    have hstep := hres
    rw [minecraft_filter_inspected c env m f hf] at hres
    cases hsyn : f.syn with
    | true =>
      rw [hsyn, if_pos rfl] at hres
      cases hres
      rw [filter_syn_sessions, hbefore] at ha
      cases ha
    | false =>
      rw [hsyn, if_neg (by simp)] at hres
      obtain ⟨e1, e2, e3, e4, e5, e6, st0, st, m1, hr0, hst, hr1, -, hflow, hcase⟩ :=
        filter_flow_sessions c env m f r k t hres hbefore ha
      have hdisp : some r = filter_payload c env m1 f f.flow_key st st.state := by
        rw [← hflow, hres]
      have hst' : st = st0 ∨ (st0.state = c.AWAIT_ACK ∧
          st = { state := c.AWAIT_MC_HANDSHAKE, protocol := st0.protocol, fails := st0.fails }) := by
        rcases hst with h | ⟨h1, -, h2⟩
        · exact Or.inl h
        · exact Or.inr ⟨h1, h2⟩
      refine ⟨e1, e2, congrArg some e3, hf, rfl, e5, payload_of_offset f e4, st0, st, m1, hr0,
        hst', hr1, hdisp, ?_, ?_, ?_, ?_⟩
      · rcases hcase with ⟨h, -⟩ | ⟨h, -⟩ <;> rw [h]
        · exact fun e => d5 e.symm
        · exact d9
      · rcases hcase with ⟨h, -⟩ | ⟨h, -⟩ <;> rw [h]
        · exact fun e => d6 e.symm
        · exact d10
      · intro hfail
        rcases hcase with ⟨h, v, hv⟩ | ⟨h, hl⟩
        · rcases hfail with ⟨-, x⟩ | ⟨x, -⟩ | ⟨x, -⟩ | ⟨x, -⟩
          · rw [hv] at x
            exact z (Option.some.inj x)
          · exact d5 (x.symm.trans h)
          · exact d6 (x.symm.trans h)
          · exact d7 (x.symm.trans h)
        · rcases hfail with ⟨x, -⟩ | ⟨x, -⟩ | ⟨x, -⟩ | ⟨-, x⟩
          · exact d7 (h.symm.trans x)
          · exact d9 (h.symm.trans x)
          · exact d10 (h.symm.trans x)
          · rw [hl] at x
            cases x
      · rcases hcase with ⟨h, v, hv⟩ | ⟨h, hl⟩
        · right
          obtain ⟨hd, rest, p1, p2, p3, p4, p5, p6, p7'⟩ :=
            inspect_handshake_login_finished c hc f.payload 0 f.dest v hv
          exact ⟨h, hd, rest, p1, p2, p3, p4, p5, p6, by rw [hv, p7']⟩
        · left
          have hst0 : st = st0 := by
            rcases hst with e | ⟨-, -, e⟩
            · exact e
            · rw [e] at h
              exact (d7 h.symm).elim
          refine ⟨h, hst0, ?_⟩
          rw [← hst0]
          exact hl

/-- A handshake for version 759 followed by its login packet, on a handshake-pending flow
without session: the packet is passed and the session of the flow holds the clock value. -/
theorem minecraft_filter_trust_after_login_witness :
    (minecraft_filter sample_common sample_env (sample_maps 2 0)
      (sample_frame ((sample_head version_759 2).bytes ++ login_759))).map Prod.fst
      = some XDP_PASS ∧
    (sample_frame ((sample_head version_759 2).bytes ++ login_759)).ack = true := by
  obtain ⟨-, -, h1, -, -, h2, -⟩ := minecraft_filter_trust_after_login sample_common
    (by decide) sample_env (sample_maps 2 0)
    (sample_frame ((sample_head version_759 2).bytes ++ login_759))
    (sample_frame ((sample_head version_759 2).bytes ++ login_759)).flow_key 5000000000
    rfl (by decide)
  exact ⟨h1, h2⟩

/-! ## The retry budget at the keys the helpers really get -/

/-- C9 (the code at the failing input): under a retry budget of 3, a handshake-pending flow of
10.0.0.1 with 3 failures sends the 1-byte payload `00`, which fails the handshake inspection.
The verdict is DROP and the failure count becomes 4, above the budget, yet the flow is not
blocked: the blocklist has no entry for 10.0.0.1 (the write went to the key found at
`&src_ip`) and the flow record is still stored.  A second failing packet is dropped as well and
leaves the record with 5 failures, and a valid handshake with login sent after that is
passed. -/
theorem retransmission_budget_not_blocked :
    sample_common.MAX_RETRANSMISSION = 3 ∧
    (inspect_handshake sample_common (sample_frame [0x00]).payload 0 25565).map Prod.fst
      = some 0 ∧
    (minecraft_filter sample_common sample_env (sample_maps 2 3) (sample_frame [0x00])).map
      (fun r => (r.1, r.2.blocked_ips (sample_frame [0x00]).saddr,
        r.2.conntrack_map (sample_frame [0x00]).flow_key))
      = some (XDP_DROP, none, some { state := 2, protocol := 759, fails := 4 }) ∧
    (minecraft_filter_run sample_common (sample_maps 2 3)
      [(sample_env, sample_frame [0x00]), (sample_env, sample_frame [0x00])]).map
      (fun r => (r.1, r.2.blocked_ips (sample_frame [0x00]).saddr,
        r.2.conntrack_map (sample_frame [0x00]).flow_key))
      = some ([XDP_DROP, XDP_DROP], none, some { state := 2, protocol := 759, fails := 5 }) ∧
    (minecraft_filter_run sample_common (sample_maps 2 3)
      [(sample_env, sample_frame [0x00]), (sample_env, sample_frame [0x00]),
        (sample_env, sample_frame ((sample_head version_759 2).bytes ++ login_759))]).map
      Prod.fst = some [XDP_DROP, XDP_DROP, XDP_PASS] := by decide

end MinecraftFilter
